import Mathlib

/-!
ALB ingress controller: reconciliation of a load balancer and its target groups

A shallow embedding of `internal/alb/lb/loadbalancer.go`,
`internal/alb/tg/targetgroups.go` and `internal/albingress/albingresses.go`.

Conventions of the embedding.

* A Go pointer that may be nil is an `Option`.  A nil dereference or an index
  out of range is the outcome `Result.panic`.
* The cloud clients and the sub-reconcilers are collaborators.  Each call to
  one of them is answered by a field of `Env`, which sees the whole history of
  earlier calls, and is recorded as an `Event` (the call and the error it
  returned) at the end of the trace.
* A pointer that the code never tests for nil and that the constructors
  always set (the tags, the attributes, the elements of a collection, the
  subnet id of an availability zone) is a plain value.  The string pointers of
  a descriptor and the `HTTP` value of an ingress rule may be nil, and every
  dereference of one of them is modelled, those in the arguments of a log line
  or of an event included.
* Logging and event recording (`albctx.GetLogger`, `albctx.GetEventf`, `glog`)
  are not calls of the trace; only the dereferences in their arguments are
  modelled.
* A Go error is its message.
* The tasks that a worker pool runs at the same time are modelled by an
  explicit schedule, an argument of the function that queues them; a statement
  about the function holds for every schedule unless it names one.
-/

set_option linter.dupNamespace false

namespace ALB

/-- A Go `error`, represented by its message. -/
abbrev Error := String

/-! ## Descriptors of the cloud API -/

/-- The `elbv2.AvailabilityZone` descriptor; every entry carries its subnet id. -/
structure AvailabilityZone where
  SubnetId : String
  ZoneName : Option String
  deriving DecidableEq, Repr

/-- The `elbv2.LoadBalancer` descriptor. -/
structure ElbLoadBalancer where
  AvailabilityZones : List AvailabilityZone
  LoadBalancerName : Option String
  LoadBalancerArn : Option String
  Scheme : Option String
  IpAddressType : Option String
  VpcId : Option String
  DNSName : Option String
  deriving DecidableEq, Repr

/-- The `elbv2.TargetGroup` descriptor. -/
structure ElbTargetGroup where
  TargetGroupArn : Option String
  TargetGroupName : Option String
  deriving DecidableEq, Repr

/-- The `intstr.IntOrString` value of a service port. -/
inductive IntOrString where
  | ofInt (IntVal : Int)
  | ofString (StrVal : String)
  deriving DecidableEq, Repr

/-- The method `String()` of `intstr.IntOrString`: the string value, or the
decimal rendering of the integer value. -/
def IntOrString.String : IntOrString → String
  | .ofInt i => toString i
  | .ofString s => s

/-! ## Entities -/

/-- The `tg.TargetGroup` entity: its identity, its backend binding, the paired
state of its descriptor and its `deleted` flag. -/
structure TargetGroup where
  ID : String
  SvcName : String
  SvcPort : IntOrString
  current : Option ElbTargetGroup
  desired : Option ElbTargetGroup
  deleted : Bool
  deriving DecidableEq, Repr

/-- The ordered collection `tg.TargetGroups`. -/
abbrev TargetGroups := List TargetGroup

/-- The `tags.Tags` of a resource. -/
structure Tags where
  Arn : String
  Tags : List (String × String)
  deriving DecidableEq, Repr

/-- The load balancer `Attributes` handed to the attributes controller. -/
structure Attributes where
  LbArn : String
  items : List (String × String)
  deriving DecidableEq, Repr

/-- The `sg.Association` of a load balancer. -/
structure Association where
  LbID : String
  LbArn : String
  LbPorts : List Int
  LbInboundCIDRs : List String
  ExternalSGIDs : List String
  Targets : TargetGroups
  deriving DecidableEq, Repr

/-- The paired state `lb` of the load balancer descriptor. -/
structure lb where
  current : Option ElbLoadBalancer
  desired : Option ElbLoadBalancer
  deriving DecidableEq, Repr

/-- One half `opts` of the load balancer options. -/
structure opts where
  webACLId : Option String
  deriving DecidableEq, Repr

/-- The paired state `options` of the load balancer options. -/
structure options where
  current : opts
  desired : opts
  deriving DecidableEq, Repr

/-- The aggregate root `LoadBalancer`; `Ls` is the type of the collection
`ls.Listeners`, which belongs to a package outside this development. -/
structure LoadBalancer (Ls : Type) where
  id : String
  tags : Tags
  lb : lb
  options : options
  targetgroups : TargetGroups
  listeners : Ls
  sgAssociation : Association
  attributes : Attributes
  deleted : Bool
  deriving DecidableEq

/-- The `extensions.IngressBackend` of a path or of the default backend. -/
structure IngressBackend where
  ServiceName : String
  ServicePort : IntOrString
  deriving DecidableEq, Repr

/-- The `elbv2.CreateLoadBalancerInput` built by `create`. -/
structure CreateLoadBalancerInput where
  Name : Option String
  Subnets : List String
  Scheme : Option String
  IpAddressType : Option String
  Tags : List (String × String)
  deriving DecidableEq, Repr

/-! ## Calls to collaborators and their trace -/

/-- A call to a collaborator, with the arguments it receives. -/
inductive Call where
  | CreateLoadBalancer (input : CreateLoadBalancerInput)
  | Associate (arn : Option String) (webACLId : Option String)
  | Disassociate (arn : Option String)
  | SetSubnets (arn : Option String) (subnets : List String)
  | SetIpAddressType (arn : Option String) (ipAddressType : Option String)
  | DeleteLoadBalancer (arn : Option String)
  | SgAssociationDelete (a : Association)
  | SgAssociationReconcile (a : Association)
  | TagsReconcile (t : Tags)
  | LbAttributesReconcile (a : Attributes)
  | TargetGroupsReconcile (ignoreDeletes : Bool)
  | TargetGroupReconcile (tg : TargetGroup) (ignoreDeletes : Bool)
  | ListenersReconcile (arn : Option String) (targetGroups : TargetGroups)
  | ListenersStripCurrentState
  | NewDesiredTargetGroupFromBackend (backend : IngressBackend)
  deriving DecidableEq, Repr

/-- A completed call and the error it returned (`none` for a nil error). -/
structure Event where
  call : Call
  err : Option Error
  deriving DecidableEq, Repr

/-- The calls completed so far, oldest first. -/
abbrev Trace := List Event

/-- The outcome of a function that may panic: its value and the trace, or the
trace at the moment of the panic. -/
inductive Result (α : Type) where
  | ok (val : α) (trace : Trace)
  | panic (trace : Trace)

/-- The trace of an outcome. -/
def Result.trace {α : Type} : Result α → Trace
  | .ok _ t => t
  | .panic t => t

/-- The collaborators of the load balancer reconciler.  Every answer may
depend on the history of calls; a collaborator that receives a pointer also
returns the state it leaves the pointee in.  `ListenersReconcile` returns the
state of the field `listeners` after the call: the returned collection on
success, the receiver as the call left it on failure. -/
structure Env (Ls : Type) where
  CreateLoadBalancer : Trace → CreateLoadBalancerInput → Except Error (List ElbLoadBalancer)
  Associate : Trace → Option String → Option String → Option Error
  Disassociate : Trace → Option String → Option Error
  SetSubnets : Trace → Option String → List String → Option Error
  SetIpAddressType : Trace → Option String → Option String → Option Error
  DeleteLoadBalancer : Trace → Option String → Option Error
  SgAssociationDelete : Trace → Association → Option Error × Association
  SgAssociationReconcile : Trace → Association → Option Error × Association
  TagsReconcile : Trace → Tags → Option Error × Tags
  LbAttributesReconcile : Trace → Attributes → Option Error × Attributes
  TargetGroupReconcile : Trace → TargetGroup → Bool → Option Error × TargetGroup
  ListenersReconcile : Trace → Option String → TargetGroups → Ls → Option Error × Ls
  ListenersStripCurrentState : Ls → Ls
  Prettify : List String → String

/-! ## Helpers of the `aws` and `util` packages -/

/-- The helper `aws.StringValue`: the pointed-to string, or the empty string
for a nil pointer. -/
def StringValue (s : Option String) : String := s.getD ""

/-- Modelled from the spec: `util.DeepEqual` (package `pkg/util/types`, not
among the sources) compares two descriptor fields by the values they point
to; two nil pointers are equal and a nil pointer differs from any value. -/
def DeepEqual (a b : Option String) : Bool := decide (a = b)

/-- Modelled from the spec: `util.AvailabilityZones(..).AsSubnets()` (package
`pkg/util/types`, not among the sources) lists the subnet id of every
availability zone, in order. -/
def AsSubnets (azs : List AvailabilityZone) : List String := azs.map (·.SubnetId)

/-- The order of the subnet ids under `sort.Sort`: the non-strict form of
`*s[i] < *s[j]`, Go's order on strings, read on their characters. -/
def subnetLE (a b : String) : Prop := a.data ≤ b.data

/-- The order on subnet ids is decidable. -/
instance : DecidableRel subnetLE := fun a b => inferInstanceAs (Decidable (a.data ≤ b.data))

/-- The call `sort.Sort` on a list of subnet ids: the ascending rearrangement. -/
def sortSubnets (s : List String) : List String := s.insertionSort subnetLE

/-- The order on subnet ids is total. -/
instance : IsTotal String subnetLE := ⟨fun a b => le_total a.data b.data⟩

/-- The order on subnet ids is transitive. -/
instance : IsTrans String subnetLE := ⟨fun _ _ _ h1 h2 => le_trans (α := List Char) h1 h2⟩

/-- The order on subnet ids tells distinct strings apart. -/
instance : IsAntisymm String subnetLE :=
  ⟨fun _ _ h1 h2 => String.ext (le_antisymm (α := List Char) h1 h2)⟩

/-- The bitmask type `loadBalancerChange`. -/
abbrev loadBalancerChange := Nat

/-- Modelled from the spec: the change flags (declared outside the sources)
are distinct single bits of the bitmask; this one marks a subnet change. -/
def subnetsModified : loadBalancerChange := 1

/-- Modelled from the spec: the change flag (declared outside the sources) of
a scheme change, a single bit distinct from the others. -/
def schemeModified : loadBalancerChange := 4

/-- Modelled from the spec: the change flag (declared outside the sources) of
an IP address type change, a single bit distinct from the others. -/
def ipAddressTypeModified : loadBalancerChange := 64

/-- Modelled from the spec: the change flag (declared outside the sources) of
a change of the WAF association, a single bit distinct from the others. -/
def webACLAssociationModified : loadBalancerChange := 128

/-- Modelled from the spec: `options.needsModification` (declared outside the
sources) reports the WAF association flag when the current and the desired
web ACL id differ, and no change otherwise. -/
def options.needsModification (o : options) : loadBalancerChange :=
  if o.current.webACLId = o.desired.webACLId then 0 else webACLAssociationModified

/-! ## `tg.TargetGroups` -/

/-- The state a call of `TargetGroups.Reconcile` leaves behind: `elems` is the
receiver with every element in the state its own reconcile left it in,
`output` and `err` are the two values returned. -/
structure TargetGroupsReconciled where
  elems : TargetGroups
  output : TargetGroups
  err : Option Error
  deriving DecidableEq, Repr

/-- The loop of `TargetGroups.Reconcile` over the remaining elements, with the
output accumulated so far. -/
def TargetGroups.Reconcile.loop {Ls : Type} (env : Env Ls) (ignoreDeletes : Bool) :
    TargetGroups → TargetGroups → Trace → TargetGroupsReconciled × Trace
  | [], output, w => (⟨[], output, none⟩, w)
  | tg :: rest, output, w =>
    let r := env.TargetGroupReconcile w tg ignoreDeletes
    let w1 := w ++ [⟨.TargetGroupReconcile tg ignoreDeletes, r.1⟩]
    match r.1 with
    | some err => (⟨r.2 :: rest, [], some err⟩, w1)
    | none =>
      let next := TargetGroups.Reconcile.loop env ignoreDeletes rest
        (if r.2.deleted then output else output ++ [r.2]) w1
      (⟨r.2 :: next.1.elems, next.1.output, next.1.err⟩, next.2)

/-- The method `TargetGroups.Reconcile`: every element is reconciled in turn,
the first failure aborts the call, and the elements not marked deleted are
collected.  The call itself is recorded when it returns. -/
def TargetGroups.Reconcile {Ls : Type} (env : Env Ls) (t : TargetGroups) (ignoreDeletes : Bool)
    (w : Trace) : TargetGroupsReconciled × Trace :=
  let r := TargetGroups.Reconcile.loop env ignoreDeletes t [] w
  (r.1, r.2 ++ [⟨.TargetGroupsReconcile ignoreDeletes, r.1.err⟩])

/-- The loop of `TargetGroups.FindById` from position `p`. -/
def TargetGroups.FindById.loop (id : String) : TargetGroups → Int → Int × Option TargetGroup
  | [], _ => (-1, none)
  | v :: rest, p => if v.ID = id then (p, some v) else TargetGroups.FindById.loop id rest (p + 1)

/-- The method `TargetGroups.FindById`: the position and the first element
with the given ID, or `-1` and nil. -/
def TargetGroups.FindById (t : TargetGroups) (id : String) : Int × Option TargetGroup :=
  TargetGroups.FindById.loop id t 0

/-! ## `lb.LoadBalancer` -/

variable {Ls : Type}

/-- The method `needsModification`: the set of changes and whether they can
be applied in place; `none` is the nil dereference of the desired descriptor. -/
def LoadBalancer.needsModification (env : Env Ls) (l : LoadBalancer Ls) :
    Option (loadBalancerChange × Bool) :=
  match l.lb.current with
  | none => some (0, true)
  | some clb =>
    match l.lb.desired with
    | none => none
    | some dlb =>
      if !DeepEqual clb.Scheme dlb.Scheme then some (0 ||| schemeModified, false)
      else
        let changes : loadBalancerChange :=
          if !DeepEqual clb.IpAddressType dlb.IpAddressType then 0 ||| ipAddressTypeModified else 0
        let currentSubnets := sortSubnets (AsSubnets clb.AvailabilityZones)
        let desiredSubnets := sortSubnets (AsSubnets dlb.AvailabilityZones)
        let changes : loadBalancerChange :=
          if env.Prettify currentSubnets ≠ env.Prettify desiredSubnets then changes ||| subnetsModified
          else changes
        let c := l.options.needsModification
        let changes : loadBalancerChange := if c ≠ 0 then changes ||| c else changes
        some (changes, true)

/-- The request `in` that `create` builds from the desired descriptor and the
tags. -/
def createInput (desired : ElbLoadBalancer) (tags : Tags) : CreateLoadBalancerInput where
  Name := desired.LoadBalancerName
  Subnets := AsSubnets desired.AvailabilityZones
  Scheme := desired.Scheme
  IpAddressType := desired.IpAddressType
  Tags := tags.Tags

/-- The method `create`: one `CreateLoadBalancer` call, the new descriptor
made current, then the WAF association when a web ACL is desired.  Each of the
two failure paths dereferences a name for its warning event and panics when
that name is nil. -/
def LoadBalancer.create (env : Env Ls) (l : LoadBalancer Ls) (w : Trace) :
    Result (Option Error × LoadBalancer Ls) :=
  match l.lb.desired with
  | none => .panic w
  | some desired =>
    let input := createInput desired l.tags
    match env.CreateLoadBalancer w input with
    | .error err =>
      let w1 := w ++ [⟨.CreateLoadBalancer input, some err⟩]
      -- the warning event dereferences `in.Name`
      if input.Name = none then .panic w1 else .ok (some err, l) w1
    | .ok o =>
      let w1 := w ++ [⟨.CreateLoadBalancer input, none⟩]
      match o with
      | [] => .panic w1
      | created :: _ =>
        let l1 := { l with lb := { l.lb with current := some created } }
        match l1.options.desired.webACLId with
        | none => .ok (none, l1) w1
        | some webACLId =>
          let e := env.Associate w1 created.LoadBalancerArn (some webACLId)
          let w2 := w1 ++ [⟨.Associate created.LoadBalancerArn (some webACLId), e⟩]
          match e with
          | some err =>
            -- the warning event dereferences the name of the new descriptor
            if created.LoadBalancerName = none then .panic w2 else .ok (some err, l1) w2
          | none => .ok (none, l1) w2

/-- The method `delete`: the flag `deleted` is set, then the security groups
are detached, the web ACL is disassociated when one is current, and the load
balancer is deleted; the first failure is returned.  The failure paths of the
two cloud calls dereference the name of the current descriptor. -/
def LoadBalancer.delete (env : Env Ls) (l : LoadBalancer Ls) (w : Trace) :
    Result (Option Error × LoadBalancer Ls) :=
  let l0 := { l with deleted := true }
  match l0.lb.current with
  | none => .panic w
  | some current =>
    let sga := { l0.sgAssociation with LbArn := StringValue current.LoadBalancerArn }
    let r := env.SgAssociationDelete w sga
    let w1 := w ++ [⟨.SgAssociationDelete sga, r.1⟩]
    let l1 := { l0 with sgAssociation := r.2 }
    match r.1 with
    | some err => .ok (some ("failed disassociation of SecurityGroups due to " ++ err), l1) w1
    | none =>
      let waf : Option Error × Trace :=
        match l1.options.current.webACLId with
        | none => (none, w1)
        | some _ =>
          let e := env.Disassociate w1 current.LoadBalancerArn
          (e, w1 ++ [⟨.Disassociate current.LoadBalancerArn, e⟩])
      match waf.1 with
      | some err =>
        -- the warning event dereferences the name of the current descriptor
        if current.LoadBalancerName = none then .panic waf.2
        else .ok (some ("Failed disassociation of ELBV2 Web ACL: " ++ err ++ "."), l1) waf.2
      | none =>
        let e := env.DeleteLoadBalancer waf.2 current.LoadBalancerArn
        let w3 := waf.2 ++ [⟨.DeleteLoadBalancer current.LoadBalancerArn, e⟩]
        match e with
        | some err =>
          -- the warning event dereferences the name of the current descriptor
          if current.LoadBalancerName = none then .panic w3
          else .ok (some ("Failed deletion of ELBV2: " ++ err ++ "."), l1) w3
        | none => .ok (none, l1) w3

/-- The block `// Modify Web ACL` of `modify` and the `return nil` that ends
the method: the desired web ACL is associated, or the current one
disassociated, and on success the current web ACL id becomes the desired one.
A failed call dereferences the name of the current descriptor. -/
def LoadBalancer.modifyWebACL (env : Env Ls) (needsMod : loadBalancerChange)
    (l : LoadBalancer Ls) (w : Trace) : Result (Option Error × LoadBalancer Ls) :=
  if needsMod &&& webACLAssociationModified ≠ 0 then
    match l.lb.current with
    | none => .panic w
    | some current =>
      match l.options.desired.webACLId with
      | some webACLId =>
        let e := env.Associate w current.LoadBalancerArn (some webACLId)
        let w1 := w ++ [⟨.Associate current.LoadBalancerArn (some webACLId), e⟩]
        match e with
        | some err =>
          -- the warning event dereferences the name of the current descriptor
          if current.LoadBalancerName = none then .panic w1
          else .ok (some ("Failed associating Web ACL: " ++ err), l) w1
        | none =>
          .ok (none, { l with options := { l.options with current :=
            { l.options.current with webACLId := l.options.desired.webACLId } } }) w1
      | none =>
        let e := env.Disassociate w current.LoadBalancerArn
        let w1 := w ++ [⟨.Disassociate current.LoadBalancerArn, e⟩]
        match e with
        | some err =>
          -- the warning event dereferences the name of the current descriptor
          if current.LoadBalancerName = none then .panic w1
          else .ok (some ("Failed removing Web ACL association: " ++ err), l) w1
        | none =>
          .ok (none, { l with options := { l.options with current :=
            { l.options.current with webACLId := l.options.desired.webACLId } } }) w1
  else .ok (none, l) w

/-- The block `// Modify IP address type` of `modify`, followed by the rest of
the in-place branch.  The log line before the call dereferences the current IP
address type, and the event after the call the name of the current
descriptor. -/
def LoadBalancer.modifyIpAddressType (env : Env Ls) (needsMod : loadBalancerChange)
    (l : LoadBalancer Ls) (w : Trace) : Result (Option Error × LoadBalancer Ls) :=
  if needsMod &&& ipAddressTypeModified ≠ 0 then
    match l.lb.current, l.lb.desired with
    | some current, some desired =>
      -- the log line dereferences the current IP address type
      if current.IpAddressType = none then .panic w
      else
        let e := env.SetIpAddressType w current.LoadBalancerArn desired.IpAddressType
        let w1 := w ++ [⟨.SetIpAddressType current.LoadBalancerArn desired.IpAddressType, e⟩]
        -- the event of either outcome dereferences the name of the current descriptor
        if current.LoadBalancerName = none then .panic w1
        else
          match e with
          | some err => .ok (some ("Failed setting ELBV2 IP address type: " ++ err), l) w1
          | none =>
            let current1 := { current with IpAddressType := desired.IpAddressType }
            LoadBalancer.modifyWebACL env needsMod
              { l with lb := { l.lb with current := some current1 } } w1
    | _, _ => .panic w
  else LoadBalancer.modifyWebACL env needsMod l w

/-- The block `// Modify Subnets` of `modify`, followed by the rest of the
in-place branch.  The event after the call dereferences the name of the
current descriptor. -/
def LoadBalancer.modifySubnets (env : Env Ls) (needsMod : loadBalancerChange)
    (l : LoadBalancer Ls) (w : Trace) : Result (Option Error × LoadBalancer Ls) :=
  if needsMod &&& subnetsModified ≠ 0 then
    match l.lb.current, l.lb.desired with
    | some current, some desired =>
      let e := env.SetSubnets w current.LoadBalancerArn (AsSubnets desired.AvailabilityZones)
      let w1 := w ++
        [⟨.SetSubnets current.LoadBalancerArn (AsSubnets desired.AvailabilityZones), e⟩]
      -- the event of either outcome dereferences the name of the current descriptor
      if current.LoadBalancerName = none then .panic w1
      else
        match e with
        | some err => .ok (some ("Failed setting ELBV2 subnets: " ++ err), l) w1
        | none =>
          let current1 := { current with AvailabilityZones := desired.AvailabilityZones }
          LoadBalancer.modifyIpAddressType env needsMod
            { l with lb := { l.lb with current := some current1 } } w1
    | _, _ => .panic w
  else LoadBalancer.modifyIpAddressType env needsMod l w

/-- The method `modify`: nothing when no change is needed; the in-place blocks
for subnets, IP address type and web ACL, each returning at its failure; or,
when the change cannot be made in place, `delete`, the stripping of the
listeners' current state and `create`, whose errors are dropped.  The rebuild
dereferences the name of the current descriptor before `delete`, and the name
and the ARN of the descriptor that is current after `create`. -/
def LoadBalancer.modify (env : Env Ls) (l : LoadBalancer Ls) (w : Trace) :
    Result (Option Error × LoadBalancer Ls) :=
  match l.needsModification env with
  | none => .panic w
  | some (needsMod, canMod) =>
    if needsMod = 0 then .ok (none, l) w
    else if canMod then LoadBalancer.modifySubnets env needsMod l w
    else
      match l.lb.current with
      | none => .panic w
      | some current =>
        -- the rebuild event dereferences the name of the current descriptor
        if current.LoadBalancerName = none then .panic w
        else
          match l.delete env w with
          | .panic w1 => .panic w1
          | .ok (_, l1) w1 =>
            let l2 := { l1 with listeners := env.ListenersStripCurrentState l1.listeners }
            let w2 := w1 ++ [⟨.ListenersStripCurrentState, none⟩]
            match l2.create env w2 with
            | .panic w3 => .panic w3
            | .ok (_, l3) w3 =>
              -- the closing log line dereferences the name and the ARN of the
              -- descriptor that is current now
              match l3.lb.current with
              | none => .panic w3
              | some rebuilt =>
                if rebuilt.LoadBalancerName = none ∨ rebuilt.LoadBalancerArn = none then .panic w3
                else .ok (none, l3) w3

/-- What the `switch` of `Reconcile` leads to: the early `return errors` of a
failed creation, or the cascade, entered with the errors so far and the local
variable `lbc`. -/
inductive RootAction (Ls : Type) where
  | returns (errors : List Error) (l : LoadBalancer Ls)
  | continues (errors : List Error) (lbc : Option ElbLoadBalancer) (l : LoadBalancer Ls)

/-- The `switch` at the head of `Reconcile` (the root-level action): nothing
when both descriptors are nil, `delete` when only the desired one is nil,
`create` when only the current one is nil, `modify` otherwise.  After a
successful `delete` and after a successful `create` the name and the ARN of
`lbc` are dereferenced. -/
def LoadBalancer.reconcileRoot (env : Env Ls) (l : LoadBalancer Ls) (w : Trace) :
    Result (RootAction Ls) :=
  let lbc := l.lb.current
  let lbd := l.lb.desired
  match lbd, lbc with
  | none, none => .ok (.continues [] lbc l) w
  | none, some current =>
    match l.delete env w with
    | .panic w1 => .panic w1
    | .ok (some err, l1) w1 => .ok (.continues [err] lbc l1) w1
    | .ok (none, l1) w1 =>
      -- the event and the log line dereference the name and the ARN of `lbc`
      if current.LoadBalancerName = none ∨ current.LoadBalancerArn = none then .panic w1
      else .ok (.continues [] lbc l1) w1
  | some _, none =>
    match l.create env w with
    | .panic w1 => .panic w1
    | .ok (some err, l1) w1 => .ok (.returns [err] l1) w1
    | .ok (none, l1) w1 =>
      -- `lbc = l.lb.current`, then the event and the log line dereference its
      -- name and its ARN
      match l1.lb.current with
      | none => .panic w1
      | some created =>
        if created.LoadBalancerName = none ∨ created.LoadBalancerArn = none then .panic w1
        else .ok (.continues [] (some created) l1) w1
  | some _, some _ =>
    match l.modify env w with
    | .panic w1 => .panic w1
    | .ok (some err, l1) w1 => .ok (.continues [err] lbc l1) w1
    | .ok (none, l1) w1 => .ok (.continues [] lbc l1) w1

/-- The statement pair `tgs, err := l.targetgroups.Reconcile(ctx, tgsOpts)`
and `if err != nil { errors = append(errors, err) } else { l.targetgroups = tgs }`,
which `Reconcile` runs twice.  On failure the field keeps the collection it
had, whose elements are in the state their reconciles left them in. -/
def LoadBalancer.reconcileTargetGroups (env : Env Ls) (ignoreDeletes : Bool)
    (errors : List Error) (l : LoadBalancer Ls) (w : Trace) :
    (List Error × LoadBalancer Ls) × Trace :=
  let r := TargetGroups.Reconcile env l.targetgroups ignoreDeletes w
  match r.1.err with
  | some err => ((errors ++ [err], { l with targetgroups := r.1.elems }), r.2)
  | none => ((errors, { l with targetgroups := r.1.output }), r.2)

/-- The statements of `Reconcile` after the `switch` (the cascade): target
groups with deletions ignored, listeners, target groups with deletions, and,
unless the load balancer is marked deleted, tags, security groups and
attributes.  Every error is appended to `errors`. -/
def LoadBalancer.reconcileCascade (env : Env Ls) (errors : List Error)
    (lbc : Option ElbLoadBalancer) (l : LoadBalancer Ls) (w : Trace) :
    Result (List Error × LoadBalancer Ls) :=
  -- Creates target groups
  let r1 := l.reconcileTargetGroups env true errors w
  let errors1 := r1.1.1
  let l1 := r1.1.2
  match lbc with
  | none => .panic r1.2
  | some lbc =>
    let r2 := env.ListenersReconcile r1.2 lbc.LoadBalancerArn l1.targetgroups l1.listeners
    let w2 := r1.2 ++ [⟨.ListenersReconcile lbc.LoadBalancerArn l1.targetgroups, r2.1⟩]
    let errors2 := match r2.1 with
      | some err => errors1 ++ [err]
      | none => errors1
    let l2 := { l1 with listeners := r2.2 }
    -- removes target groups
    let r3 := l2.reconcileTargetGroups env false errors2 w2
    let errors3 := r3.1.1
    let l3 := r3.1.2
    if l3.deleted then .ok (errors3, l3) r3.2
    else
      match l3.lb.current with
      | none => .panic r3.2
      | some current =>
        let tags := { l3.tags with Arn := StringValue current.LoadBalancerArn }
        let r4 := env.TagsReconcile r3.2 tags
        let w4 := r3.2 ++ [⟨.TagsReconcile tags, r4.1⟩]
        let errors4 := match r4.1 with
          | some err => errors3 ++ ["failed tagging due to " ++ err]
          | none => errors3
        let sga := { l3.sgAssociation with
          LbArn := StringValue current.LoadBalancerArn, Targets := l3.targetgroups }
        let r5 := env.SgAssociationReconcile w4 sga
        let w5 := w4 ++ [⟨.SgAssociationReconcile sga, r5.1⟩]
        let errors5 := match r5.1 with
          | some err => errors4 ++ ["failed association of SecurityGroups due to " ++ err]
          | none => errors4
        let attributes := { l3.attributes with LbArn := StringValue current.LoadBalancerArn }
        let r6 := env.LbAttributesReconcile w5 attributes
        let w6 := w5 ++ [⟨.LbAttributesReconcile attributes, r6.1⟩]
        let errors6 := match r6.1 with
          | some err =>
            errors5 ++ ["failed configuration of load balancer attributes due to " ++ err]
          | none => errors5
        .ok (errors6, { l3 with tags := r4.2, sgAssociation := r5.2, attributes := r6.2 }) w6

/-- The method `Reconcile`: the `switch` and then, unless it returned, the
cascade. -/
def LoadBalancer.Reconcile (env : Env Ls) (l : LoadBalancer Ls) (w : Trace) :
    Result (List Error × LoadBalancer Ls) :=
  match l.reconcileRoot env w with
  | .panic w1 => .panic w1
  | .ok (.returns errors l1) w1 => .ok (errors, l1) w1
  | .ok (.continues errors lbc l1) w1 => l1.reconcileCascade env errors lbc w1

/-! ## Assembly of the desired target groups -/

/-- One `extensions.HTTPIngressPath` of a rule. -/
structure HTTPIngressPath where
  Path : String
  Backend : IngressBackend
  deriving DecidableEq, Repr

/-- The `extensions.HTTPIngressRuleValue` of a rule: its paths. -/
structure HTTPIngressRuleValue where
  Paths : List HTTPIngressPath
  deriving DecidableEq, Repr

/-- One `extensions.IngressRule`; the pointer `HTTP` is nil for a rule that
names a host only. -/
structure IngressRule where
  Host : String
  HTTP : Option HTTPIngressRuleValue
  deriving DecidableEq, Repr

/-- The `extensions.IngressSpec`: the optional default backend and the rules. -/
structure IngressSpec where
  Backend : Option IngressBackend
  Rules : List IngressRule
  deriving DecidableEq, Repr

/-- The `extensions.Ingress` object. -/
structure Ingress where
  Namespace : String
  Name : String
  Spec : IngressSpec
  deriving DecidableEq, Repr

/-- The collaborators of `NewDesiredTargetGroups`: the predicate `action.Use`
on the string form of a service port, and the constructor
`NewDesiredTargetGroupFromBackend`, which receives the backend and the
existing target groups. -/
structure AssemblyEnv where
  Use : String → Bool
  NewDesiredTargetGroupFromBackend :
    Trace → IngressBackend → TargetGroups → Except Error TargetGroup

/-- Modelled from the spec: `TargetGroup.StripDesiredState` (file
`targetgroup.go`, not among the sources) removes the desired half of the
target group and leaves the rest, its ID included, as it is. -/
def TargetGroup.StripDesiredState (t : TargetGroup) : TargetGroup :=
  { t with desired := none }

/-- The loop of `NewDesiredTargetGroups` over the rules, with the backends
collected so far: the backend of every path of `rule.HTTP` is appended;
`none` is the nil dereference of `rule.HTTP`. -/
def NewDesiredTargetGroups.rules :
    List IngressRule → List IngressBackend → Option (List IngressBackend)
  | [], backends => some backends
  | rule :: rest, backends =>
    match rule.HTTP with
    | none => none
    | some http =>
      NewDesiredTargetGroups.rules rest (backends ++ http.Paths.map (fun path => path.Backend))

/-- The backends collected by the first two loops of `NewDesiredTargetGroups`:
the default backend when there is one, then the backend of every path of every
rule; `none` when a rule has a nil `HTTP` value, which the loop dereferences. -/
def NewDesiredTargetGroups.backends (ing : Ingress) : Option (List IngressBackend) :=
  NewDesiredTargetGroups.rules ing.Spec.Rules
    (match ing.Spec.Backend with
      | some b => [b]
      | none => [])

/-- The key `backendName` under which a backend is remembered as processed. -/
def backendName (backend : IngressBackend) : String :=
  backend.ServiceName ++ ":" ++ backend.ServicePort.String

/-- The loop of `NewDesiredTargetGroups` over the backends, with the keys of
`backendsProcessed` and the target groups in use so far. -/
def NewDesiredTargetGroups.loop (env : AssemblyEnv) (existing : TargetGroups) :
    List IngressBackend → List String → TargetGroups → Trace → Except Error TargetGroups × Trace
  | [], _, targetGroupsInUse, w => (.ok targetGroupsInUse, w)
  | backend :: rest, backendsProcessed, targetGroupsInUse, w =>
    if env.Use backend.ServicePort.String then
      NewDesiredTargetGroups.loop env existing rest backendsProcessed targetGroupsInUse w
    else if backendName backend ∈ backendsProcessed then
      NewDesiredTargetGroups.loop env existing rest backendsProcessed targetGroupsInUse w
    else
      match env.NewDesiredTargetGroupFromBackend w backend existing with
      | .error err => (.error err, w ++ [⟨.NewDesiredTargetGroupFromBackend backend, some err⟩])
      | .ok targetGroup =>
        NewDesiredTargetGroups.loop env existing rest (backendName backend :: backendsProcessed)
          (targetGroupsInUse ++ [targetGroup])
          (w ++ [⟨.NewDesiredTargetGroupFromBackend backend, none⟩])

/-- The last loop of `NewDesiredTargetGroups`: every existing target group
whose ID is not found among the ones in use is stripped of its desired state
and appended to the output. -/
def NewDesiredTargetGroups.prune (targetGroupsInUse : TargetGroups) :
    TargetGroups → TargetGroups → TargetGroups
  | [], output => output
  | tg :: rest, output =>
    match (targetGroupsInUse.FindById tg.ID).2 with
    | none => NewDesiredTargetGroups.prune targetGroupsInUse rest (output ++ [tg.StripDesiredState])
    | some _ => NewDesiredTargetGroups.prune targetGroupsInUse rest output

/-- The function `NewDesiredTargetGroups`: the two values it returns and the
trace of the constructor calls, or the panic of the second loop at a rule
without an `HTTP` value, before any constructor call. -/
def NewDesiredTargetGroups (env : AssemblyEnv) (ing : Ingress) (existing : TargetGroups)
    (w : Trace) : Result (TargetGroups × Option Error) :=
  match NewDesiredTargetGroups.backends ing with
  | none => .panic w
  | some backends =>
    match NewDesiredTargetGroups.loop env existing backends [] [] w with
    | (.error err, w1) => .ok (existing, some err) w1
    | (.ok targetGroupsInUse, w1) =>
      .ok (NewDesiredTargetGroups.prune targetGroupsInUse existing targetGroupsInUse, none) w1

/-! ## Vocabulary of the statements -/

/-- The steps of the cascade of `Reconcile`. -/
inductive Step where
  | TargetGroups (ignoreDeletes : Bool)
  | Listeners
  | Tags
  | SgAssociation
  | LbAttributes
  deriving DecidableEq, Repr

/-- The cascade step a call is the invocation of, if it is one. -/
def Call.step : Call → Option Step
  | .TargetGroupsReconcile ignoreDeletes => some (.TargetGroups ignoreDeletes)
  | .ListenersReconcile _ _ => some .Listeners
  | .TagsReconcile _ => some .Tags
  | .SgAssociationReconcile _ => some .SgAssociation
  | .LbAttributesReconcile _ => some .LbAttributes
  | _ => none

/-- The calls of the root-level action: the calls of `create`, `modify` and
`delete` to the cloud clients and to the security group controller, and the
stripping of the listeners. -/
def Call.isRoot : Call → Bool
  | .CreateLoadBalancer _ => true
  | .Associate _ _ => true
  | .Disassociate _ => true
  | .SetSubnets _ _ => true
  | .SetIpAddressType _ _ => true
  | .DeleteLoadBalancer _ => true
  | .SgAssociationDelete _ => true
  | .ListenersStripCurrentState => true
  | _ => false

/-- The calls `delete` makes. -/
def Call.isDelete : Call → Bool
  | .SgAssociationDelete _ => true
  | .Disassociate _ => true
  | .DeleteLoadBalancer _ => true
  | _ => false

/-- The in-place modification calls for subnets and IP address type. -/
def Call.isSetCall : Call → Bool
  | .SetSubnets _ _ => true
  | .SetIpAddressType _ _ => true
  | _ => false

/-- Every call to a collaborator of the reconciler succeeds, and
`CreateLoadBalancer` returns one descriptor, which carries the requested
scheme, IP address type and subnets. -/
structure Env.AllSucceed (env : Env Ls) : Prop where
  create : ∀ w i, ∃ d, env.CreateLoadBalancer w i = .ok [d] ∧ d.Scheme = i.Scheme ∧
    d.IpAddressType = i.IpAddressType ∧ AsSubnets d.AvailabilityZones = i.Subnets
  associate : ∀ w a b, env.Associate w a b = none
  disassociate : ∀ w a, env.Disassociate w a = none
  setSubnets : ∀ w a b, env.SetSubnets w a b = none
  setIpAddressType : ∀ w a b, env.SetIpAddressType w a b = none
  deleteLoadBalancer : ∀ w a, env.DeleteLoadBalancer w a = none
  sgDelete : ∀ w a, (env.SgAssociationDelete w a).1 = none
  sgReconcile : ∀ w a, (env.SgAssociationReconcile w a).1 = none
  tags : ∀ w a, (env.TagsReconcile w a).1 = none
  attributes : ∀ w a, (env.LbAttributesReconcile w a).1 = none
  targetGroup : ∀ w a b, (env.TargetGroupReconcile w a b).1 = none
  listeners : ∀ w a b c, (env.ListenersReconcile w a b c).1 = none

/-- The outcome `r` of a part of the root-level action started on `l` with
trace `w`: the trace is extended by root-level calls only, and when the part
returns it has kept the desired descriptor, and the current descriptor is set
if it was set before. -/
def RootOutcome (l : LoadBalancer Ls) (w : Trace)
    (r : Result (Option Error × LoadBalancer Ls)) : Prop :=
  (∃ evs, r.trace = w ++ evs ∧ ∀ ev ∈ evs, ev.call.isRoot = true) ∧
    ∀ e l1 w1, r = .ok (e, l1) w1 →
      l1.lb.desired = l.lb.desired ∧ (l.lb.current.isSome → l1.lb.current.isSome)

/-- The error of a result, if it is one. -/
def errorOf {α : Type} : Except Error α → Option Error
  | .error e => some e
  | .ok _ => none

/-- The elements of a list in the order of the first occurrence of their key:
the head is kept, and no later element with the key of the head is. -/
def firstOccurrences {β κ : Type} [DecidableEq κ] (key : β → κ) : List β → List β
  | [] => []
  | b :: bs => b :: (firstOccurrences key bs).filter (fun x => decide (key x ≠ key b))

/-- The backends of the paths of a rule, in order; none for a rule without an
`HTTP` value. -/
def IngressRule.backends (rule : IngressRule) : List IngressBackend :=
  match rule.HTTP with
  | some http => http.Paths.map (fun path => path.Backend)
  | none => []

/-- The backends, among those collected from an ingress, that need a target
group: the ones that are not action backends, each key `backendName` at its
first occurrence. -/
def distinctBackends (env : AssemblyEnv) (backends : List IngressBackend) :
    List IngressBackend :=
  firstOccurrences backendName (backends.filter (fun b => !env.Use b.ServicePort.String))

/-- The same choice made on the pairs themselves: the backends that are not
action backends, each pair of service name and service port at its first
occurrence. -/
def distinctPairs (env : AssemblyEnv) (backends : List IngressBackend) : List IngressBackend :=
  firstOccurrences (fun b => b) (backends.filter (fun b => !env.Use b.ServicePort.String))

/-! ## Sample collaborators and inputs -/

/-- A rendering of one string that marks every character and the end. -/
def renderChars : List Char → List Char
  | [] => [';']
  | c :: cs => '.' :: c :: renderChars cs

/-- A rendering of a list of strings under which distinct lists differ. -/
def renderList : List String → List Char
  | [] => []
  | s :: rest => renderChars s.data ++ renderList rest

/-- A sample `Prettify`. -/
def renderSubnets (subnets : List String) : String := String.mk (renderList subnets)

/-- Sample collaborators: every call succeeds and leaves its argument as it
is; `CreateLoadBalancer` returns the requested descriptor with a fresh ARN. -/
def okEnv : Env Unit where
  CreateLoadBalancer := fun _ i => .ok
    [{ AvailabilityZones := i.Subnets.map (fun s => { SubnetId := s, ZoneName := none })
       LoadBalancerName := i.Name
       LoadBalancerArn := some "arn:new"
       Scheme := i.Scheme
       IpAddressType := i.IpAddressType
       VpcId := none
       DNSName := some "new.example.com" }]
  Associate := fun _ _ _ => none
  Disassociate := fun _ _ => none
  SetSubnets := fun _ _ _ => none
  SetIpAddressType := fun _ _ _ => none
  DeleteLoadBalancer := fun _ _ => none
  SgAssociationDelete := fun _ a => (none, a)
  SgAssociationReconcile := fun _ a => (none, a)
  TagsReconcile := fun _ a => (none, a)
  LbAttributesReconcile := fun _ a => (none, a)
  TargetGroupReconcile := fun _ tg _ => (none, tg)
  ListenersReconcile := fun _ _ _ ls => (none, ls)
  ListenersStripCurrentState := fun ls => ls
  Prettify := renderSubnets

/-- Sample collaborators whose `CreateLoadBalancer` fails. -/
def createFailsEnv : Env Unit :=
  { okEnv with CreateLoadBalancer := fun _ _ => .error "quota exceeded" }

/-- Sample collaborators whose WAF association fails. -/
def associateFailsEnv : Env Unit :=
  { okEnv with Associate := fun _ _ _ => some "WAFUnavailable" }

/-- A sample descriptor of a live internet-facing load balancer. -/
def liveDescriptor : ElbLoadBalancer where
  AvailabilityZones := [{ SubnetId := "subnet-a", ZoneName := none },
    { SubnetId := "subnet-b", ZoneName := none }]
  LoadBalancerName := some "prod-default-web-1a2b"
  LoadBalancerArn := some "arn:old"
  Scheme := some "internet-facing"
  IpAddressType := some "ipv4"
  VpcId := some "vpc-1"
  DNSName := some "old.example.com"

/-- A sample desired descriptor: the same load balancer, internal, with the
subnets listed in the other order. -/
def desiredDescriptor : ElbLoadBalancer where
  AvailabilityZones := [{ SubnetId := "subnet-b", ZoneName := none },
    { SubnetId := "subnet-a", ZoneName := none }]
  LoadBalancerName := some "prod-default-web-1a2b"
  LoadBalancerArn := none
  Scheme := some "internal"
  IpAddressType := some "ipv4"
  VpcId := some "vpc-1"
  DNSName := none

/-- A sample target group built for a service. -/
def sampleTargetGroup : TargetGroup where
  ID := "tg-web-80"
  SvcName := "web"
  SvcPort := .ofInt 80
  current := none
  desired := some { TargetGroupArn := none, TargetGroupName := some "tg-web-80" }
  deleted := false

/-- A sample load balancer entity with neither descriptor. -/
def goneLoadBalancer : LoadBalancer Unit where
  id := "prod-default-web-1a2b"
  tags := { Arn := "", Tags := [] }
  lb := { current := none, desired := none }
  options := { current := { webACLId := none }, desired := { webACLId := none } }
  targetgroups := []
  listeners := ()
  sgAssociation :=
    { LbID := "prod-default-web-1a2b", LbArn := "", LbPorts := [80],
      LbInboundCIDRs := [], ExternalSGIDs := [], Targets := [] }
  attributes := { LbArn := "", items := [] }
  deleted := false

/-- A sample load balancer pending deletion, with a web ACL associated. -/
def pendingDeletion : LoadBalancer Unit :=
  { goneLoadBalancer with
    lb := { current := some liveDescriptor, desired := none },
    options := { current := { webACLId := some "acl-1" }, desired := { webACLId := none } } }

/-- A sample load balancer pending creation, with a web ACL desired. -/
def pendingCreation : LoadBalancer Unit :=
  { goneLoadBalancer with
    lb := { current := none, desired := some desiredDescriptor },
    options := { current := { webACLId := none }, desired := { webACLId := some "acl-1" } },
    targetgroups := [sampleTargetGroup] }

/-- A sample load balancer whose desired scheme differs from the current one. -/
def schemeChange : LoadBalancer Unit :=
  { goneLoadBalancer with
    lb := { current := some liveDescriptor, desired := some desiredDescriptor },
    targetgroups := [sampleTargetGroup] }


/-- The descriptor the sample `CreateLoadBalancer` returns for the sample
desired descriptor. -/
def createdDescriptor : ElbLoadBalancer where
  AvailabilityZones := [{ SubnetId := "subnet-b", ZoneName := none },
    { SubnetId := "subnet-a", ZoneName := none }]
  LoadBalancerName := some "prod-default-web-1a2b"
  LoadBalancerArn := some "arn:new"
  Scheme := some "internal"
  IpAddressType := some "ipv4"
  VpcId := none
  DNSName := some "new.example.com"

/-- The sample load balancer pending creation once `create` has succeeded. -/
def createdLoadBalancer : LoadBalancer Unit :=
  { pendingCreation with
    lb := { current := some createdDescriptor, desired := some desiredDescriptor } }

/-- The calls of the successful `create` of the sample load balancer. -/
def createdTrace : Trace :=
  [⟨.CreateLoadBalancer (createInput desiredDescriptor pendingCreation.tags), none⟩,
   ⟨.Associate (some "arn:new") (some "acl-1"), none⟩]

/-- A sample load balancer whose desired scheme differs from the current one
and whose current web ACL is no longer desired. -/
def schemeChangeWithACL : LoadBalancer Unit :=
  { schemeChange with
    options := { current := { webACLId := some "acl-1" }, desired := { webACLId := none } } }

/-- A sample load balancer whose desired scheme differs from the current one,
with a current web ACL and another one desired. -/
def schemeChangeNewACL : LoadBalancer Unit :=
  { schemeChange with
    options := { current := { webACLId := some "acl-1" }, desired := { webACLId := some "acl-2" } } }

/-- A sample load balancer whose desired subnets are the current ones in
another order, everything else equal. -/
def subnetsReordered : LoadBalancer Unit :=
  { goneLoadBalancer with
    lb := { current := some liveDescriptor,
            desired := some { liveDescriptor with
              AvailabilityZones := [{ SubnetId := "subnet-b", ZoneName := none },
                { SubnetId := "subnet-a", ZoneName := none }] } } }

/-- A sample load balancer whose desired subnets replace one current subnet. -/
def subnetsMoved : LoadBalancer Unit :=
  { goneLoadBalancer with
    lb := { current := some liveDescriptor,
            desired := some { liveDescriptor with
              AvailabilityZones := [{ SubnetId := "subnet-a", ZoneName := none },
                { SubnetId := "subnet-c", ZoneName := none }] } } }

/-- The target group the sample constructor builds for a backend. -/
def targetGroupFor (backend : IngressBackend) : TargetGroup where
  ID := "tg-" ++ backendName backend
  SvcName := backend.ServiceName
  SvcPort := backend.ServicePort
  current := none
  desired := some { TargetGroupArn := none, TargetGroupName := some ("tg-" ++ backendName backend) }
  deleted := false

/-- Sample assembly collaborators: the action marker is the port name
`use-annotation`, and the constructor always succeeds. -/
def okAssembly : AssemblyEnv where
  Use := fun s => s == "use-annotation"
  NewDesiredTargetGroupFromBackend := fun _ backend _ => .ok (targetGroupFor backend)

/-- Sample assembly collaborators whose constructor fails for the service
`missing`. -/
def missingServiceAssembly : AssemblyEnv where
  Use := fun s => s == "use-annotation"
  NewDesiredTargetGroupFromBackend := fun _ backend _ =>
    if backend.ServiceName = "missing" then .error "service missing not found"
    else .ok (targetGroupFor backend)

/-- A sample ingress: a default backend, two paths to the same service and
port, a redirect action and a path to a second service. -/
def sampleIngress : Ingress where
  Namespace := "default"
  Name := "web"
  Spec :=
    { Backend := some { ServiceName := "web", ServicePort := .ofInt 80 }
      Rules := [
        { Host := "example.com"
          HTTP := some { Paths := [
            { Path := "/a", Backend := { ServiceName := "web", ServicePort := .ofInt 80 } },
            { Path := "/r", Backend :=
                { ServiceName := "redirect", ServicePort := .ofString "use-annotation" } },
            { Path := "/b", Backend := { ServiceName := "api", ServicePort := .ofInt 8080 } },
            { Path := "/c", Backend := { ServiceName := "web", ServicePort := .ofInt 80 } } ] } } ] }

/-- A sample ingress whose first path names a service that does not exist. -/
def missingServiceIngress : Ingress where
  Namespace := "default"
  Name := "web"
  Spec :=
    { Backend := none
      Rules := [
        { Host := "example.com"
          HTTP := some { Paths := [
            { Path := "/a", Backend := { ServiceName := "missing", ServicePort := .ofInt 80 } },
            { Path := "/b", Backend := { ServiceName := "api", ServicePort := .ofInt 8080 } } ] } } ] }

/-- A sample ingress with a default backend and one rule that names a host
only, so that its `HTTP` value is nil. -/
def hostOnlyIngress : Ingress where
  Namespace := "default"
  Name := "web"
  Spec :=
    { Backend := some { ServiceName := "web", ServicePort := .ofInt 80 }
      Rules := [{ Host := "example.com", HTTP := none }] }

/-- A sample existing target group that no backend of the sample ingress
refers to. -/
def staleTargetGroup : TargetGroup where
  ID := "tg-old:9090"
  SvcName := "old"
  SvcPort := .ofInt 9090
  current := some { TargetGroupArn := some "arn:tg-old", TargetGroupName := some "tg-old" }
  desired := some { TargetGroupArn := none, TargetGroupName := some "tg-old" }
  deleted := false

/-- Sample collaborators whose reconcile of the target group `tg-api:8080`
fails. -/
def apiFailsEnv : Env Unit :=
  { okEnv with
    TargetGroupReconcile := fun _ tg _ =>
      if tg.ID = "tg-api:8080" then (some "target registration failed", tg) else (none, tg) }
/-- A sample collection of three target groups. -/
def sampleGroups : TargetGroups :=
  [targetGroupFor { ServiceName := "web", ServicePort := .ofInt 80 },
   targetGroupFor { ServiceName := "api", ServicePort := .ofInt 8080 },
   staleTargetGroup]

/-! ## Naming -/

/-- The call `r.ReplaceAllString(s, repl)` for the expression `[[:^alnum:]]`:
every character that is not an ASCII letter or digit is replaced by `repl`. -/
def ReplaceAllString (s repl : String) : String :=
  String.mk (s.data.flatMap (fun c => if c.isAlphanum then [c] else repl.data))

/-- The table `hextable` of `encoding/hex`, read at a position below 16. -/
def hextable (n : Nat) : Char := "0123456789abcdef".data.getD n '0'

/-- The function `hex.EncodeToString`: two lowercase digits for every byte,
the high half first. -/
def EncodeToString (bytes : List Nat) : String :=
  String.mk (bytes.flatMap (fun v => [hextable (v % 256 / 16), hextable (v % 256 % 16)]))

/-- The function `createLBName`; `md5Sum` is the MD5 digest of the bytes of a
string, 16 bytes long, so that the slice `[:4]` of its 32 digits is in range.
The name built from the sanitised parts is ASCII, so its length in bytes and
the slice `[:26]` are counted in characters. -/
def createLBName (md5Sum : String → List Nat) (namespaceName ingressName clustername : String) :
    String :=
  let hash := String.mk ((EncodeToString (md5Sum (namespaceName ++ ingressName))).data.take 4)
  let name := ReplaceAllString clustername "-" ++ "-" ++ ReplaceAllString namespaceName "" ++
    "-" ++ ReplaceAllString ingressName ""
  let name := if name.length > 26 then String.mk (name.data.take 26) else name
  name ++ "-" ++ hash

/-- The sanitisation the specification describes: every character that is not
alphanumeric becomes the separator `-`. -/
def specSanitize (s : String) : String :=
  String.mk (s.data.map (fun c => if c.isAlphanum then c else '-'))

/-- The name the specification describes: the three sanitised inputs joined by
`-`, cut to 26 characters, then `-` and the first four digits of the digest of
the namespace followed by the ingress name. -/
def specLBName (md5Sum : String → List Nat) (namespaceName ingressName clusterPrefix : String) :
    String :=
  String.mk ((specSanitize clusterPrefix ++ "-" ++ specSanitize namespaceName ++ "-" ++
      specSanitize ingressName).data.take 26) ++ "-" ++
    String.mk ((EncodeToString (md5Sum (namespaceName ++ ingressName))).data.take 4)

/-- The sanitisation the code applies to the namespace and to the ingress
name: the characters that are not alphanumeric are dropped. -/
def dropNotAlnum (s : String) : String :=
  String.mk (s.data.filter (fun c => c.isAlphanum))

/-- A sample digest function: sixteen bytes that depend on the length of the
input. -/
def sampleDigest (s : String) : List Nat := List.replicate 16 (s.length * 37 + 171)

/-! ## Assembly of the desired load balancer -/

/-- The load balancer part of the resolved annotations of an ingress. -/
structure LoadBalancerAnnotations where
  WebACLId : Option String
  Subnets : List String
  Scheme : Option String
  IPAddressType : Option String
  Ports : List Int
  InboundCidrs : List String
  SecurityGroups : List String
  Attributes : List (String × String)
  deriving DecidableEq, Repr

/-- The collaborators of `NewDesiredLoadBalancer`: the digest used for the
name, the name prefix of the configuration, the VPC lookup, the annotation
resolver (which derives the key from the ingress), the collaborators of the
target group assembly, and the assembly routines of the listeners (given the
existing listeners, if any, and the target groups) and of the attributes,
each returning its value together with its error; `nilListeners` is the nil
collection of listeners. -/
structure DesiredEnv (Ls : Type) where
  md5Sum : String → List Nat
  ALBNamePrefix : String
  GetVPCID : Except Error (Option String)
  GetIngressAnnotations : Ingress → Except Error LoadBalancerAnnotations
  targetGroups : AssemblyEnv
  NewDesiredListeners : Ingress → Option Ls → TargetGroups → Ls × Option Error
  NewAttributes : List (String × String) → Attributes × Option Error
  nilListeners : Ls

/-- Modelled from the spec: `Subnets.AsAvailabilityZones()` (package
`pkg/util/types`, not among the sources) makes one availability zone of every
subnet id, in order. -/
def AsAvailabilityZones (subnets : List String) : List AvailabilityZone :=
  subnets.map (fun s => { SubnetId := s, ZoneName := none })

/-- The function `NewDesiredLoadBalancer`: the two values it returns and the
trace of the target group constructor calls, or the panic of the target group
assembly.  The error of the listener assembly is assigned to `err` and then
overwritten by the attribute assembly. -/
def NewDesiredLoadBalancer (env : DesiredEnv Ls) (ing : Ingress)
    (ExistingLoadBalancer : Option (LoadBalancer Ls)) (CommonTags : Tags) (w : Trace) :
    Result (Option (LoadBalancer Ls) × Option Error) :=
  let name := createLBName env.md5Sum ing.Namespace ing.Name env.ALBNamePrefix
  let lbTags := CommonTags
  match env.GetVPCID with
  | .error err => .ok (none, some err) w
  | .ok vpc =>
    match env.GetIngressAnnotations ing with
    | .error err => .ok (none, some err) w
    | .ok annos =>
      let desired : ElbLoadBalancer :=
        { AvailabilityZones := AsAvailabilityZones annos.Subnets
          LoadBalancerName := some name
          LoadBalancerArn := none
          Scheme := annos.Scheme
          IpAddressType := annos.IPAddressType
          VpcId := vpc
          DNSName := none }
      let created : LoadBalancer Ls :=
        { id := name
          tags := lbTags
          lb := { current := none, desired := some desired }
          options := { current := { webACLId := none }, desired := { webACLId := annos.WebACLId } }
          targetgroups := []
          listeners := env.nilListeners
          sgAssociation :=
            { LbID := "", LbArn := "", LbPorts := [], LbInboundCIDRs := [], ExternalSGIDs := [],
              Targets := [] }
          attributes := { LbArn := "", items := [] }
          deleted := false }
      let start : LoadBalancer Ls × TargetGroups × Option Ls :=
        match ExistingLoadBalancer with
        | some existinglb =>
          -- we had an existing LoadBalancer in ingress, so just copy the desired state over
          ({ existinglb with
              lb := { existinglb.lb with desired := some desired }
              tags := lbTags
              options := { existinglb.options with desired := { webACLId := annos.WebACLId } } },
            existinglb.targetgroups, some existinglb.listeners)
        | none => (created, [], none)
      -- Assemble the target groups
      match NewDesiredTargetGroups env.targetGroups ing start.2.1 w with
      | .panic w1 => .panic w1
      | .ok tgs w1 =>
        let lb1 := { start.1 with targetgroups := tgs.1 }
        match tgs.2 with
        | some err => .ok (some lb1, some err) w1
        | none =>
          -- Assemble the listeners
          let ls := env.NewDesiredListeners ing start.2.2 lb1.targetgroups
          -- Assemble SecurityGroups
          let sga : Association :=
            { LbID := name, LbArn := "", LbPorts := annos.Ports,
              LbInboundCIDRs := annos.InboundCidrs, ExternalSGIDs := annos.SecurityGroups,
              Targets := [] }
          -- Assemble Attributes
          let attrs := env.NewAttributes annos.Attributes
          let lb2 := { lb1 with listeners := ls.1, sgAssociation := sga, attributes := attrs.1 }
          match attrs.2 with
          | some err => .ok (some lb2, some err) w1
          | none => .ok (some lb2, none) w1

/-- The method `LoadBalancer.StripDesiredState`; `stripListeners` is
`Listeners.StripDesiredState`, which is not called on a nil collection and so
leaves it as it is. -/
def LoadBalancer.StripDesiredState (stripListeners : Ls → Ls) (l : LoadBalancer Ls) :
    LoadBalancer Ls :=
  { l with
    lb := { l.lb with desired := none }
    options := { l.options with desired := { webACLId := none } }
    listeners := stripListeners l.listeners
    targetgroups := l.targetgroups.map TargetGroup.StripDesiredState }

/-! ## The collection of ingress aggregates -/

/-- The ingress aggregate `ALBIngress`: its identity, its load balancer (nil
once deleted), the flag `valid` and the retry counter of its backoff. -/
structure ALBIngress (Ls : Type) where
  id : String
  namespaceName : String
  ingressName : String
  loadBalancer : Option (LoadBalancer Ls)
  valid : Bool
  backoff : Nat
  deriving DecidableEq

/-- The collection `ALBIngresses`. -/
abbrev ALBIngresses (Ls : Type) := List (ALBIngress Ls)

/-- Modelled from the spec: `ALBIngress.stripDesiredState` (file
`albingress.go`, not among the sources) strips the desired state of the load
balancer the aggregate owns, if it owns one. -/
def ALBIngress.stripDesiredState (stripListeners : Ls → Ls) (a : ALBIngress Ls) : ALBIngress Ls :=
  { a with loadBalancer := a.loadBalancer.map (LoadBalancer.StripDesiredState stripListeners) }

/-- Modelled from the spec: `ALBIngress.resetBackoff` (file `albingress.go`,
not among the sources) resets the retry counter of the aggregate. -/
def ALBIngress.resetBackoff (a : ALBIngress Ls) : ALBIngress Ls :=
  { a with backoff := 0 }

/-- The loop of `ALBIngresses.FindByID` from position `p`. -/
def ALBIngresses.FindByID.loop (id : String) :
    ALBIngresses Ls → Int → Int × Option (ALBIngress Ls)
  | [], _ => (-1, none)
  | v :: rest, p => if v.id = id then (p, some v) else ALBIngresses.FindByID.loop id rest (p + 1)

/-- The method `ALBIngresses.FindByID`: the position and the first ingress
with the given id, or `-1` and nil. -/
def ALBIngresses.FindByID (a : ALBIngresses Ls) (id : String) : Int × Option (ALBIngress Ls) :=
  ALBIngresses.FindByID.loop id a 0

/-- The loop of `ALBIngresses.RemovedIngresses` over the remaining ingresses
of the receiver: the ingresses as the loop leaves them, and the list
`deleteableIngress` extended. -/
def ALBIngresses.RemovedIngresses.loop (stripListeners : Ls → Ls) (newList : ALBIngresses Ls) :
    ALBIngresses Ls → ALBIngresses Ls → ALBIngresses Ls × ALBIngresses Ls
  | [], deleteableIngress => ([], deleteableIngress)
  | ingress :: rest, deleteableIngress =>
    if (newList.FindByID ingress.id).1 < 0 then
      match ingress.loadBalancer with
      | some _ =>
        let stripped :=
          { (ingress.stripDesiredState stripListeners).resetBackoff with valid := true }
        let next := ALBIngresses.RemovedIngresses.loop stripListeners newList rest
          (deleteableIngress ++ [stripped])
        (stripped :: next.1, next.2)
      | none =>
        let next := ALBIngresses.RemovedIngresses.loop stripListeners newList rest
          deleteableIngress
        (ingress :: next.1, next.2)
    else
      let next := ALBIngresses.RemovedIngresses.loop stripListeners newList rest
        deleteableIngress
      (ingress :: next.1, next.2)

/-- The method `ALBIngresses.RemovedIngresses`: the receiver as the call
leaves its ingresses, and the list returned. -/
def ALBIngresses.RemovedIngresses (stripListeners : Ls → Ls) (a newList : ALBIngresses Ls) :
    ALBIngresses Ls × ALBIngresses Ls :=
  ALBIngresses.RemovedIngresses.loop stripListeners newList a []

/-- The end of a function that may stop the process: the value it returns, or
the format string and the arguments handed to `glog.Fatalf`. -/
inductive Exit (α : Type) where
  | returned (val : α)
  | fatal (format : String) (args : List String)

/-- The index of the live target group descriptors by load balancer ARN. -/
abbrev TargetGroupIndex := List (String × List ElbTargetGroup)

/-- The collaborators of `AssembleIngressesFromAWS`: the two inventory calls
of the cloud client and `NewALBIngressFromAWSLoadBalancer`. -/
structure AwsEnv (Ls : Type) where
  ClusterLoadBalancers : Except Error (List ElbLoadBalancer)
  ClusterTargetGroups : Except Error TargetGroupIndex
  NewALBIngressFromAWSLoadBalancer :
    ElbLoadBalancer → TargetGroupIndex → Except Error (ALBIngress Ls)

/-- What the pool makes of the `append` of one task (line 237), which the
tasks run without synchronisation on the one slice `ingresses`: the ingress is
stored at a position of the slice, or it is lost to the append of a task that
ran at the same time. -/
inductive Landing where
  | placed (position : Nat)
  | lost
  deriving DecidableEq, Repr

/-- An interleaving of the tasks of the batch on the workers of the pool: the
landing of the append of every task that reaches it, the tasks taken in the
order they are queued.  A task without an entry appends at the end; the empty
schedule is the run of one task after the other. -/
abbrev Schedule := List Landing

/-- The function `newIngressesFromLoadBalancers`.  The batch queues one task
for every load balancer on a pool of ten workers.  A task whose assembly fails
returns its error and appends nothing; the others append their ingress to the
shared slice, where the schedule of the pool decides the position and whether
the append survives.  No task is cancelled: nothing cancels the batch before
its results are read.  The assembly of a load balancer is taken to return; a
read of the slice header torn by a concurrent write is not modelled. -/
def newIngressesFromLoadBalancers (env : AwsEnv Ls) (TargetGroups : TargetGroupIndex) :
    Schedule → List ElbLoadBalancer → ALBIngresses Ls → ALBIngresses Ls
  | _, [], ingresses => ingresses
  | schedule, loadBalancer :: rest, ingresses =>
    match env.NewALBIngressFromAWSLoadBalancer loadBalancer TargetGroups with
    | .error _ => newIngressesFromLoadBalancers env TargetGroups schedule rest ingresses
    | .ok albIngress =>
      match schedule with
      | [] =>
        newIngressesFromLoadBalancers env TargetGroups [] rest (ingresses ++ [albIngress])
      | .lost :: later => newIngressesFromLoadBalancers env TargetGroups later rest ingresses
      | .placed position :: later =>
        newIngressesFromLoadBalancers env TargetGroups later rest
          (ingresses.take position ++ albIngress :: ingresses.drop position)

/-- The function `AssembleIngressesFromAWS` under a schedule of the pool:
fatal, with the text of the error as the format string, when an inventory call
fails, and fatal when the count of the ingresses assembled differs from the
count of the load balancers. -/
def AssembleIngressesFromAWS (env : AwsEnv Ls) (schedule : Schedule) :
    Exit (ALBIngresses Ls) :=
  match env.ClusterLoadBalancers with
  | .error err => .fatal err []
  | .ok loadBalancers =>
    match env.ClusterTargetGroups with
    | .error err => .fatal err []
    | .ok targetGroups =>
      let ingresses := newIngressesFromLoadBalancers env targetGroups schedule loadBalancers []
      if loadBalancers.length ≠ ingresses.length then
        .fatal "Assembled %d ingresses from %v load balancers"
          [toString ingresses.length, toString loadBalancers.length]
      else .returned ingresses

/-- Sample annotations of a load balancer. -/
def sampleAnnotations : LoadBalancerAnnotations where
  WebACLId := none
  Subnets := ["subnet-a", "subnet-b"]
  Scheme := some "internal"
  IPAddressType := some "ipv4"
  Ports := [443]
  InboundCidrs := ["0.0.0.0/0"]
  SecurityGroups := []
  Attributes := []

/-- Sample collaborators of the desired-state assembly whose listener assembly
fails while everything else succeeds. -/
def listenersFailEnv : DesiredEnv Unit where
  md5Sum := sampleDigest
  ALBNamePrefix := "prod"
  GetVPCID := .ok (some "vpc-1")
  GetIngressAnnotations := fun _ => .ok sampleAnnotations
  targetGroups := okAssembly
  NewDesiredListeners := fun _ _ _ => ((), some "invalid certificate ARN")
  NewAttributes := fun items => ({ LbArn := "", items := items }, none)
  nilListeners := ()

/-- A sample ingress aggregate that owns the sample load balancer with a
scheme change. -/
def sampleALBIngress : ALBIngress Unit where
  id := "default/web"
  namespaceName := "default"
  ingressName := "web"
  loadBalancer := some schemeChange
  valid := false
  backoff := 3

/-- A sample ingress aggregate whose load balancer is gone. -/
def deletedALBIngress : ALBIngress Unit :=
  { sampleALBIngress with id := "default/old", ingressName := "old", loadBalancer := none }

/-- A sample ingress aggregate that is still in the new list. -/
def keptALBIngress : ALBIngress Unit :=
  { sampleALBIngress with id := "default/api", ingressName := "api" }

/-- Sample collaborators of the current-state assembly: the inventory holds
two load balancers and the assembly of the one named `broken` fails. -/
def brokenAssemblyEnv : AwsEnv Unit where
  ClusterLoadBalancers := .ok [liveDescriptor,
    { liveDescriptor with LoadBalancerName := some "broken", LoadBalancerArn := some "arn:broken" }]
  ClusterTargetGroups := .ok []
  NewALBIngressFromAWSLoadBalancer := fun loadBalancer _ =>
    if loadBalancer.LoadBalancerName = some "broken" then .error "failed to get associated Web ACL"
    else .ok { sampleALBIngress with loadBalancer := some { goneLoadBalancer with
      lb := { current := some loadBalancer, desired := none } } }

/-- Sample collaborators of the current-state assembly: the inventory holds
two load balancers and both are assembled. -/
def twoAssembledEnv : AwsEnv Unit :=
  { brokenAssemblyEnv with
    NewALBIngressFromAWSLoadBalancer := fun loadBalancer _ =>
      .ok { sampleALBIngress with
        id := StringValue loadBalancer.LoadBalancerName
        loadBalancer := some { goneLoadBalancer with
          lb := { current := some loadBalancer, desired := none } } } }

/-! ## Traces of the cascade -/

/-- The events of the element loop are appended to the trace and are all
element reconciles. -/
theorem TargetGroups.Reconcile.loop_trace (env : Env Ls) (ig : Bool) :
    ∀ (t out : TargetGroups) (w : Trace),
      ∃ evs, (TargetGroups.Reconcile.loop env ig t out w).2 = w ++ evs ∧
        ∀ e ∈ evs, ∃ tg, e.call = .TargetGroupReconcile tg ig := by
  intro t
  induction t with
  | nil => intro out w; exact ⟨[], by simp [TargetGroups.Reconcile.loop]⟩
  | cons tg rest ih =>
    intro out w
    simp only [TargetGroups.Reconcile.loop]
    cases h : (env.TargetGroupReconcile w tg ig).1 with
    | some err =>
      exact ⟨[⟨.TargetGroupReconcile tg ig, some err⟩], by simp⟩
    | none =>
      obtain ⟨evs, h1, h2⟩ := ih
        (if (env.TargetGroupReconcile w tg ig).2.deleted then out
          else out ++ [(env.TargetGroupReconcile w tg ig).2])
        (w ++ [⟨.TargetGroupReconcile tg ig, none⟩])
      refine ⟨⟨.TargetGroupReconcile tg ig, none⟩ :: evs, ?_, ?_⟩
      · simp [h1]
      · intro e he
        rcases List.mem_cons.mp he with rfl | he
        · exact ⟨tg, rfl⟩
        · exact h2 e he

/-- When every element reconcile succeeds, the loop reports no error. -/
theorem TargetGroups.Reconcile.loop_succeeds (env : Env Ls) (ig : Bool)
    (hall : ∀ w a b, (env.TargetGroupReconcile w a b).1 = none) :
    ∀ (t out : TargetGroups) (w : Trace),
      (TargetGroups.Reconcile.loop env ig t out w).1.err = none := by
  intro t
  induction t with
  | nil => intro out w; rfl
  | cons tg rest ih =>
    intro out w
    simp only [TargetGroups.Reconcile.loop, hall w tg ig]
    exact ih _ _

/-- An element reconcile is neither a cascade step nor a root-level call. -/
theorem elementEvents_not_step {ig : Bool} {evs : Trace}
    (h : ∀ e ∈ evs, ∃ tg, e.call = .TargetGroupReconcile tg ig) :
    evs.filterMap (fun e => e.call.step) = [] ∧
      evs.filter (fun e => e.call.step.isSome && e.err.isSome) = [] ∧
      evs.filter (fun e => e.call.isRoot) = [] := by
  refine ⟨?_, ?_, ?_⟩
  · rw [List.filterMap_eq_nil_iff]
    intro e he
    obtain ⟨tg, htg⟩ := h e he
    simp [htg, Call.step]
  · rw [List.filter_eq_nil_iff]
    intro e he
    obtain ⟨tg, htg⟩ := h e he
    simp [htg, Call.step]
  · rw [List.filter_eq_nil_iff]
    intro e he
    obtain ⟨tg, htg⟩ := h e he
    simp [htg, Call.isRoot]

/-- The effect of one target-group pass of the cascade: the element events,
then the call itself; one error more exactly when the call failed; only the
field `targetgroups` changes. -/
theorem reconcileTargetGroups_spec {env : Env Ls} {ig : Bool} {errors : List Error}
    {l : LoadBalancer Ls} {w : Trace} {r : (List Error × LoadBalancer Ls) × Trace}
    (hr : l.reconcileTargetGroups env ig errors w = r) :
    ∃ (evs : Trace) (e : Option Error) (tgs : TargetGroups),
      r = ((errors ++ e.toList, { l with targetgroups := tgs }),
          w ++ evs ++ [⟨.TargetGroupsReconcile ig, e⟩]) ∧
      (∀ ev ∈ evs, ∃ tg, ev.call = .TargetGroupReconcile tg ig) ∧
      (env.AllSucceed → e = none) := by
  obtain ⟨evs, h1, h2⟩ := TargetGroups.Reconcile.loop_trace env ig l.targetgroups [] w
  subst hr
  simp only [LoadBalancer.reconcileTargetGroups, TargetGroups.Reconcile, h1]
  cases h : (TargetGroups.Reconcile.loop env ig l.targetgroups [] w).1.err with
  | some err =>
    exact ⟨evs, some err, (TargetGroups.Reconcile.loop env ig l.targetgroups [] w).1.elems,
      by simp, h2, fun hall => by
        rw [TargetGroups.Reconcile.loop_succeeds env ig hall.targetGroup] at h
        cases h⟩
  | none =>
    exact ⟨evs, none, (TargetGroups.Reconcile.loop env ig l.targetgroups [] w).1.output,
      by simp, h2, fun _ => rfl⟩

/-- The cascade, entered with a non-nil `lbc` on a load balancer whose current
descriptor is set, returns; its steps are the two target-group passes around
the listeners and, unless `deleted` is set, tags, security groups and
attributes; it appends one error for each failed step, makes no root-level
call, and leaves `deleted`, the descriptors and the options as they are. -/
theorem cascade_spec (env : Env Ls) (errors : List Error) (c : ElbLoadBalancer)
    (l : LoadBalancer Ls) (w : Trace) (hcur : l.lb.current.isSome) :
    ∃ (steps : Trace) (errs : List Error) (l2 : LoadBalancer Ls),
      l.reconcileCascade env errors (some c) w = .ok (errors ++ errs, l2) (w ++ steps) ∧
      steps.filterMap (fun e => e.call.step) =
        [.TargetGroups true, .Listeners, .TargetGroups false] ++
          (if l.deleted then [] else [.Tags, .SgAssociation, .LbAttributes]) ∧
      errs.length = (steps.filter (fun e => e.call.step.isSome && e.err.isSome)).length ∧
      steps.filter (fun e => e.call.isRoot) = [] ∧
      l2.deleted = l.deleted ∧ l2.lb = l.lb ∧ l2.options = l.options ∧
      (env.AllSucceed → errs = []) := by
  obtain ⟨cur, hcur⟩ := Option.isSome_iff_exists.mp hcur
  simp only [LoadBalancer.reconcileCascade]
  generalize hr1 : l.reconcileTargetGroups env true errors w = r1
  obtain ⟨evs1, e1, tgs1, rfl, hev1, hs1⟩ := reconcileTargetGroups_spec hr1
  simp only []
  generalize hr2 : env.ListenersReconcile _ _ _ _ = r2
  obtain ⟨e2, ls2⟩ := r2
  simp only []
  generalize hr3 : LoadBalancer.reconcileTargetGroups env false _ _ _ = r3
  obtain ⟨evs3, e3, tgs3, rfl, hev3, hs3⟩ := reconcileTargetGroups_spec hr3
  simp only []
  obtain ⟨n1, n1f, n1r⟩ := elementEvents_not_step hev1
  obtain ⟨n3, n3f, n3r⟩ := elementEvents_not_step hev3
  by_cases hdel : l.deleted = true
  · simp only [hdel, if_true]
    refine ⟨evs1 ++ [⟨.TargetGroupsReconcile true, e1⟩] ++
      [⟨.ListenersReconcile c.LoadBalancerArn tgs1, e2⟩] ++ evs3 ++
      [⟨.TargetGroupsReconcile false, e3⟩], e1.toList ++ e2.toList ++ e3.toList,
      { l with targetgroups := tgs3, listeners := ls2, deleted := true },
      ?_, ?_, ?_, ?_, ?_, rfl, rfl, ?_⟩
    · cases e2 <;> simp
    · simp only [List.filterMap_append, n1, n3]
      simp [Call.step]
    · simp only [List.filter_append, n1f, n3f]
      cases e1 <;> cases e2 <;> cases e3 <;> simp [Call.step]
    · simp only [List.filter_append, n1r, n3r]
      simp [Call.isRoot]
    · simp [hdel]
    · intro hall
      have h2 := hall.listeners
        (w ++ evs1 ++ [⟨.TargetGroupsReconcile true, e1⟩]) c.LoadBalancerArn tgs1 l.listeners
      rw [hr2] at h2
      simp only at h2
      simp [hs1 hall, hs3 hall, h2]
  · have hdelF : l.deleted = false := by simpa using hdel
    simp only [hdelF, hcur]
    generalize hr4 : env.TagsReconcile _ _ = r4
    obtain ⟨e4, t4⟩ := r4
    simp only []
    generalize hr5 : env.SgAssociationReconcile _ _ = r5
    obtain ⟨e5, t5⟩ := r5
    simp only []
    generalize hr6 : env.LbAttributesReconcile _ _ = r6
    obtain ⟨e6, t6⟩ := r6
    simp only []
    refine ⟨evs1 ++ [⟨.TargetGroupsReconcile true, e1⟩] ++
      [⟨.ListenersReconcile c.LoadBalancerArn tgs1, e2⟩] ++ evs3 ++
      [⟨.TargetGroupsReconcile false, e3⟩] ++
      [⟨.TagsReconcile { l.tags with Arn := StringValue cur.LoadBalancerArn }, e4⟩,
       ⟨.SgAssociationReconcile { l.sgAssociation with
          LbArn := StringValue cur.LoadBalancerArn, Targets := tgs3 }, e5⟩,
       ⟨.LbAttributesReconcile { l.attributes with LbArn := StringValue cur.LoadBalancerArn },
          e6⟩],
      e1.toList ++ e2.toList ++ e3.toList ++
        (e4.map ("failed tagging due to " ++ ·)).toList ++
        (e5.map ("failed association of SecurityGroups due to " ++ ·)).toList ++
        (e6.map ("failed configuration of load balancer attributes due to " ++ ·)).toList,
      { l with
        targetgroups := tgs3, listeners := ls2, tags := t4, sgAssociation := t5,
        attributes := t6 }, ?_, ?_, ?_, ?_, ?_, rfl, rfl, ?_⟩
    · cases e2 <;> cases e4 <;> cases e5 <;> cases e6 <;> simp [hdelF]
    · simp only [List.filterMap_append, n1, n3]
      simp [Call.step, hdelF]
    · simp only [List.filter_append, n1f, n3f]
      cases e1 <;> cases e2 <;> cases e3 <;> cases e4 <;> cases e5 <;> cases e6 <;>
        simp [Call.step]
    · simp only [List.filter_append, n1r, n3r]
      simp [Call.isRoot]
    · simp [hdelF]
    · intro hall
      have h2 := hall.listeners
        (w ++ evs1 ++ [⟨.TargetGroupsReconcile true, e1⟩]) c.LoadBalancerArn tgs1 l.listeners
      rw [hr2] at h2
      have h4 := hall.tags _ _ ▸ congrArg Prod.fst hr4
      have h5 := hall.sgReconcile _ _ ▸ congrArg Prod.fst hr5
      have h6 := hall.attributes _ _ ▸ congrArg Prod.fst hr6
      simp only at h2 h4 h5 h6
      simp [hs1 hall, hs3 hall, h2, ← h4, ← h5, ← h6]

/-! ## The root-level action -/

/-- A root-level call is not a cascade step. -/
theorem rootEvents_not_step {evs : Trace} (h : ∀ ev ∈ evs, ev.call.isRoot = true) :
    evs.filterMap (fun e => e.call.step) = [] := by
  rw [List.filterMap_eq_nil_iff]
  intro e he
  have := h e he
  cases hc : e.call <;> simp_all [Call.step, Call.isRoot]

/-- What `delete` does on a load balancer with a current descriptor.  Its
calls are a prefix of the delete sequence (the security group detach, the WAF
disassociation when a web ACL is current, the deletion), begun with the detach
and ended by the first call that fails.  When it returns it has set `deleted`
and touched only the security group association.  It returns whenever the
current descriptor has a name or no call fails. -/
theorem delete_spec (env : Env Ls) (l : LoadBalancer Ls) (w : Trace) (c : ElbLoadBalancer)
    (hc : l.lb.current = some c) :
    ∃ (e : Option Error) (sga : Association) (dels : Trace),
      (l.delete env w).trace = w ++ dels ∧
      (c.LoadBalancerName ≠ none ∨ (∀ ev ∈ dels, ev.err = none) →
        l.delete env w = .ok (e, { l with deleted := true, sgAssociation := sga }) (w ++ dels)) ∧
      (∀ e1 l1 w1, l.delete env w = .ok (e1, l1) w1 →
        l.delete env w = .ok (e, { l with deleted := true, sgAssociation := sga }) (w ++ dels)) ∧
      (∃ e0 rest, dels = ⟨.SgAssociationDelete
        { l.sgAssociation with LbArn := StringValue c.LoadBalancerArn }, e0⟩ :: rest) ∧
      (∀ ev ∈ dels, ev.call.isDelete = true) ∧
      (dels.map (fun ev => ev.call)).IsPrefix
        ([.SgAssociationDelete { l.sgAssociation with LbArn := StringValue c.LoadBalancerArn }] ++
          (if l.options.current.webACLId.isSome then [.Disassociate c.LoadBalancerArn] else []) ++
          [.DeleteLoadBalancer c.LoadBalancerArn]) ∧
      (∀ ev ∈ dels.dropLast, ev.err = none) ∧
      ((∀ ev ∈ dels, ev.err = none) → e = none ∧
        dels.map (fun ev => ev.call) =
          [.SgAssociationDelete { l.sgAssociation with LbArn := StringValue c.LoadBalancerArn }] ++
          (if l.options.current.webACLId.isSome then [.Disassociate c.LoadBalancerArn] else []) ++
          [.DeleteLoadBalancer c.LoadBalancerArn]) := by
  simp only [LoadBalancer.delete, hc]
  generalize hr : env.SgAssociationDelete _ _ = r
  obtain ⟨e0, sga⟩ := r
  cases e0 with
  | some err =>
    refine ⟨some ("failed disassociation of SecurityGroups due to " ++ err), sga,
      [⟨.SgAssociationDelete { l.sgAssociation with LbArn := StringValue c.LoadBalancerArn },
        some err⟩], ?_⟩
    simp [Result.trace, Call.isDelete]
  | none =>
    simp only []
    cases hw : l.options.current.webACLId with
    | none =>
      simp only []
      generalize hd : env.DeleteLoadBalancer _ _ = ed
      cases ed with
      | some err =>
        refine ⟨some ("Failed deletion of ELBV2: " ++ err ++ "."), sga,
          [⟨.SgAssociationDelete { l.sgAssociation with LbArn := StringValue c.LoadBalancerArn },
            none⟩, ⟨.DeleteLoadBalancer c.LoadBalancerArn, some err⟩], ?_⟩
        by_cases hn : c.LoadBalancerName = none <;> simp [hn, Result.trace, Call.isDelete]
      | none =>
        refine ⟨none, sga,
          [⟨.SgAssociationDelete { l.sgAssociation with LbArn := StringValue c.LoadBalancerArn },
            none⟩, ⟨.DeleteLoadBalancer c.LoadBalancerArn, none⟩], ?_⟩
        simp [Result.trace, Call.isDelete]
    | some acl =>
      simp only []
      generalize hx : env.Disassociate _ _ = ex
      cases ex with
      | some err =>
        refine ⟨some ("Failed disassociation of ELBV2 Web ACL: " ++ err ++ "."), sga,
          [⟨.SgAssociationDelete { l.sgAssociation with LbArn := StringValue c.LoadBalancerArn },
            none⟩, ⟨.Disassociate c.LoadBalancerArn, some err⟩], ?_⟩
        by_cases hn : c.LoadBalancerName = none <;> simp [hn, Result.trace, Call.isDelete]
      | none =>
        simp only []
        generalize hd : env.DeleteLoadBalancer _ _ = ed
        cases ed with
        | some err =>
          refine ⟨some ("Failed deletion of ELBV2: " ++ err ++ "."), sga,
            [⟨.SgAssociationDelete { l.sgAssociation with LbArn := StringValue c.LoadBalancerArn },
              none⟩, ⟨.Disassociate c.LoadBalancerArn, none⟩,
              ⟨.DeleteLoadBalancer c.LoadBalancerArn, some err⟩], ?_⟩
          by_cases hn : c.LoadBalancerName = none <;> simp [hn, Result.trace, Call.isDelete]
        | none =>
          refine ⟨none, sga,
            [⟨.SgAssociationDelete { l.sgAssociation with LbArn := StringValue c.LoadBalancerArn },
              none⟩, ⟨.Disassociate c.LoadBalancerArn, none⟩,
              ⟨.DeleteLoadBalancer c.LoadBalancerArn, none⟩], ?_⟩
          simp [Result.trace, Call.isDelete]

/-- When every call succeeds, `delete` makes its whole call sequence and
returns no error. -/
theorem delete_allSucceed (env : Env Ls) (l : LoadBalancer Ls) (w : Trace) (c : ElbLoadBalancer)
    (hc : l.lb.current = some c) (hall : env.AllSucceed) :
    l.delete env w =
      .ok (none, { l with
          deleted := true,
          sgAssociation := (env.SgAssociationDelete w
            { l.sgAssociation with LbArn := StringValue c.LoadBalancerArn }).2 })
        (w ++ ([⟨.SgAssociationDelete
            { l.sgAssociation with LbArn := StringValue c.LoadBalancerArn }, none⟩] ++
          (if l.options.current.webACLId.isSome then [⟨.Disassociate c.LoadBalancerArn, none⟩]
            else []) ++
          [⟨.DeleteLoadBalancer c.LoadBalancerArn, none⟩])) := by
  simp only [LoadBalancer.delete, hc, hall.sgDelete, hall.disassociate, hall.deleteLoadBalancer]
  cases l.options.current.webACLId <;> simp

/-- What `create` does on a load balancer with a desired descriptor: its first
call is `CreateLoadBalancer` with the request built from the desired
descriptor, followed by nothing, or by the one association of the desired web
ACL with the ARN of the descriptor that `CreateLoadBalancer` has just returned;
when it returns, only the current descriptor may have changed, and it is set
whenever it was set before or the creation succeeded. -/
theorem create_spec (env : Env Ls) (l : LoadBalancer Ls) (w : Trace) (d : ElbLoadBalancer)
    (hd : l.lb.desired = some d) :
    ∃ (e0 : Option Error) (crs : Trace),
      (l.create env w).trace = w ++ ⟨.CreateLoadBalancer (createInput d l.tags), e0⟩ :: crs ∧
      e0 = errorOf (env.CreateLoadBalancer w (createInput d l.tags)) ∧
      (crs = [] ∨ ∃ created rest acl,
        env.CreateLoadBalancer w (createInput d l.tags) = .ok (created :: rest) ∧
        l.options.desired.webACLId = some acl ∧
        crs = [⟨.Associate created.LoadBalancerArn (some acl),
          env.Associate (w ++ [⟨.CreateLoadBalancer (createInput d l.tags), none⟩])
            created.LoadBalancerArn (some acl)⟩]) ∧
      ∀ e l1 w1, l.create env w = .ok (e, l1) w1 →
        ∃ cur, l1 = { l with lb := { l.lb with current := cur } } ∧
          (l.lb.current.isSome → cur.isSome) ∧ (e = none → cur.isSome) := by
  simp only [LoadBalancer.create, hd]
  cases hcr : env.CreateLoadBalancer w (createInput d l.tags) with
  | error err =>
    refine ⟨some err, [], ?_, rfl, Or.inl rfl, ?_⟩
    · simp only []
      split <;> simp [Result.trace]
    · intro e l1 w1 h
      simp only [] at h
      split at h
      · cases h
      · simp only [Result.ok.injEq, Prod.mk.injEq] at h
        obtain ⟨⟨rfl, rfl⟩, rfl⟩ := h
        refine ⟨l.lb.current, ?_, fun h => h, by simp⟩
        obtain ⟨id, tags, ⟨cur, des⟩, opt, tgs, ls, sga, attrs, del⟩ := l
        simp only at hd
        simp [hd]
  | ok o =>
    cases o with
    | nil => exact ⟨none, [], by simp [Result.trace], rfl, Or.inl rfl, by simp⟩
    | cons created rest =>
      simp only []
      cases hacl : l.options.desired.webACLId with
      | none =>
        refine ⟨none, [], by simp [Result.trace], rfl, Or.inl rfl, ?_⟩
        intro e l1 w1 h
        simp only [Result.ok.injEq, Prod.mk.injEq] at h
        obtain ⟨⟨rfl, rfl⟩, rfl⟩ := h
        exact ⟨some created, rfl, by simp, by simp⟩
      | some acl =>
        simp only []
        refine ⟨none, [⟨.Associate created.LoadBalancerArn (some acl),
          env.Associate (w ++ [⟨.CreateLoadBalancer (createInput d l.tags), none⟩])
            created.LoadBalancerArn (some acl)⟩], ?_, rfl,
          Or.inr ⟨created, rest, acl, rfl, rfl, rfl⟩, ?_⟩
        · split
          · split <;> simp [Result.trace]
          · simp [Result.trace]
        · intro e l1 w1 h
          split at h
          · split at h
            · cases h
            · simp only [Result.ok.injEq, Prod.mk.injEq] at h
              obtain ⟨⟨rfl, rfl⟩, rfl⟩ := h
              exact ⟨some created, rfl, by simp, by simp⟩
          · simp only [Result.ok.injEq, Prod.mk.injEq] at h
            obtain ⟨⟨rfl, rfl⟩, rfl⟩ := h
            exact ⟨some created, rfl, by simp, by simp⟩

/-- The method `create` returns whenever `CreateLoadBalancer` returns a
descriptor that has a name, and that descriptor is then current. -/
theorem create_returns (env : Env Ls) (l : LoadBalancer Ls) (w : Trace) (d : ElbLoadBalancer)
    (created : ElbLoadBalancer) (rest : List ElbLoadBalancer)
    (hd : l.lb.desired = some d)
    (hcr : env.CreateLoadBalancer w (createInput d l.tags) = .ok (created :: rest))
    (hname : created.LoadBalancerName ≠ none) :
    ∃ e w1, l.create env w =
      .ok (e, { l with lb := { l.lb with current := some created } }) w1 := by
  simp only [LoadBalancer.create, hd, hcr]
  cases hacl : l.options.desired.webACLId with
  | none => exact ⟨_, _, rfl⟩
  | some acl =>
    simp only []
    split
    · simp only [hname, if_false]
      exact ⟨_, _, rfl⟩
    · exact ⟨_, _, rfl⟩

/-- A call of `delete` is not an in-place change of subnets or IP address
type. -/
theorem isDelete_not_isSetCall (c : Call) (h : c.isDelete = true) : c.isSetCall = false := by
  cases c <;> simp_all [Call.isDelete, Call.isSetCall]

/-- The diff of a load balancer with both descriptors never faults; it
forbids the in-place change exactly when the schemes differ, and then reports
the scheme flag alone. -/
theorem needsModification_spec (env : Env Ls) (l : LoadBalancer Ls) (c d : ElbLoadBalancer)
    (hc : l.lb.current = some c) (hd : l.lb.desired = some d) :
    ∃ nm cm, l.needsModification env = some (nm, cm) ∧
      (c.Scheme ≠ d.Scheme → nm = schemeModified ∧ cm = false) ∧
      (c.Scheme = d.Scheme → cm = true) := by
  simp only [LoadBalancer.needsModification, hc, hd, DeepEqual]
  by_cases hs : c.Scheme = d.Scheme
  · simp [hs]
  · simp [hs, schemeModified]

/-- An outcome of a later part, started from a state and a trace reached by
root-level calls, is an outcome of the whole. -/
theorem RootOutcome.extend {l m : LoadBalancer Ls} {w : Trace} {evs0 : Trace}
    {r : Result (Option Error × LoadBalancer Ls)}
    (h : RootOutcome m (w ++ evs0) r) (h0 : ∀ ev ∈ evs0, ev.call.isRoot = true)
    (hd : m.lb.desired = l.lb.desired) (hc : l.lb.current.isSome → m.lb.current.isSome) :
    RootOutcome l w r := by
  obtain ⟨⟨evs, ht, hev⟩, hok⟩ := h
  refine ⟨⟨evs0 ++ evs, by simp [ht], ?_⟩, ?_⟩
  · intro ev hmem
    rcases List.mem_append.mp hmem with h1 | h1
    · exact h0 ev h1
    · exact hev ev h1
  · intro e l1 w1 hr
    obtain ⟨h1, h2⟩ := hok e l1 w1 hr
    exact ⟨h1.trans hd, fun h => h2 (hc h)⟩

/-- Returning at once, with the state as it is after root-level calls. -/
theorem RootOutcome.ret (l m : LoadBalancer Ls) (w : Trace) (evs0 : Trace) (e : Option Error)
    (h0 : ∀ ev ∈ evs0, ev.call.isRoot = true)
    (hd : m.lb.desired = l.lb.desired) (hc : l.lb.current.isSome → m.lb.current.isSome) :
    RootOutcome l w (.ok (e, m) (w ++ evs0)) := by
  refine ⟨⟨evs0, rfl, h0⟩, ?_⟩
  intro e1 l1 w1 hr
  simp only [Result.ok.injEq, Prod.mk.injEq] at hr
  obtain ⟨⟨-, rfl⟩, -⟩ := hr
  exact ⟨hd, hc⟩

/-- A panic after root-level calls. -/
theorem RootOutcome.panic (l : LoadBalancer Ls) (w : Trace) (evs0 : Trace)
    (h0 : ∀ ev ∈ evs0, ev.call.isRoot = true) :
    RootOutcome l w (.panic (w ++ evs0)) :=
  ⟨⟨evs0, rfl, h0⟩, by intro e l1 w1 hr; cases hr⟩

/-- The web ACL block makes root-level calls only and keeps the descriptors. -/
theorem modifyWebACL_outcome (env : Env Ls) (nm : loadBalancerChange) (l : LoadBalancer Ls)
    (w : Trace) : RootOutcome l w (l.modifyWebACL env nm w) := by
  unfold LoadBalancer.modifyWebACL
  split
  · cases hcur : l.lb.current with
    | none => simpa using RootOutcome.panic l w [] (by simp)
    | some current =>
      cases hacl : l.options.desired.webACLId with
      | some acl =>
        simp only []
        cases he : env.Associate w current.LoadBalancerArn (some acl) with
        | some err =>
          simp only []
          split
          · exact RootOutcome.panic _ _ _ (by simp [Call.isRoot])
          · exact RootOutcome.ret _ _ _ _ _ (by simp [Call.isRoot]) rfl (by simp [hcur])
        | none =>
          simp only []
          exact RootOutcome.ret _ _ _ _ _ (by simp [Call.isRoot]) rfl (by simp [hcur])
      | none =>
        simp only []
        cases he : env.Disassociate w current.LoadBalancerArn with
        | some err =>
          simp only []
          split
          · exact RootOutcome.panic _ _ _ (by simp [Call.isRoot])
          · exact RootOutcome.ret _ _ _ _ _ (by simp [Call.isRoot]) rfl (by simp [hcur])
        | none =>
          simp only []
          exact RootOutcome.ret _ _ _ _ _ (by simp [Call.isRoot]) rfl (by simp [hcur])
  · simpa using RootOutcome.ret l l w [] none (by simp) rfl (fun h => h)

/-- The IP address type block and what follows it make root-level calls only and keep the descriptors set. -/
theorem modifyIpAddressType_outcome (env : Env Ls) (nm : loadBalancerChange)
    (l : LoadBalancer Ls) (w : Trace) : RootOutcome l w (l.modifyIpAddressType env nm w) := by
  unfold LoadBalancer.modifyIpAddressType
  split
  · split
    · rename_i current desired hcur hdes
      split
      · simpa using RootOutcome.panic l w [] (by simp)
      · simp only []
        split
        · exact RootOutcome.panic _ _ _ (by simp [Call.isRoot])
        · cases he : env.SetIpAddressType w current.LoadBalancerArn desired.IpAddressType with
          | some err =>
            simp only []
            exact RootOutcome.ret _ _ _ _ _ (by simp [Call.isRoot]) rfl (fun h => h)
          | none =>
            simp only []
            exact (modifyWebACL_outcome env nm _ _).extend (by simp [Call.isRoot]) rfl (by simp)
    · simpa using RootOutcome.panic l w [] (by simp)
  · exact modifyWebACL_outcome env nm l w

/-- The subnets block and what follows it make root-level calls only and keep the descriptors set. -/
theorem modifySubnets_outcome (env : Env Ls) (nm : loadBalancerChange)
    (l : LoadBalancer Ls) (w : Trace) : RootOutcome l w (l.modifySubnets env nm w) := by
  unfold LoadBalancer.modifySubnets
  split
  · split
    · rename_i current desired hcur hdes
      simp only []
      split
      · exact RootOutcome.panic _ _ _ (by simp [Call.isRoot])
      · cases he : env.SetSubnets w current.LoadBalancerArn
            (AsSubnets desired.AvailabilityZones) with
        | some err =>
          simp only []
          exact RootOutcome.ret _ _ _ _ _ (by simp [Call.isRoot]) rfl (fun h => h)
        | none =>
          simp only []
          exact (modifyIpAddressType_outcome env nm _ _).extend (by simp [Call.isRoot]) rfl
            (by simp)
    · simpa using RootOutcome.panic l w [] (by simp)
  · exact modifyIpAddressType_outcome env nm l w

/-- The method `delete` makes root-level calls only and keeps the descriptors. -/
theorem delete_outcome (env : Env Ls) (l : LoadBalancer Ls) (w : Trace) :
    RootOutcome l w (l.delete env w) := by
  cases hc : l.lb.current with
  | none =>
    have : l.delete env w = .panic w := by simp [LoadBalancer.delete, hc]
    rw [this]
    simpa using RootOutcome.panic l w [] (by simp)
  | some c =>
    obtain ⟨e, sga, dels, ht, -, hok, -, hdel, -⟩ := delete_spec env l w c hc
    refine ⟨⟨dels, ht, ?_⟩, ?_⟩
    · intro ev hev
      have := hdel ev hev
      cases hcall : ev.call <;> simp_all [Call.isDelete, Call.isRoot]
    · intro e1 l1 w1 hr
      have h2 := hok e1 l1 w1 hr
      rw [h2] at hr
      simp only [Result.ok.injEq, Prod.mk.injEq] at hr
      obtain ⟨⟨-, rfl⟩, -⟩ := hr
      exact ⟨rfl, by simp [hc]⟩

/-- The method `create` makes root-level calls only and never unsets the current descriptor. -/
theorem create_outcome (env : Env Ls) (l : LoadBalancer Ls) (w : Trace) :
    RootOutcome l w (l.create env w) := by
  cases hd : l.lb.desired with
  | none =>
    have : l.create env w = .panic w := by simp [LoadBalancer.create, hd]
    rw [this]
    simpa using RootOutcome.panic l w [] (by simp)
  | some d =>
    obtain ⟨e0, crs, ht, -, hcrs, hok⟩ := create_spec env l w d hd
    refine ⟨⟨_, ht, ?_⟩, ?_⟩
    · intro ev hev
      rcases List.mem_cons.mp hev with rfl | hev
      · rfl
      · rcases hcrs with rfl | ⟨created, rest, acl, -, -, rfl⟩
        · cases hev
        · simp only [List.mem_singleton] at hev
          subst hev
          rfl
    · intro e l1 w1 hr
      obtain ⟨cur, rfl, h1, -⟩ := hok e l1 w1 hr
      exact ⟨rfl, h1⟩

/-- The method `modify` makes root-level calls only and never unsets the current descriptor. -/
theorem modify_outcome (env : Env Ls) (l : LoadBalancer Ls) (w : Trace) :
    RootOutcome l w (l.modify env w) := by
  unfold LoadBalancer.modify
  split
  · simpa using RootOutcome.panic l w [] (by simp)
  · rename_i nm cm hnm
    split
    · simpa using RootOutcome.ret l l w [] none (by simp) rfl (fun h => h)
    · split
      · exact modifySubnets_outcome env nm l w
      · split
        · simpa using RootOutcome.panic l w [] (by simp)
        · rename_i current hcurrent
          split
          · simpa using RootOutcome.panic l w [] (by simp)
          · have hdel := delete_outcome env l w
            split
            · rename_i w1 hp
              rw [hp] at hdel
              obtain ⟨⟨evs, ht, hev⟩, -⟩ := hdel
              simp only [Result.trace] at ht
              subst ht
              exact RootOutcome.panic l w evs hev
            · rename_i e1 l1 w1 hdl
              rw [hdl] at hdel
              obtain ⟨⟨evs, ht, hev⟩, hok⟩ := hdel
              simp only [Result.trace] at ht
              subst ht
              obtain ⟨hd1, hc1⟩ := hok e1 l1 _ rfl
              have hcr := create_outcome env
                { l1 with listeners := env.ListenersStripCurrentState l1.listeners }
                (w ++ evs ++ [⟨.ListenersStripCurrentState, none⟩])
              have hevS : ∀ ev ∈ evs ++ [(⟨.ListenersStripCurrentState, none⟩ : Event)],
                  ev.call.isRoot = true := by
                intro ev hmem
                rcases List.mem_append.mp hmem with h | h
                · exact hev ev h
                · simp only [List.mem_singleton] at h
                  subst h
                  rfl
              rw [List.append_assoc] at hcr
              have hcrX := hcr.extend hevS hd1 hc1
              simp only []
              rw [List.append_assoc]
              split
              · rename_i w3 hp3
                rw [hp3] at hcrX
                obtain ⟨⟨evs3, ht3, hev3⟩, -⟩ := hcrX
                simp only [Result.trace] at ht3
                subst ht3
                exact RootOutcome.panic l w evs3 hev3
              · rename_i e3 l3 w3 hc3
                rw [hc3] at hcrX
                obtain ⟨⟨evs3, ht3, hev3⟩, hok3⟩ := hcrX
                simp only [Result.trace] at ht3
                subst ht3
                obtain ⟨hd3, hcc3⟩ := hok3 e3 l3 _ rfl
                split
                · exact RootOutcome.panic l w evs3 hev3
                · split
                  · exact RootOutcome.panic l w evs3 hev3
                  · exact RootOutcome.ret _ _ _ _ _ hev3 hd3 hcc3

/-- The rebuild branch of `modify`, once the name of the current descriptor
has been dereferenced and `delete` has returned: the listeners are stripped
and `create` runs; `modify` ends with the trace of `create`, drops its error,
and returns when the descriptor then current has a name and an ARN. -/
theorem modify_rebuild (env : Env Ls) (l : LoadBalancer Ls) (w : Trace)
    (nm : loadBalancerChange) (c : ElbLoadBalancer) (e1 : Option Error) (l1 : LoadBalancer Ls)
    (w1 : Trace) (hnm : l.needsModification env = some (nm, false)) (h0 : nm ≠ 0)
    (hc : l.lb.current = some c) (hn : c.LoadBalancerName ≠ none)
    (hdel : l.delete env w = .ok (e1, l1) w1) :
    (l.modify env w).trace =
        (LoadBalancer.create env
          { l1 with listeners := env.ListenersStripCurrentState l1.listeners }
          (w1 ++ [⟨.ListenersStripCurrentState, none⟩])).trace ∧
      (∀ e3 l3 w3, LoadBalancer.create env
          { l1 with listeners := env.ListenersStripCurrentState l1.listeners }
          (w1 ++ [⟨.ListenersStripCurrentState, none⟩]) = .ok (e3, l3) w3 →
        (∀ r, l3.lb.current = some r → r.LoadBalancerName ≠ none → r.LoadBalancerArn ≠ none →
          l.modify env w = .ok (none, l3) w3) ∧
        (∀ e2 l2 w2, l.modify env w = .ok (e2, l2) w2 → e2 = none ∧ l2 = l3)) ∧
      (∀ e2 l2 w2, l.modify env w = .ok (e2, l2) w2 →
        ∃ e3, LoadBalancer.create env
          { l1 with listeners := env.ListenersStripCurrentState l1.listeners }
          (w1 ++ [⟨.ListenersStripCurrentState, none⟩]) = .ok (e3, l2) w2) := by
  simp only [LoadBalancer.modify, hnm, h0, if_false, hc, hn, hdel, Bool.false_eq_true]
  cases hcr : LoadBalancer.create env
      { l1 with listeners := env.ListenersStripCurrentState l1.listeners }
      (w1 ++ [⟨.ListenersStripCurrentState, none⟩]) with
  | panic w3 => simp [Result.trace]
  | ok p w3 =>
    obtain ⟨e3, l3⟩ := p
    simp only []
    cases hcur : l3.lb.current with
    | none => simp [Result.trace, hcur]
    | some r =>
      simp only []
      by_cases hr : r.LoadBalancerName = none ∨ r.LoadBalancerArn = none
      · simp only [hr, if_true]
        refine ⟨rfl, ?_, by simp⟩
        intro e4 l4 w4 h4
        simp only [Result.ok.injEq, Prod.mk.injEq] at h4
        obtain ⟨⟨rfl, rfl⟩, rfl⟩ := h4
        refine ⟨?_, by simp⟩
        intro r2 hr2 h5 h6
        rw [hcur] at hr2
        cases hr2
        rcases hr with h | h
        · exact absurd h h5
        · exact absurd h h6
      · simp only [hr, if_false]
        refine ⟨rfl, ?_, ?_⟩
        · intro e4 l4 w4 h4
          simp only [Result.ok.injEq, Prod.mk.injEq] at h4
          obtain ⟨⟨rfl, rfl⟩, rfl⟩ := h4
          refine ⟨fun _ _ _ _ => rfl, ?_⟩
          intro e2 l2 w2 h2
          simp only [Result.ok.injEq, Prod.mk.injEq] at h2
          exact ⟨h2.1.1.symm, h2.1.2.symm⟩
        · intro e2 l2 w2 h2
          simp only [Result.ok.injEq, Prod.mk.injEq] at h2
          obtain ⟨⟨-, rfl⟩, rfl⟩ := h2
          exact ⟨e3, rfl⟩

/-- The root-level action that reaches the cascade with a non-nil `lbc` has
made root-level calls only, has recorded at most one error, and leaves the
current descriptor set. -/
theorem reconcileRoot_spec (env : Env Ls) (l : LoadBalancer Ls) (w w1 : Trace)
    (errors : List Error) (c : ElbLoadBalancer) (l1 : LoadBalancer Ls)
    (hroot : l.reconcileRoot env w = .ok (.continues errors (some c) l1) w1) :
    ∃ evs, w1 = w ++ evs ∧ (∀ ev ∈ evs, ev.call.isRoot = true) ∧ errors.length ≤ 1 ∧
      l1.lb.current.isSome := by
  have key : ∀ (r : Result (Option Error × LoadBalancer Ls)) (e : Option Error),
      RootOutcome l w r → r = .ok (e, l1) w1 → (l.lb.current.isSome ∨ l1.lb.current.isSome) →
      ∃ evs, w1 = w ++ evs ∧ (∀ ev ∈ evs, ev.call.isRoot = true) ∧ l1.lb.current.isSome := by
    intro r e ho hr hcur
    obtain ⟨⟨evs, ht, hev⟩, hok⟩ := ho
    subst hr
    simp only [Result.trace] at ht
    refine ⟨evs, ht, hev, ?_⟩
    rcases hcur with h | h
    · exact (hok e l1 w1 rfl).2 h
    · exact h
  unfold LoadBalancer.reconcileRoot at hroot
  simp only [] at hroot
  split at hroot
  · rename_i hd hc
    simp [hc] at hroot
  · rename_i c0 hd hc
    split at hroot
    · simp at hroot
    · rename_i err l2 w2 hdel
      simp only [Result.ok.injEq, RootAction.continues.injEq] at hroot
      obtain ⟨⟨rfl, -, rfl⟩, rfl⟩ := hroot
      obtain ⟨evs, h1, h2, h3⟩ := key _ _ (delete_outcome env l w) hdel (Or.inl (by simp [hc]))
      exact ⟨evs, h1, h2, by simp, h3⟩
    · rename_i l2 w2 hdel
      split at hroot
      · cases hroot
      · simp only [Result.ok.injEq, RootAction.continues.injEq] at hroot
        obtain ⟨⟨rfl, -, rfl⟩, rfl⟩ := hroot
        obtain ⟨evs, h1, h2, h3⟩ := key _ _ (delete_outcome env l w) hdel (Or.inl (by simp [hc]))
        exact ⟨evs, h1, h2, by simp, h3⟩
  · rename_i d0 hd hc
    split at hroot
    · simp at hroot
    · simp at hroot
    · rename_i l2 w2 hcr
      split at hroot
      · cases hroot
      · rename_i created hcreated
        split at hroot
        · cases hroot
        · simp only [Result.ok.injEq, RootAction.continues.injEq] at hroot
          obtain ⟨⟨rfl, -, rfl⟩, rfl⟩ := hroot
          obtain ⟨evs, h1, h2, h3⟩ := key _ _ (create_outcome env l w) hcr
            (Or.inr (by simp [hcreated]))
          exact ⟨evs, h1, h2, by simp, h3⟩
  · rename_i d0 c0 hd hc
    split at hroot
    · simp at hroot
    · rename_i err l2 w2 hmod
      simp only [Result.ok.injEq, RootAction.continues.injEq] at hroot
      obtain ⟨⟨rfl, -, rfl⟩, rfl⟩ := hroot
      obtain ⟨evs, h1, h2, h3⟩ := key _ _ (modify_outcome env l w) hmod (Or.inl (by simp [hc]))
      exact ⟨evs, h1, h2, by simp, h3⟩
    · rename_i l2 w2 hmod
      simp only [Result.ok.injEq, RootAction.continues.injEq] at hroot
      obtain ⟨⟨rfl, -, rfl⟩, rfl⟩ := hroot
      obtain ⟨evs, h1, h2, h3⟩ := key _ _ (modify_outcome env l w) hmod (Or.inl (by simp [hc]))
      exact ⟨evs, h1, h2, by simp, h3⟩

/-- When the root-level action reaches the cascade and the current descriptor
is set, the local variable `lbc` is not nil: it is nil only when both
descriptors were nil, and then nothing was done. -/
theorem reconcileRoot_lbc (env : Env Ls) (l : LoadBalancer Ls) (w w1 : Trace)
    (errors : List Error) (lbc : Option ElbLoadBalancer) (l1 : LoadBalancer Ls)
    (hroot : l.reconcileRoot env w = .ok (.continues errors lbc l1) w1)
    (hcur : l1.lb.current ≠ none) : ∃ c, lbc = some c := by
  cases lbc with
  | some c => exact ⟨c, rfl⟩
  | none =>
    exfalso
    unfold LoadBalancer.reconcileRoot at hroot
    simp only [] at hroot
    split at hroot
    · rename_i hd hc
      simp only [Result.ok.injEq, RootAction.continues.injEq] at hroot
      obtain ⟨⟨-, -, rfl⟩, -⟩ := hroot
      exact hcur hc
    · rename_i c0 hd hc
      split at hroot
      · cases hroot
      · simp [hc] at hroot
      · split at hroot
        · cases hroot
        · simp [hc] at hroot
    · split at hroot
      · cases hroot
      · cases hroot
      · split at hroot
        · cases hroot
        · split at hroot
          · cases hroot
          · simp at hroot
    · rename_i d0 c0 hd hc
      split at hroot
      · cases hroot
      · simp [hc] at hroot
      · simp [hc] at hroot

/-- The sample collaborators `okEnv` succeed at every call. -/
theorem okEnv_allSucceed : okEnv.AllSucceed where
  create := fun _ i => ⟨_, rfl, rfl, rfl, by simp [AsSubnets, Function.comp_def]⟩
  associate := fun _ _ _ => rfl
  disassociate := fun _ _ => rfl
  setSubnets := fun _ _ _ => rfl
  setIpAddressType := fun _ _ _ => rfl
  deleteLoadBalancer := fun _ _ => rfl
  sgDelete := fun _ _ => rfl
  sgReconcile := fun _ _ => rfl
  tags := fun _ _ => rfl
  attributes := fun _ _ => rfl
  targetGroup := fun _ _ _ => rfl
  listeners := fun _ _ _ _ => rfl

/-! ## Claims on `LoadBalancer.Reconcile` -/

/-- Claim C1 as stated fails: on the sample load balancer pending creation
`CreateLoadBalancer` succeeds and the WAF association that follows fails.  The
current descriptor is then set, yet `Reconcile` returns that one error at once:
its only calls are the creation and the association, and none of them is a
step of the cascade. -/
theorem Reconcile_returns_after_failed_association :
    pendingCreation.lb.current = none ∧
    ∃ w1, pendingCreation.Reconcile associateFailsEnv [] =
        .ok (["WAFUnavailable"], createdLoadBalancer) w1 ∧
      createdLoadBalancer.lb.current = some createdDescriptor ∧
      w1.map (fun e => e.call) =
        [.CreateLoadBalancer (createInput desiredDescriptor pendingCreation.tags),
         .Associate (some "arn:new") (some "acl-1")] ∧
      w1.filterMap (fun e => e.call.step) = [] :=
  ⟨rfl, _, rfl, rfl, by decide, by decide⟩

/-- Claim C1 as amended.  Whenever the root-level action of `Reconcile`
completes (it neither panics nor returns early on an error of `create`, be it
a failed `CreateLoadBalancer` or a failed WAF association after it) and leaves
the current descriptor non-nil, `Reconcile` returns.  The root-level action
recorded at most one error and made no cascade call.  The cascade calls are,
once each and in this order, `TargetGroups.Reconcile` with `IgnoreDeletes`
true, `Listeners.Reconcile`, `TargetGroups.Reconcile` with `IgnoreDeletes`
false and then, exactly when the flag `deleted` is false, the reconciles of the
tags, the security group association and the attributes.  Which steps are made
does not depend on which of them fail, and the errors returned are the errors
of the root-level action followed by exactly one error for each failed step. -/
theorem Reconcile_cascade_order (env : Env Ls) (l : LoadBalancer Ls) (w w1 : Trace)
    (errors : List Error) (lbc : Option ElbLoadBalancer) (l1 : LoadBalancer Ls)
    (hroot : l.reconcileRoot env w = .ok (.continues errors lbc l1) w1)
    (hcur : l1.lb.current ≠ none) :
    errors.length ≤ 1 ∧
    ∃ (root steps : Trace) (errs : List Error) (l2 : LoadBalancer Ls),
      w1 = w ++ root ∧
      root.filterMap (fun e => e.call.step) = [] ∧
      l.Reconcile env w = .ok (errors ++ errs, l2) (w ++ root ++ steps) ∧
      steps.filterMap (fun e => e.call.step) =
        [.TargetGroups true, .Listeners, .TargetGroups false] ++
          (if l1.deleted then [] else [.Tags, .SgAssociation, .LbAttributes]) ∧
      errs.length = (steps.filter (fun e => e.call.step.isSome && e.err.isSome)).length ∧
      l2.deleted = l1.deleted := by
  obtain ⟨c, rfl⟩ := reconcileRoot_lbc env l w w1 errors lbc l1 hroot hcur
  obtain ⟨root, rfl, hrootEv, hlen, hcur1⟩ := reconcileRoot_spec env l w w1 errors c l1 hroot
  obtain ⟨steps, errs, l2, h1, h2, h3, -, h5, -⟩ := cascade_spec env errors c l1 (w ++ root) hcur1
  refine ⟨hlen, root, steps, errs, l2, rfl, rootEvents_not_step hrootEv, ?_, h2, h3, h5⟩
  simp only [LoadBalancer.Reconcile, hroot, h1]

/-- Claim C1 as amended, at a sample input: a load balancer pending creation
whose creation succeeds runs the six steps of the cascade. -/
theorem Reconcile_cascade_order_witness :
    pendingCreation.reconcileRoot okEnv [] =
      .ok (.continues [] (some createdDescriptor) createdLoadBalancer) createdTrace ∧
    (([] : List Error).length ≤ 1 ∧
    ∃ (root steps : Trace) (errs : List Error) (l2 : LoadBalancer Unit),
      createdTrace = [] ++ root ∧
      root.filterMap (fun e => e.call.step) = [] ∧
      pendingCreation.Reconcile okEnv [] = .ok ([] ++ errs, l2) ([] ++ root ++ steps) ∧
      steps.filterMap (fun e => e.call.step) =
        [.TargetGroups true, .Listeners, .TargetGroups false] ++
          (if createdLoadBalancer.deleted then [] else [.Tags, .SgAssociation, .LbAttributes]) ∧
      errs.length = (steps.filter (fun e => e.call.step.isSome && e.err.isSome)).length ∧
      l2.deleted = createdLoadBalancer.deleted) :=
  ⟨rfl, Reconcile_cascade_order okEnv pendingCreation [] createdTrace [] (some createdDescriptor)
    createdLoadBalancer rfl (by decide)⟩

/-- Claim C2.  When both descriptors are set, their schemes differ and the
current descriptor has a name (the rebuild dereferences it first),
`needsModification` returns the scheme flag alone with `canModify` false, and
`modify` rebuilds.  Its calls are exactly: those of `delete`, a prefix of the
delete sequence that begins with the security group detach, is the whole
sequence when none of them fails and otherwise ends at the first failure; then
the stripping of the listeners' current state; then `CreateLoadBalancer` for
the desired descriptor; then nothing, or the one association that `create`
makes of the desired web ACL with the ARN of the descriptor just created.  So
no `SetSubnets`, no `SetIpAddressType` and no association or disassociation of
the in-place branch is made.  When `modify` returns it returns no error and
has left the options, the current web ACL id included, untouched, whatever the
other differences between the descriptors are; and it does return, with the
new descriptor current, when `CreateLoadBalancer` returns a descriptor that
has a name and an ARN. -/
theorem modify_scheme_change_rebuilds (env : Env Ls) (l : LoadBalancer Ls) (w : Trace)
    (c d : ElbLoadBalancer) (hc : l.lb.current = some c) (hd : l.lb.desired = some d)
    (hs : c.Scheme ≠ d.Scheme) (hn : c.LoadBalancerName ≠ none) :
    l.needsModification env = some (schemeModified, false) ∧
    ∃ (e : Option Error) (sga : Association) (dels : Trace) (e0 : Option Error) (crs : Trace),
      l.delete env w = .ok (e, { l with deleted := true, sgAssociation := sga }) (w ++ dels) ∧
      (∃ e1 rest, dels = ⟨.SgAssociationDelete
        { l.sgAssociation with LbArn := StringValue c.LoadBalancerArn }, e1⟩ :: rest) ∧
      (∀ ev ∈ dels, ev.call.isDelete = true) ∧
      (dels.map (fun ev => ev.call)).IsPrefix
        ([.SgAssociationDelete { l.sgAssociation with LbArn := StringValue c.LoadBalancerArn }] ++
          (if l.options.current.webACLId.isSome then [.Disassociate c.LoadBalancerArn] else []) ++
          [.DeleteLoadBalancer c.LoadBalancerArn]) ∧
      (∀ ev ∈ dels.dropLast, ev.err = none) ∧
      ((∀ ev ∈ dels, ev.err = none) → e = none ∧
        dels.map (fun ev => ev.call) =
          [.SgAssociationDelete { l.sgAssociation with LbArn := StringValue c.LoadBalancerArn }] ++
          (if l.options.current.webACLId.isSome then [.Disassociate c.LoadBalancerArn] else []) ++
          [.DeleteLoadBalancer c.LoadBalancerArn]) ∧
      (l.modify env w).trace =
        w ++ dels ++ [⟨.ListenersStripCurrentState, none⟩] ++
          ⟨.CreateLoadBalancer (createInput d l.tags), e0⟩ :: crs ∧
      e0 = errorOf (env.CreateLoadBalancer
        (w ++ dels ++ [⟨.ListenersStripCurrentState, none⟩]) (createInput d l.tags)) ∧
      (crs = [] ∨ ∃ created rest acl,
        env.CreateLoadBalancer (w ++ dels ++ [⟨.ListenersStripCurrentState, none⟩])
          (createInput d l.tags) = .ok (created :: rest) ∧
        l.options.desired.webACLId = some acl ∧
        crs = [⟨.Associate created.LoadBalancerArn (some acl),
          env.Associate (w ++ dels ++ [⟨.ListenersStripCurrentState, none⟩] ++
            [⟨.CreateLoadBalancer (createInput d l.tags), none⟩])
            created.LoadBalancerArn (some acl)⟩]) ∧
      (∀ ev ∈ (l.modify env w).trace.drop w.length, ev.call.isSetCall = false) ∧
      (∀ e2 l2 w2, l.modify env w = .ok (e2, l2) w2 →
        e2 = none ∧ l2.deleted = true ∧ l2.options = l.options ∧
        l2.listeners = env.ListenersStripCurrentState l.listeners) ∧
      (∀ created rest,
        env.CreateLoadBalancer (w ++ dels ++ [⟨.ListenersStripCurrentState, none⟩])
          (createInput d l.tags) = .ok (created :: rest) →
        created.LoadBalancerName ≠ none → created.LoadBalancerArn ≠ none →
        ∃ l2 w2, l.modify env w = .ok (none, l2) w2 ∧ l2.lb.current = some created) := by
  obtain ⟨nm, cm, hnm, h1, -⟩ := needsModification_spec env l c d hc hd
  obtain ⟨rfl, rfl⟩ := h1 hs
  refine ⟨hnm, ?_⟩
  obtain ⟨e, sga, dels, -, hret, -, hfirst, hisdel, hpre, hlast, hfull⟩ :=
    delete_spec env l w c hc
  have hdel := hret (Or.inl hn)
  obtain ⟨hmt, hmok, hmret⟩ := modify_rebuild env l w schemeModified c e _ _ hnm (by decide)
    hc hn hdel
  obtain ⟨e0, crs, hct, he0, hcrs, hcok⟩ := create_spec env
    { l with deleted := true, sgAssociation := sga,
             listeners := env.ListenersStripCurrentState l.listeners }
    (w ++ dels ++ [⟨.ListenersStripCurrentState, none⟩]) d hd
  have htrace : (l.modify env w).trace =
      w ++ dels ++ [⟨.ListenersStripCurrentState, none⟩] ++
        ⟨.CreateLoadBalancer (createInput d l.tags), e0⟩ :: crs := by
    rw [hmt]
    exact hct
  refine ⟨e, sga, dels, e0, crs, hdel, hfirst, hisdel, hpre, hlast, hfull, htrace, he0, hcrs,
    ?_, ?_, ?_⟩
  · rw [htrace]
    intro ev hev
    simp only [List.append_assoc, List.drop_left, List.mem_append, List.mem_cons,
      List.mem_singleton, List.not_mem_nil, or_false] at hev
    rcases hev with h | h | h | h
    · exact isDelete_not_isSetCall _ (hisdel ev h)
    · subst h; rfl
    · subst h; rfl
    · rcases hcrs with rfl | ⟨created, rest, acl, -, -, rfl⟩
      · cases h
      · simp only [List.mem_singleton] at h
        subst h
        rfl
  · intro e2 l2 w2 h
    obtain ⟨e3, hcr⟩ := hmret e2 l2 w2 h
    have he2 := ((hmok e3 l2 w2 hcr).2 e2 l2 w2 h).1
    obtain ⟨cur, rfl, -, -⟩ := hcok e3 l2 w2 hcr
    exact ⟨he2, rfl, rfl, rfl⟩
  · intro created rest hcreate hname harn
    obtain ⟨e3, w3, hcr⟩ := create_returns env
      { l with deleted := true, sgAssociation := sga,
               listeners := env.ListenersStripCurrentState l.listeners }
      (w ++ dels ++ [⟨.ListenersStripCurrentState, none⟩]) d created rest hd hcreate hname
    exact ⟨_, _, (hmok e3 _ w3 hcr).1 created rfl hname harn, rfl⟩

/-- Claim C2 at sample inputs: an internet-facing load balancer that is to
become internal, without a web ACL and with a web ACL to be replaced. -/
theorem modify_scheme_change_rebuilds_witness :
    liveDescriptor.Scheme ≠ desiredDescriptor.Scheme ∧
    (schemeChange.modify okEnv []).trace.map (fun ev => ev.call) =
      [.SgAssociationDelete { schemeChange.sgAssociation with LbArn := "arn:old" },
       .DeleteLoadBalancer (some "arn:old"),
       .ListenersStripCurrentState,
       .CreateLoadBalancer (createInput desiredDescriptor schemeChange.tags)] ∧
    (schemeChangeNewACL.modify okEnv []).trace.map (fun ev => ev.call) =
      [.SgAssociationDelete { schemeChangeNewACL.sgAssociation with LbArn := "arn:old" },
       .Disassociate (some "arn:old"),
       .DeleteLoadBalancer (some "arn:old"),
       .ListenersStripCurrentState,
       .CreateLoadBalancer (createInput desiredDescriptor schemeChangeNewACL.tags),
       .Associate (some "arn:new") (some "acl-2")] ∧
    (schemeChange.needsModification okEnv = some (schemeModified, false) ∧
    ∃ (e : Option Error) (sga : Association) (dels : Trace) (e0 : Option Error) (crs : Trace),
      schemeChange.delete okEnv [] =
        .ok (e, { schemeChange with deleted := true, sgAssociation := sga }) ([] ++ dels) ∧
      (∃ e1 rest, dels = ⟨.SgAssociationDelete
        { schemeChange.sgAssociation with LbArn := StringValue liveDescriptor.LoadBalancerArn },
          e1⟩ :: rest) ∧
      (∀ ev ∈ dels, ev.call.isDelete = true) ∧
      (dels.map (fun ev => ev.call)).IsPrefix
        ([.SgAssociationDelete { schemeChange.sgAssociation with
            LbArn := StringValue liveDescriptor.LoadBalancerArn }] ++
          (if schemeChange.options.current.webACLId.isSome then
            [.Disassociate liveDescriptor.LoadBalancerArn] else []) ++
          [.DeleteLoadBalancer liveDescriptor.LoadBalancerArn]) ∧
      (∀ ev ∈ dels.dropLast, ev.err = none) ∧
      ((∀ ev ∈ dels, ev.err = none) → e = none ∧
        dels.map (fun ev => ev.call) =
          [.SgAssociationDelete { schemeChange.sgAssociation with
            LbArn := StringValue liveDescriptor.LoadBalancerArn }] ++
          (if schemeChange.options.current.webACLId.isSome then
            [.Disassociate liveDescriptor.LoadBalancerArn] else []) ++
          [.DeleteLoadBalancer liveDescriptor.LoadBalancerArn]) ∧
      (schemeChange.modify okEnv []).trace =
        [] ++ dels ++ [⟨.ListenersStripCurrentState, none⟩] ++
          ⟨.CreateLoadBalancer (createInput desiredDescriptor schemeChange.tags), e0⟩ :: crs ∧
      e0 = errorOf (okEnv.CreateLoadBalancer
        ([] ++ dels ++ [⟨.ListenersStripCurrentState, none⟩])
        (createInput desiredDescriptor schemeChange.tags)) ∧
      (crs = [] ∨ ∃ created rest acl,
        okEnv.CreateLoadBalancer ([] ++ dels ++ [⟨.ListenersStripCurrentState, none⟩])
          (createInput desiredDescriptor schemeChange.tags) = .ok (created :: rest) ∧
        schemeChange.options.desired.webACLId = some acl ∧
        crs = [⟨.Associate created.LoadBalancerArn (some acl),
          okEnv.Associate ([] ++ dels ++ [⟨.ListenersStripCurrentState, none⟩] ++
            [⟨.CreateLoadBalancer (createInput desiredDescriptor schemeChange.tags), none⟩])
            created.LoadBalancerArn (some acl)⟩]) ∧
      (∀ ev ∈ (schemeChange.modify okEnv []).trace.drop ([] : Trace).length,
        ev.call.isSetCall = false) ∧
      (∀ e2 l2 w2, schemeChange.modify okEnv [] = .ok (e2, l2) w2 →
        e2 = none ∧ l2.deleted = true ∧ l2.options = schemeChange.options ∧
        l2.listeners = okEnv.ListenersStripCurrentState schemeChange.listeners) ∧
      (∀ created rest,
        okEnv.CreateLoadBalancer ([] ++ dels ++ [⟨.ListenersStripCurrentState, none⟩])
          (createInput desiredDescriptor schemeChange.tags) = .ok (created :: rest) →
        created.LoadBalancerName ≠ none → created.LoadBalancerArn ≠ none →
        ∃ l2 w2, schemeChange.modify okEnv [] = .ok (none, l2) w2 ∧
          l2.lb.current = some created)) :=
  ⟨by decide, by decide, by decide,
    modify_scheme_change_rebuilds okEnv schemeChange [] liveDescriptor desiredDescriptor
      rfl rfl (by decide) (by decide)⟩

/-- Claim C3 fails on the code.  On the sample load balancer pending creation
with a desired web ACL, every call of the first `Reconcile` succeeds and
`CreateLoadBalancer` returns the requested scheme, IP address type and subnets,
yet `needsModification` on the resulting state reports the WAF association
flag and the second `Reconcile` associates the web ACL again: `create` does not
record the association in the current options, as `modify` does.  The same
holds after a full rebuild whose current web ACL is no longer desired: the
second `Reconcile` issues a disassociation. -/
theorem Reconcile_not_idempotent_after_create :
    (∃ l1 w1, LoadBalancer.Reconcile okEnv pendingCreation [] = .ok ([], l1) w1 ∧
      (∀ ev ∈ w1, ev.err = none) ∧
      l1.needsModification okEnv = some (webACLAssociationModified, true) ∧
      ∃ l2 w2, LoadBalancer.Reconcile okEnv l1 w1 = .ok ([], l2) (w1 ++ w2) ∧
        w2.filter (fun ev => ev.call.isRoot) =
          [⟨.Associate (some "arn:new") (some "acl-1"), none⟩]) ∧
    (∃ l1 w1, LoadBalancer.Reconcile okEnv schemeChangeWithACL [] = .ok ([], l1) w1 ∧
      (∀ ev ∈ w1, ev.err = none) ∧
      l1.needsModification okEnv = some (webACLAssociationModified, true) ∧
      ∃ l2 w2, LoadBalancer.Reconcile okEnv l1 w1 = .ok ([], l2) (w1 ++ w2) ∧
        w2.filter (fun ev => ev.call.isRoot) = [⟨.Disassociate (some "arn:new"), none⟩]) :=
  ⟨⟨_, _, rfl, by decide, by decide, _, _, rfl, by decide⟩,
   ⟨_, _, rfl, by decide, by decide, _, _, rfl, by decide⟩⟩

/-- Claim C4 as amended.  For a load balancer with a nil desired and a non-nil
current descriptor that has a name and an ARN (both are dereferenced after the
deletion), when every call succeeds, `Reconcile` returns no error;
its root-level calls are exactly the security group detach, then the WAF
disassociation if and only if a current web ACL id is set, then
`DeleteLoadBalancer`, and the cascade that follows makes no further root-level
call.  Afterwards the flag `deleted` is true and the current descriptor is the
one the load balancer had: `delete` does not reset it. -/
theorem Reconcile_delete_sequence (env : Env Ls) (l : LoadBalancer Ls) (w : Trace)
    (c : ElbLoadBalancer) (hd : l.lb.desired = none) (hc : l.lb.current = some c)
    (hname : c.LoadBalancerName ≠ none) (harn : c.LoadBalancerArn ≠ none)
    (hall : env.AllSucceed) :
    ∃ (l1 : LoadBalancer Ls) (steps : Trace),
      l.Reconcile env w = .ok ([], l1)
        (w ++ ([⟨.SgAssociationDelete
            { l.sgAssociation with LbArn := StringValue c.LoadBalancerArn }, none⟩] ++
          (if l.options.current.webACLId.isSome then [⟨.Disassociate c.LoadBalancerArn, none⟩]
            else []) ++
          [⟨.DeleteLoadBalancer c.LoadBalancerArn, none⟩]) ++ steps) ∧
      steps.filter (fun e => e.call.isRoot) = [] ∧
      l1.deleted = true ∧ l1.lb.current = some c ∧ l1.lb.desired = none := by
  have hdel := delete_allSucceed env l w c hc hall
  obtain ⟨steps, errs, l2, h1, -, -, h4, h5, h6, -, h8⟩ := cascade_spec env [] c
    { l with
      deleted := true,
      sgAssociation := (env.SgAssociationDelete w
        { l.sgAssociation with LbArn := StringValue c.LoadBalancerArn }).2 }
    (w ++ ([⟨.SgAssociationDelete
        { l.sgAssociation with LbArn := StringValue c.LoadBalancerArn }, none⟩] ++
      (if l.options.current.webACLId.isSome then [⟨.Disassociate c.LoadBalancerArn, none⟩]
        else []) ++
      [⟨.DeleteLoadBalancer c.LoadBalancerArn, none⟩])) (by simp [hc])
  refine ⟨l2, steps, ?_, h4, h5, by rw [h6]; exact hc, by rw [h6]; exact hd⟩
  simp only [LoadBalancer.Reconcile, LoadBalancer.reconcileRoot, hd, hc, hdel, hname, harn,
    or_self, if_false, h1, h8 hall]
  simp

/-- Claim C4 as amended, at a sample input: a live load balancer with a web
ACL whose desired descriptor is gone. -/
theorem Reconcile_delete_sequence_witness :
    ∃ (l1 : LoadBalancer Unit) (steps : Trace),
      pendingDeletion.Reconcile okEnv [] = .ok ([], l1)
        ([] ++ ([⟨.SgAssociationDelete
            { pendingDeletion.sgAssociation with
              LbArn := StringValue liveDescriptor.LoadBalancerArn }, none⟩] ++
          (if pendingDeletion.options.current.webACLId.isSome then
            [⟨.Disassociate liveDescriptor.LoadBalancerArn, none⟩]
            else []) ++
          [⟨.DeleteLoadBalancer liveDescriptor.LoadBalancerArn, none⟩]) ++ steps) ∧
      steps.filter (fun e => e.call.isRoot) = [] ∧
      l1.deleted = true ∧ l1.lb.current = some liveDescriptor ∧ l1.lb.desired = none :=
  Reconcile_delete_sequence okEnv pendingDeletion [] liveDescriptor rfl rfl (by decide)
    (by decide) okEnv_allSucceed

/-- Claim C4 as stated fails: on the sample load balancer pending deletion every
call succeeds and `Reconcile` returns no error with `deleted` set, but the
current descriptor is still set afterwards. -/
theorem Reconcile_delete_keeps_current :
    pendingDeletion.lb.desired = none ∧ pendingDeletion.lb.current = some liveDescriptor ∧
    ∃ l1 w1, LoadBalancer.Reconcile okEnv pendingDeletion [] = .ok ([], l1) w1 ∧
      (∀ ev ∈ w1, ev.err = none) ∧ l1.deleted = true ∧ l1.lb.current ≠ none :=
  ⟨rfl, rfl, _, _, rfl, by decide, rfl, by decide⟩

/-- Claim C5 fails on the code.  For a load balancer whose current and desired
descriptors are both nil, `Reconcile` does not return: the `switch` breaks to
the cascade, which runs the first target-group pass and then dereferences the
nil `lbc` to build the listener options. -/
theorem Reconcile_gone_panics (env : Env Ls) (l : LoadBalancer Ls) (w : Trace)
    (hc : l.lb.current = none) (hd : l.lb.desired = none) :
    l.Reconcile env w = .panic (TargetGroups.Reconcile env l.targetgroups true w).2 := by
  simp [LoadBalancer.Reconcile, LoadBalancer.reconcileRoot, LoadBalancer.reconcileCascade,
    LoadBalancer.reconcileTargetGroups, hc, hd]
  split <;> rfl

/-- Claim C5 at a sample input: the reconcile of a load balancer with neither
descriptor panics after the first target-group pass. -/
theorem Reconcile_gone_panics_witness :
    LoadBalancer.Reconcile okEnv goneLoadBalancer [] =
      .panic [⟨.TargetGroupsReconcile true, none⟩] :=
  Reconcile_gone_panics okEnv goneLoadBalancer [] rfl rfl

/-- Claim C6.  For a load balancer with a nil current and a non-nil desired
descriptor that has a name (the name `NewDesiredLoadBalancer` always sets, and
which the failure path dereferences), if `CreateLoadBalancer` fails then
`Reconcile` returns exactly that error and leaves the load balancer as it was,
its current descriptor nil; the only call made is the failed
`CreateLoadBalancer`, so neither a target-group pass, nor an element
reconcile, nor the listeners, tags, security group or attributes reconcile is
invoked. -/
theorem Reconcile_create_failure (env : Env Ls) (l : LoadBalancer Ls) (w : Trace)
    (d : ElbLoadBalancer) (err : Error)
    (hc : l.lb.current = none) (hd : l.lb.desired = some d)
    (hn : d.LoadBalancerName ≠ none)
    (hf : env.CreateLoadBalancer w (createInput d l.tags) = .error err) :
    l.Reconcile env w =
        .ok ([err], l) (w ++ [⟨.CreateLoadBalancer (createInput d l.tags), some err⟩]) ∧
      (∀ errors l1 w1, l.Reconcile env w = .ok (errors, l1) w1 →
        errors = [err] ∧ l1.lb.current = none ∧
        ∀ ev ∈ w1.drop w.length, ev.call.step = none ∧
          ∀ tg ignoreDeletes, ev.call ≠ .TargetGroupReconcile tg ignoreDeletes) := by
  have h : l.Reconcile env w =
      .ok ([err], l) (w ++ [⟨.CreateLoadBalancer (createInput d l.tags), some err⟩]) := by
    have hname : ¬ (createInput d l.tags).Name = none := hn
    simp [LoadBalancer.Reconcile, LoadBalancer.reconcileRoot, LoadBalancer.create, hc, hd, hf,
      hname]
  refine ⟨h, ?_⟩
  intro errors l1 w1 h1
  rw [h] at h1
  simp only [Result.ok.injEq, Prod.mk.injEq] at h1
  obtain ⟨⟨rfl, rfl⟩, rfl⟩ := h1
  simp [hc, Call.step]

/-- Claim C6 at a sample input: the creation fails with a quota error. -/
theorem Reconcile_create_failure_witness :
    LoadBalancer.Reconcile createFailsEnv pendingCreation [] =
        .ok (["quota exceeded"], pendingCreation)
          ([] ++ [⟨.CreateLoadBalancer (createInput desiredDescriptor pendingCreation.tags),
            some "quota exceeded"⟩]) ∧
      (∀ errors l1 w1, LoadBalancer.Reconcile createFailsEnv pendingCreation [] = .ok (errors, l1) w1 →
        errors = ["quota exceeded"] ∧ l1.lb.current = none ∧
        ∀ ev ∈ w1.drop ([] : Trace).length, ev.call.step = none ∧
          ∀ tg ignoreDeletes, ev.call ≠ .TargetGroupReconcile tg ignoreDeletes) :=
  Reconcile_create_failure createFailsEnv pendingCreation [] desiredDescriptor "quota exceeded"
    rfl rfl (by decide) rfl

/-! ## Assembly and reconciliation of the target groups -/

/-- Every element of the list of first occurrences is an element of the list. -/
theorem firstOccurrences_sublist {β κ : Type} [DecidableEq κ] (key : β → κ) :
    ∀ l : List β, (firstOccurrences key l).Sublist l := by
  intro l
  induction l with
  | nil => exact List.Sublist.slnil
  | cons b bs ih =>
    simp only [firstOccurrences]
    exact List.Sublist.cons₂ b ((List.filter_sublist _).trans ih)

/-- No key occurs twice in the list of first occurrences. -/
theorem firstOccurrences_nodup {β κ : Type} [DecidableEq κ] (key : β → κ) :
    ∀ l : List β, ((firstOccurrences key l).map key).Nodup := by
  intro l
  induction l with
  | nil => simp [firstOccurrences]
  | cons b bs ih =>
    simp only [firstOccurrences, List.map_cons, List.nodup_cons, List.mem_map, List.mem_filter,
      decide_eq_true_eq, not_exists, not_and]
    refine ⟨fun x hx h => hx.2 h, ?_⟩
    exact (ih.sublist ((List.filter_sublist _).map key))

/-- Every key of the list occurs in the list of first occurrences. -/
theorem firstOccurrences_covers {β κ : Type} [DecidableEq κ] (key : β → κ) :
    ∀ (l : List β) (b : β), b ∈ l → key b ∈ (firstOccurrences key l).map key := by
  intro l
  induction l with
  | nil => intro b hb; cases hb
  | cons a as ih =>
    intro b hb
    simp only [firstOccurrences, List.map_cons, List.mem_cons]
    by_cases hk : key b = key a
    · exact Or.inl hk
    · right
      rcases List.mem_cons.mp hb with rfl | hb
      · exact absurd rfl hk
      · obtain ⟨x, hx, hxk⟩ := List.mem_map.mp (ih b hb)
        exact List.mem_map.mpr ⟨x, List.mem_filter.mpr ⟨hx, by simpa [hxk] using hk⟩, hxk⟩

/-- The backends still to be built when the keys `processed` are done. -/
theorem pending_cons_processed (env : AssemblyEnv) (b : IngressBackend)
    (bs : List IngressBackend) (processed : List String)
    (hu : env.Use b.ServicePort.String = false) (hp : backendName b ∈ processed) :
    (firstOccurrences backendName
        ((b :: bs).filter (fun b => !env.Use b.ServicePort.String))).filter
        (fun x => decide (backendName x ∉ processed)) =
      (firstOccurrences backendName
        (bs.filter (fun b => !env.Use b.ServicePort.String))).filter
        (fun x => decide (backendName x ∉ processed)) := by
  simp only [List.filter_cons, hu, Bool.not_false, if_true, firstOccurrences, hp,
    not_true_eq_false, decide_False, Bool.false_eq_true, if_false, List.filter_filter]
  apply List.filter_congr
  intro x _
  by_cases hx : backendName x ∈ processed
  · simp [hx]
  · have : backendName x ≠ backendName b := fun h => hx (h ▸ hp)
    simp [hx, this]

/-- The backends still to be built when a new key is met. -/
theorem pending_cons_new (env : AssemblyEnv) (b : IngressBackend)
    (bs : List IngressBackend) (processed : List String)
    (hu : env.Use b.ServicePort.String = false) (hp : backendName b ∉ processed) :
    (firstOccurrences backendName
        ((b :: bs).filter (fun b => !env.Use b.ServicePort.String))).filter
        (fun x => decide (backendName x ∉ processed)) =
      b :: (firstOccurrences backendName
        (bs.filter (fun b => !env.Use b.ServicePort.String))).filter
        (fun x => decide (backendName x ∉ backendName b :: processed)) := by
  simp only [List.filter_cons, hu, Bool.not_false, if_true, firstOccurrences, hp,
    not_false_eq_true, decide_True, List.filter_filter, List.cons.injEq, true_and]
  apply List.filter_congr
  intro x _
  by_cases hx : backendName x ∈ processed <;>
  by_cases hb : backendName x = backendName b <;> simp [hx, hb]

/-- The loop of `NewDesiredTargetGroups` calls the constructor on the pending
backends in order and stops at the first failure. -/
theorem NewDesiredTargetGroups_loop_spec (env : AssemblyEnv) (existing : TargetGroups) :
    ∀ (bs : List IngressBackend) (processed : List String) (inUse : TargetGroups) (w : Trace),
      ∃ evs : Trace,
        (NewDesiredTargetGroups.loop env existing bs processed inUse w).2 = w ++ evs ∧
        evs.length ≤ ((firstOccurrences backendName
          (bs.filter (fun b => !env.Use b.ServicePort.String))).filter
          (fun x => decide (backendName x ∉ processed))).length ∧
        (∀ i b, ((firstOccurrences backendName
            (bs.filter (fun b => !env.Use b.ServicePort.String))).filter
            (fun x => decide (backendName x ∉ processed)))[i]? = some b → i < evs.length →
          evs[i]? = some ⟨.NewDesiredTargetGroupFromBackend b,
            errorOf (env.NewDesiredTargetGroupFromBackend (w ++ evs.take i) b existing)⟩) ∧
        (∀ tgs, (NewDesiredTargetGroups.loop env existing bs processed inUse w).1 = .ok tgs →
          evs.length = ((firstOccurrences backendName
            (bs.filter (fun b => !env.Use b.ServicePort.String))).filter
            (fun x => decide (backendName x ∉ processed))).length ∧
          (∀ ev ∈ evs, ev.err = none) ∧
          ∃ built : TargetGroups, tgs = inUse ++ built ∧ built.length = evs.length ∧
            ∀ i b, ((firstOccurrences backendName
                (bs.filter (fun b => !env.Use b.ServicePort.String))).filter
                (fun x => decide (backendName x ∉ processed)))[i]? = some b →
              ∃ tg, built[i]? = some tg ∧
                env.NewDesiredTargetGroupFromBackend (w ++ evs.take i) b existing = .ok tg) ∧
        (∀ err, (NewDesiredTargetGroups.loop env existing bs processed inUse w).1 = .error err →
          ∃ pre last, evs = pre ++ [last] ∧ last.err = some err ∧ ∀ ev ∈ pre, ev.err = none) := by
  intro bs
  induction bs with
  | nil =>
    intro processed inUse w
    exact ⟨[], by simp [NewDesiredTargetGroups.loop, firstOccurrences]⟩
  | cons b rest ih =>
    intro processed inUse w
    by_cases hu : env.Use b.ServicePort.String = true
    · have hf : (b :: rest).filter (fun b => !env.Use b.ServicePort.String) =
          rest.filter (fun b => !env.Use b.ServicePort.String) := by
        simp [List.filter_cons, hu]
      simp only [NewDesiredTargetGroups.loop, hu, if_true, hf]
      exact ih processed inUse w
    · have huF : env.Use b.ServicePort.String = false := by simpa using hu
      by_cases hp : backendName b ∈ processed
      · rw [pending_cons_processed env b rest processed huF hp]
        simp only [NewDesiredTargetGroups.loop, huF, hp, if_true, Bool.false_eq_true, if_false]
        exact ih processed inUse w
      · rw [pending_cons_new env b rest processed huF hp]
        simp only [NewDesiredTargetGroups.loop, huF, hp, if_false, Bool.false_eq_true]
        cases hr : env.NewDesiredTargetGroupFromBackend w b existing with
        | error err =>
          refine ⟨[⟨.NewDesiredTargetGroupFromBackend b, some err⟩], by simp, by simp, ?_,
            by simp, ?_⟩
          · intro i b2 hi hlt
            simp only [List.length_singleton, Nat.lt_one_iff] at hlt
            subst hlt
            simp only [List.getElem?_cons_zero, Option.some.injEq] at hi
            subst hi
            simp [hr, errorOf]
          · intro err2 he
            simp only [Except.error.injEq] at he
            subst he
            exact ⟨[], _, rfl, rfl, by simp⟩
        | ok tg =>
          obtain ⟨evs, h1, h2, h3, h4, h5⟩ := ih (backendName b :: processed) (inUse ++ [tg])
            (w ++ [⟨.NewDesiredTargetGroupFromBackend b, none⟩])
          refine ⟨⟨.NewDesiredTargetGroupFromBackend b, none⟩ :: evs, by simp [h1],
            by simpa using h2, ?_, ?_, ?_⟩
          · intro i b2 hi hlt
            cases i with
            | zero =>
              simp only [List.getElem?_cons_zero, Option.some.injEq] at hi
              subst hi
              simp [hr, errorOf]
            | succ j =>
              simp only [List.getElem?_cons_succ] at hi
              simp only [List.length_cons, Nat.add_lt_add_iff_right] at hlt
              simpa using h3 j b2 hi hlt
          · intro tgs htgs
            obtain ⟨a1, a2, built, a3, a4, a5⟩ := h4 tgs htgs
            refine ⟨by simp [a1], ?_, tg :: built, by simp [a3], by simp [a4], ?_⟩
            · intro ev hev
              rcases List.mem_cons.mp hev with rfl | hev
              · rfl
              · exact a2 ev hev
            · intro i b2 hi
              cases i with
              | zero =>
                simp only [List.getElem?_cons_zero, Option.some.injEq] at hi
                subst hi
                exact ⟨tg, by simp, by simpa using hr⟩
              | succ j =>
                simp only [List.getElem?_cons_succ] at hi
                simpa using a5 j b2 hi
          · intro err he
            obtain ⟨pre, last, b1, b2, b3⟩ := h5 err he
            refine ⟨⟨.NewDesiredTargetGroupFromBackend b, none⟩ :: pre, last, by simp [b1], b2, ?_⟩
            intro ev hev
            rcases List.mem_cons.mp hev with rfl | hev
            · rfl
            · exact b3 ev hev

/-- The loop of `FindById` finds nothing exactly when no element has the ID. -/
theorem TargetGroups.FindById.loop_none (id : String) : ∀ (t : TargetGroups) (p : Int),
    (TargetGroups.FindById.loop id t p).2 = none ↔ id ∉ t.map (fun tg => tg.ID) := by
  intro t
  induction t with
  | nil => intro p; simp [TargetGroups.FindById.loop]
  | cons v rest ih =>
    intro p
    simp only [TargetGroups.FindById.loop]
    by_cases h : v.ID = id
    · simp [h]
    · simp only [h, if_false, ih, List.map_cons, List.mem_cons, not_or]
      constructor
      · intro h1; exact ⟨fun h2 => h h2.symm, h1⟩
      · intro h1; exact h1.2

/-- The pruning loop appends the stripped existing target groups whose ID is
not in use, in their order. -/
theorem NewDesiredTargetGroups.prune_eq (inUse : TargetGroups) :
    ∀ (existing output : TargetGroups),
      NewDesiredTargetGroups.prune inUse existing output =
        output ++ (existing.filter
          (fun tg => decide (tg.ID ∉ inUse.map (fun u => u.ID)))).map
            TargetGroup.StripDesiredState := by
  intro existing
  induction existing with
  | nil => intro output; simp [NewDesiredTargetGroups.prune]
  | cons tg rest ih =>
    intro output
    simp only [NewDesiredTargetGroups.prune]
    cases h : (inUse.FindById tg.ID).2 with
    | none =>
      have hx := (TargetGroups.FindById.loop_none tg.ID inUse 0).mp h
      simp only [ih, List.filter_cons, hx, decide_True, if_true, not_false_eq_true,
        List.map_cons, List.append_assoc, List.singleton_append]
    | some u =>
      have hx : ¬ (tg.ID ∉ inUse.map (fun u => u.ID)) := by
        intro hn
        have := (TargetGroups.FindById.loop_none tg.ID inUse 0).mpr hn
        simp only [TargetGroups.FindById] at h
        rw [h] at this
        cases this
      simp only [ih, List.filter_cons, hx, decide_False, Bool.false_eq_true, if_false]

/-- The loop over the rules collects the backends of every rule when every
rule has an `HTTP` value. -/
theorem NewDesiredTargetGroups.rules_eq :
    ∀ (rs : List IngressRule) (acc : List IngressBackend),
      (∀ rule ∈ rs, rule.HTTP ≠ none) →
      NewDesiredTargetGroups.rules rs acc = some (acc ++ rs.flatMap IngressRule.backends) := by
  intro rs
  induction rs with
  | nil => intro acc _; simp [NewDesiredTargetGroups.rules]
  | cons rule rest ih =>
    intro acc h
    cases hh : rule.HTTP with
    | none => exact absurd hh (h rule (List.mem_cons_self _ _))
    | some http =>
      simp only [NewDesiredTargetGroups.rules, hh]
      rw [ih _ (fun r hr => h r (List.mem_cons_of_mem _ hr))]
      simp [IngressRule.backends, hh]

/-- The loop over the rules dereferences a nil pointer when some rule has no
`HTTP` value. -/
theorem NewDesiredTargetGroups.rules_none :
    ∀ (rs : List IngressRule) (acc : List IngressBackend),
      (∃ rule ∈ rs, rule.HTTP = none) → NewDesiredTargetGroups.rules rs acc = none := by
  intro rs
  induction rs with
  | nil => rintro acc ⟨rule, hr, -⟩; cases hr
  | cons rule rest ih =>
    rintro acc ⟨r, hr, hnone⟩
    cases hh : rule.HTTP with
    | none => simp [NewDesiredTargetGroups.rules, hh]
    | some http =>
      simp only [NewDesiredTargetGroups.rules, hh]
      rcases List.mem_cons.mp hr with rfl | hmem
      · rw [hh] at hnone; cases hnone
      · exact ih _ ⟨r, hmem, hnone⟩

/-- For an ingress with a rule that has no `HTTP` value,
`NewDesiredTargetGroups` panics before any constructor call. -/
theorem NewDesiredTargetGroups_panics (env : AssemblyEnv) (ing : Ingress)
    (existing : TargetGroups) (w : Trace) (h : ∃ rule ∈ ing.Spec.Rules, rule.HTTP = none) :
    NewDesiredTargetGroups env ing existing w = .panic w := by
  simp only [NewDesiredTargetGroups, NewDesiredTargetGroups.backends,
    NewDesiredTargetGroups.rules_none _ _ h]

/-- When the key tells the elements of a list apart, the first occurrences of
the keys are the first occurrences of the elements. -/
theorem firstOccurrences_of_injOn {β κ : Type} [DecidableEq β] [DecidableEq κ] (key : β → κ) :
    ∀ l : List β, (∀ a ∈ l, ∀ b ∈ l, key a = key b → a = b) →
      firstOccurrences key l = firstOccurrences (fun b => b) l := by
  intro l
  induction l with
  | nil => intro _; rfl
  | cons b bs ih =>
    intro h
    simp only [firstOccurrences]
    rw [ih (fun x hx y hy => h x (List.mem_cons_of_mem _ hx) y (List.mem_cons_of_mem _ hy))]
    congr 1
    apply List.filter_congr
    intro x hx
    have hxb : x ∈ bs := (firstOccurrences_sublist (fun b => b) bs).subset hx
    by_cases hk : key x = key b
    · have := h x (List.mem_cons_of_mem _ hxb) b (List.mem_cons_self _ _) hk
      simp [hk, this]
    · have hne : x ≠ b := fun he => hk (he ▸ rfl)
      simp [hk, hne]

/-- Claim C7 as stated fails.  When the constructor fails for the first of two
distinct backends, the second one is never built; and for an ingress with a
default backend and a rule that names a host only, the loop over the rules
dereferences the nil `HTTP` value and no target group is built at all. -/
theorem NewDesiredTargetGroups_skips_distinct_pairs :
    (NewDesiredTargetGroups.backends missingServiceIngress =
        some [⟨"missing", .ofInt 80⟩, ⟨"api", .ofInt 8080⟩] ∧
      missingServiceAssembly.Use (IntOrString.ofInt 8080).String = false ∧
      NewDesiredTargetGroups missingServiceAssembly missingServiceIngress [] [] =
        .ok ([], some "service missing not found")
          [⟨.NewDesiredTargetGroupFromBackend ⟨"missing", .ofInt 80⟩,
            some "service missing not found"⟩]) ∧
    (hostOnlyIngress.Spec.Backend = some ⟨"web", .ofInt 80⟩ ∧
      okAssembly.Use (IntOrString.ofInt 80).String = false ∧
      NewDesiredTargetGroups okAssembly hostOnlyIngress [] [] = .panic []) :=
  ⟨⟨rfl, by decide, rfl⟩, rfl, by decide, rfl⟩

/-- Claim C7 as amended.  For an ingress whose rules all have an `HTTP` value,
`NewDesiredTargetGroups` returns.  It calls
`NewDesiredTargetGroupFromBackend` on the backends, default backend first and
then the paths of the rules, that are not action backends, each key
`serviceName:servicePort.String()` at its first occurrence, in that order, and
stops after the first call that fails, returning the existing target groups
with that error.  When no call fails every such backend is built exactly once
and the target groups built head the output.  No key is built twice, no action
backend is built, and every key of a backend that is not an action backend is
among the keys to build.  When the key tells the backends of the ingress
apart, these are the distinct pairs of service name and service port, each at
its first occurrence. -/
theorem NewDesiredTargetGroups_dedup (env : AssemblyEnv) (ing : Ingress)
    (existing : TargetGroups) (w : Trace)
    (hhttp : ∀ rule ∈ ing.Spec.Rules, rule.HTTP ≠ none) :
    ∃ (backends : List IngressBackend) (evs : Trace) (out : TargetGroups) (e : Option Error),
      backends = ing.Spec.Backend.toList ++ ing.Spec.Rules.flatMap IngressRule.backends ∧
      NewDesiredTargetGroups.backends ing = some backends ∧
      NewDesiredTargetGroups env ing existing w = .ok (out, e) (w ++ evs) ∧
      evs.length ≤ (distinctBackends env backends).length ∧
      (∀ i b, (distinctBackends env backends)[i]? = some b → i < evs.length →
        evs[i]? = some ⟨.NewDesiredTargetGroupFromBackend b,
          errorOf (env.NewDesiredTargetGroupFromBackend (w ++ evs.take i) b existing)⟩) ∧
      (e = none →
        evs.length = (distinctBackends env backends).length ∧ (∀ ev ∈ evs, ev.err = none) ∧
        ∃ built : TargetGroups, built.length = evs.length ∧
          out.take built.length = built ∧
          ∀ i b, (distinctBackends env backends)[i]? = some b →
            ∃ tg, built[i]? = some tg ∧
              env.NewDesiredTargetGroupFromBackend (w ++ evs.take i) b existing = .ok tg) ∧
      (∀ err, e = some err →
        out = existing ∧
        ∃ pre last, evs = pre ++ [last] ∧ last.err = some err ∧ ∀ ev ∈ pre, ev.err = none) ∧
      ((distinctBackends env backends).map backendName).Nodup ∧
      (distinctBackends env backends).Sublist
        (backends.filter (fun b => !env.Use b.ServicePort.String)) ∧
      (∀ b ∈ backends, env.Use b.ServicePort.String = false →
        backendName b ∈ (distinctBackends env backends).map backendName) ∧
      ((∀ a ∈ backends, ∀ b ∈ backends, backendName a = backendName b → a = b) →
        distinctBackends env backends = distinctPairs env backends) := by
  have hb : NewDesiredTargetGroups.backends ing =
      some (ing.Spec.Backend.toList ++ ing.Spec.Rules.flatMap IngressRule.backends) := by
    unfold NewDesiredTargetGroups.backends
    rw [NewDesiredTargetGroups.rules_eq _ _ hhttp]
    cases ing.Spec.Backend <;> rfl
  generalize ing.Spec.Backend.toList ++ ing.Spec.Rules.flatMap IngressRule.backends = backends
    at hb
  obtain ⟨evs, h1, h2, h3, h4, h5⟩ := NewDesiredTargetGroups_loop_spec env existing
    backends [] [] w
  simp only [List.not_mem_nil, not_false_eq_true, decide_True, List.filter_true] at h2 h3 h4
  have hinj : (∀ a ∈ backends, ∀ b ∈ backends, backendName a = backendName b → a = b) →
      distinctBackends env backends = distinctPairs env backends := by
    intro h
    exact firstOccurrences_of_injOn backendName _
      (fun a ha b hb => h a (List.mem_of_mem_filter ha) b (List.mem_of_mem_filter hb))
  have hcov : ∀ b ∈ backends, env.Use b.ServicePort.String = false →
      backendName b ∈ (distinctBackends env backends).map backendName := by
    intro b hb hu
    exact firstOccurrences_covers backendName _ b (List.mem_filter.mpr ⟨hb, by simp [hu]⟩)
  cases hl : NewDesiredTargetGroups.loop env existing backends [] [] w with
  | mk r w2 =>
    rw [hl] at h1 h4 h5
    simp only at h1 h4 h5
    subst h1
    cases r with
    | error err =>
      refine ⟨backends, evs, existing, some err, rfl, hb, ?_, h2, h3, by simp, ?_,
        firstOccurrences_nodup _ _, firstOccurrences_sublist _ _, hcov, hinj⟩
      · simp only [NewDesiredTargetGroups, hb, hl]
      · intro err2 he
        simp only [Option.some.injEq] at he
        subst he
        exact ⟨rfl, h5 err rfl⟩
    | ok inUse =>
      obtain ⟨a1, a2, built, a3, a4, a5⟩ := h4 inUse rfl
      simp only [List.nil_append] at a3
      subst a3
      refine ⟨backends, evs, NewDesiredTargetGroups.prune inUse existing inUse, none, rfl, hb,
        ?_, h2, h3, ?_, by simp,
        firstOccurrences_nodup _ _, firstOccurrences_sublist _ _, hcov, hinj⟩
      · simp only [NewDesiredTargetGroups, hb, hl]
      · intro _
        refine ⟨a1, a2, inUse, a4, ?_, a5⟩
        simp only [NewDesiredTargetGroups.prune_eq, List.take_left']

/-- Claim C7 as amended, at a sample input: a default backend, two paths to the
same service and port, an action and a second service give two constructor
calls. -/
theorem NewDesiredTargetGroups_dedup_witness :
    (∀ rule ∈ sampleIngress.Spec.Rules, rule.HTTP ≠ none) ∧
      distinctBackends okAssembly
          (sampleIngress.Spec.Backend.toList ++
            sampleIngress.Spec.Rules.flatMap IngressRule.backends) =
        [⟨"web", .ofInt 80⟩, ⟨"api", .ofInt 8080⟩] ∧
      ∃ (evs : Trace) (out : TargetGroups),
        NewDesiredTargetGroups okAssembly sampleIngress [staleTargetGroup] [] =
          .ok (out, none) ([] ++ evs) ∧
        evs.map (fun ev => ev.call) =
          [.NewDesiredTargetGroupFromBackend ⟨"web", .ofInt 80⟩,
           .NewDesiredTargetGroupFromBackend ⟨"api", .ofInt 8080⟩] ∧
        evs.length = 2 ∧ ∀ ev ∈ evs, ev.err = none := by
  have hhttp : ∀ rule ∈ sampleIngress.Spec.Rules, rule.HTTP ≠ none := by decide
  have hd : distinctBackends okAssembly
      (sampleIngress.Spec.Backend.toList ++
        sampleIngress.Spec.Rules.flatMap IngressRule.backends) =
      [⟨"web", .ofInt 80⟩, ⟨"api", .ofInt 8080⟩] := by decide
  obtain ⟨backends, evs, out, e, rfl, -, h1, -, -, h4, -⟩ :=
    NewDesiredTargetGroups_dedup okAssembly sampleIngress [staleTargetGroup] [] hhttp
  have hrun : NewDesiredTargetGroups okAssembly sampleIngress [staleTargetGroup] [] =
      .ok ([targetGroupFor ⟨"web", .ofInt 80⟩, targetGroupFor ⟨"api", .ofInt 8080⟩,
          staleTargetGroup.StripDesiredState], none)
        [⟨.NewDesiredTargetGroupFromBackend ⟨"web", .ofInt 80⟩, none⟩,
          ⟨.NewDesiredTargetGroupFromBackend ⟨"api", .ofInt 8080⟩, none⟩] := rfl
  rw [hrun] at h1
  simp only [Result.ok.injEq, Prod.mk.injEq, List.nil_append] at h1
  obtain ⟨⟨rfl, rfl⟩, rfl⟩ := h1
  rw [hd] at h4
  exact ⟨hhttp, hd, _, _, hrun, rfl, (h4 rfl).1, (h4 rfl).2.1⟩

/-- Claim C8.  When `NewDesiredTargetGroups` succeeds, its output is the list
of target groups in use followed by, in their original order, exactly the
existing target groups whose ID is the ID of no target group in use, each with
its desired state stripped; hence every ID of the existing target groups
occurs in the output. -/
theorem NewDesiredTargetGroups_output (env : AssemblyEnv) (ing : Ingress)
    (existing : TargetGroups) (w : Trace) (out : TargetGroups) (w1 : Trace)
    (h : NewDesiredTargetGroups env ing existing w = .ok (out, none) w1) :
    ∃ (backends : List IngressBackend) (inUse : TargetGroups),
      NewDesiredTargetGroups.backends ing = some backends ∧
      NewDesiredTargetGroups.loop env existing backends [] [] w = (.ok inUse, w1) ∧
      out = inUse ++ (existing.filter
        (fun tg => decide (tg.ID ∉ inUse.map (fun u => u.ID)))).map
          TargetGroup.StripDesiredState ∧
      ∀ tg ∈ existing, tg.ID ∈ out.map (fun u => u.ID) := by
  unfold NewDesiredTargetGroups at h
  split at h
  · cases h
  · rename_i backends hb
    split at h
    · simp at h
    · rename_i inUse w2 hl
      simp only [Result.ok.injEq, Prod.mk.injEq, and_true] at h
      obtain ⟨rfl, rfl⟩ := h
      refine ⟨backends, inUse, hb, hl, NewDesiredTargetGroups.prune_eq inUse existing inUse, ?_⟩
      intro tg htg
      rw [NewDesiredTargetGroups.prune_eq]
      by_cases hin : tg.ID ∈ inUse.map (fun u => u.ID)
      · simp only [List.map_append, List.mem_append]
        exact Or.inl hin
      · simp only [List.map_append, List.mem_append, List.map_map]
        right
        exact List.mem_map.mpr ⟨tg, List.mem_filter.mpr ⟨htg, by simpa using hin⟩, rfl⟩

/-- Claim C8 at a sample input: one stale existing target group is kept,
stripped, behind the two target groups in use. -/
theorem NewDesiredTargetGroups_output_witness :
    ∃ (backends : List IngressBackend) (inUse : TargetGroups),
      NewDesiredTargetGroups.backends sampleIngress = some backends ∧
      NewDesiredTargetGroups.loop okAssembly [staleTargetGroup] backends [] [] [] =
        (.ok inUse, [⟨.NewDesiredTargetGroupFromBackend ⟨"web", .ofInt 80⟩, none⟩,
          ⟨.NewDesiredTargetGroupFromBackend ⟨"api", .ofInt 8080⟩, none⟩]) ∧
      [targetGroupFor ⟨"web", .ofInt 80⟩, targetGroupFor ⟨"api", .ofInt 8080⟩,
          staleTargetGroup.StripDesiredState] =
        inUse ++ ([staleTargetGroup].filter
          (fun tg => decide (tg.ID ∉ inUse.map (fun u => u.ID)))).map
            TargetGroup.StripDesiredState ∧
      ∀ tg ∈ [staleTargetGroup], tg.ID ∈
        [targetGroupFor ⟨"web", .ofInt 80⟩, targetGroupFor ⟨"api", .ofInt 8080⟩,
          staleTargetGroup.StripDesiredState].map (fun u => u.ID) :=
  NewDesiredTargetGroups_output okAssembly sampleIngress [staleTargetGroup] [] _ _ rfl

/-- The element loop of `TargetGroups.Reconcile`, element by element. -/
theorem TargetGroups_Reconcile_loop_spec (env : Env Ls) (ig : Bool) :
    ∀ (t out : TargetGroups) (w : Trace),
      ∃ evs : Trace,
        (TargetGroups.Reconcile.loop env ig t out w).2 = w ++ evs ∧
        evs.length ≤ t.length ∧
        (TargetGroups.Reconcile.loop env ig t out w).1.elems.length = t.length ∧
        (∀ i tg, t[i]? = some tg → i < evs.length →
          evs[i]? = some ⟨.TargetGroupReconcile tg ig,
            (env.TargetGroupReconcile (w ++ evs.take i) tg ig).1⟩ ∧
          (TargetGroups.Reconcile.loop env ig t out w).1.elems[i]? =
            some (env.TargetGroupReconcile (w ++ evs.take i) tg ig).2) ∧
        (TargetGroups.Reconcile.loop env ig t out w).1.elems.drop evs.length =
          t.drop evs.length ∧
        ((TargetGroups.Reconcile.loop env ig t out w).1.err = none →
          evs.length = t.length ∧ (∀ ev ∈ evs, ev.err = none) ∧
          (TargetGroups.Reconcile.loop env ig t out w).1.output =
            out ++ (TargetGroups.Reconcile.loop env ig t out w).1.elems.filter
              (fun tg => !tg.deleted)) ∧
        (∀ err, (TargetGroups.Reconcile.loop env ig t out w).1.err = some err →
          (TargetGroups.Reconcile.loop env ig t out w).1.output = [] ∧
          ∃ pre last, evs = pre ++ [last] ∧ last.err = some err ∧ ∀ ev ∈ pre, ev.err = none) := by
  intro t
  induction t with
  | nil =>
    intro out w
    exact ⟨[], by simp [TargetGroups.Reconcile.loop]⟩
  | cons tg rest ih =>
    intro out w
    simp only [TargetGroups.Reconcile.loop]
    cases h : (env.TargetGroupReconcile w tg ig).1 with
    | some err =>
      refine ⟨[⟨.TargetGroupReconcile tg ig, some err⟩], by simp, by simp, by simp, ?_, by simp,
        by simp, ?_⟩
      · intro i tg2 hi hlt
        simp only [List.length_singleton, Nat.lt_one_iff] at hlt
        subst hlt
        simp only [List.getElem?_cons_zero, Option.some.injEq] at hi
        subst hi
        simp [h]
      · intro err2 he
        simp only [Option.some.injEq] at he
        subst he
        exact ⟨rfl, [], _, rfl, rfl, by simp⟩
    | none =>
      obtain ⟨evs, h1, h2, h3, h4, h5, h6, h7⟩ := ih
        (if (env.TargetGroupReconcile w tg ig).2.deleted then out
          else out ++ [(env.TargetGroupReconcile w tg ig).2])
        (w ++ [⟨.TargetGroupReconcile tg ig, none⟩])
      refine ⟨⟨.TargetGroupReconcile tg ig, none⟩ :: evs, by simp [h1], by simpa using h2,
        by simpa using h3, ?_, by simpa using h5, ?_, ?_⟩
      · intro i tg2 hi hlt
        cases i with
        | zero =>
          simp only [List.getElem?_cons_zero, Option.some.injEq] at hi
          subst hi
          simp [h]
        | succ j =>
          simp only [List.getElem?_cons_succ] at hi
          simp only [List.length_cons, Nat.add_lt_add_iff_right] at hlt
          have := h4 j tg2 hi hlt
          simpa using this
      · intro he
        obtain ⟨a, b, c⟩ := h6 he
        refine ⟨by simp [a], ?_, ?_⟩
        · intro ev hev
          rcases List.mem_cons.mp hev with rfl | hev
          · rfl
          · exact b ev hev
        · rw [c]
          cases hd : (env.TargetGroupReconcile w tg ig).2.deleted <;> simp [hd, List.filter_cons]
      · intro err he
        obtain ⟨a, pre, last, b, c, d⟩ := h7 err he
        refine ⟨a, ⟨.TargetGroupReconcile tg ig, none⟩ :: pre, last, by simp [b], c, ?_⟩
        intro ev hev
        rcases List.mem_cons.mp hev with rfl | hev
        · rfl
        · exact d ev hev

/-- Claim C9.  `TargetGroups.Reconcile` reconciles the elements in order, each
with the history of the calls before it.  If no element reconcile fails, every
element is reconciled and the output is the sublist, in order, of the elements
whose flag `deleted` is false after their reconcile.  If one fails, the call
returns a nil collection with that error, the failed reconcile is the last one
made and the later elements are untouched.  `LoadBalancer.Reconcile` then
appends the error and keeps in `targetgroups` the collection it had, and
otherwise stores the output. -/
theorem TargetGroups_Reconcile_spec (env : Env Ls) (t : TargetGroups) (ig : Bool) (w : Trace) :
    ∃ evs : Trace,
      (TargetGroups.Reconcile env t ig w).2 =
        w ++ evs ++ [⟨.TargetGroupsReconcile ig, (TargetGroups.Reconcile env t ig w).1.err⟩] ∧
      evs.length ≤ t.length ∧
      (TargetGroups.Reconcile env t ig w).1.elems.length = t.length ∧
      (∀ i tg, t[i]? = some tg → i < evs.length →
        evs[i]? = some ⟨.TargetGroupReconcile tg ig,
          (env.TargetGroupReconcile (w ++ evs.take i) tg ig).1⟩ ∧
        (TargetGroups.Reconcile env t ig w).1.elems[i]? =
          some (env.TargetGroupReconcile (w ++ evs.take i) tg ig).2) ∧
      (TargetGroups.Reconcile env t ig w).1.elems.drop evs.length = t.drop evs.length ∧
      ((TargetGroups.Reconcile env t ig w).1.err = none →
        evs.length = t.length ∧ (∀ ev ∈ evs, ev.err = none) ∧
        (TargetGroups.Reconcile env t ig w).1.output =
          (TargetGroups.Reconcile env t ig w).1.elems.filter (fun tg => !tg.deleted)) ∧
      (∀ err, (TargetGroups.Reconcile env t ig w).1.err = some err →
        (TargetGroups.Reconcile env t ig w).1.output = [] ∧
        ∃ pre last, evs = pre ++ [last] ∧ last.err = some err ∧ ∀ ev ∈ pre, ev.err = none) ∧
      (∀ (l : LoadBalancer Ls) (errors : List Error), l.targetgroups = t →
        ((TargetGroups.Reconcile env t ig w).1.err = none →
          (l.reconcileTargetGroups env ig errors w).1 =
            (errors, { l with targetgroups := (TargetGroups.Reconcile env t ig w).1.output })) ∧
        (∀ err, (TargetGroups.Reconcile env t ig w).1.err = some err →
          (l.reconcileTargetGroups env ig errors w).1 =
            (errors ++ [err],
              { l with targetgroups := (TargetGroups.Reconcile env t ig w).1.elems }))) := by
  obtain ⟨evs, h1, h2, h3, h4, h5, h6, h7⟩ := TargetGroups_Reconcile_loop_spec env ig t [] w
  refine ⟨evs, ?_, h2, h3, h4, h5, ?_, h7, ?_⟩
  · simp only [TargetGroups.Reconcile, h1]
  · intro he
    simpa using h6 he
  · intro l errors hl
    subst hl
    constructor
    · intro he
      simp only [LoadBalancer.reconcileTargetGroups]
      rw [he]
    · intro err he
      simp only [LoadBalancer.reconcileTargetGroups]
      rw [he]

/-- Claim C9 at a sample input: the reconcile of the second of three target
groups fails, the third is not reconciled and the load balancer keeps its
three target groups. -/
theorem TargetGroups_Reconcile_spec_witness :
    (TargetGroups.Reconcile apiFailsEnv sampleGroups false []).1.err =
        some "target registration failed" ∧
      (TargetGroups.Reconcile apiFailsEnv sampleGroups false []).1.output = [] ∧
      (TargetGroups.Reconcile apiFailsEnv sampleGroups false []).2.map (fun ev => ev.call) =
        [.TargetGroupReconcile (targetGroupFor ⟨"web", .ofInt 80⟩) false,
         .TargetGroupReconcile (targetGroupFor ⟨"api", .ofInt 8080⟩) false,
         .TargetGroupsReconcile false] ∧
      ({ schemeChange with targetgroups := sampleGroups }.reconcileTargetGroups apiFailsEnv false
          [] []).1.2.targetgroups = sampleGroups := by
  obtain ⟨evs, -, -, -, -, -, -, h7, h8⟩ :=
    TargetGroups_Reconcile_spec apiFailsEnv sampleGroups false []
  have herr : (TargetGroups.Reconcile apiFailsEnv sampleGroups false []).1.err =
      some "target registration failed" := by decide
  refine ⟨herr, (h7 _ herr).1, by decide, ?_⟩
  rw [((h8 { schemeChange with targetgroups := sampleGroups } [] rfl).2 _ herr)]
  decide

/-! ## Comparison of the subnets -/

/-- Sorting identifies exactly the lists that are permutations of each other. -/
theorem sortSubnets_eq_iff (a b : List String) : sortSubnets a = sortSubnets b ↔ a.Perm b := by
  constructor
  · intro h
    have ha := List.perm_insertionSort subnetLE a
    have hb := List.perm_insertionSort subnetLE b
    unfold sortSubnets at h
    exact ha.symm.trans (h ▸ hb)
  · intro h
    apply List.eq_of_perm_of_sorted (r := subnetLE)
    · exact (List.perm_insertionSort subnetLE a).trans (h.trans (List.perm_insertionSort subnetLE b).symm)
    · exact List.sorted_insertionSort subnetLE a
    · exact List.sorted_insertionSort subnetLE b

/-- The rendering of one string can be read back from the front of a text. -/
theorem renderChars_append_inj : ∀ (a b r1 r2 : List Char),
    renderChars a ++ r1 = renderChars b ++ r2 → a = b ∧ r1 = r2 := by
  intro a
  induction a with
  | nil =>
    intro b r1 r2 h
    cases b with
    | nil => simpa [renderChars] using h
    | cons y ys => simp [renderChars] at h
  | cons x xs ih =>
    intro b r1 r2 h
    cases b with
    | nil => simp [renderChars] at h
    | cons y ys =>
      simp only [renderChars, List.cons_append, List.cons.injEq, true_and] at h
      obtain ⟨rfl, h⟩ := h
      obtain ⟨rfl, rfl⟩ := ih ys r1 r2 h
      exact ⟨rfl, rfl⟩

/-- Distinct lists of strings have distinct renderings. -/
theorem renderList_injective : ∀ (a b : List String), renderList a = renderList b → a = b := by
  intro a
  induction a with
  | nil =>
    intro b h
    cases b with
    | nil => rfl
    | cons y ys =>
      simp only [renderList] at h
      cases hy : y.data <;> simp [hy, renderChars] at h
  | cons x xs ih =>
    intro b h
    cases b with
    | nil =>
      simp only [renderList] at h
      cases hx : x.data <;> simp [hx, renderChars] at h
    | cons y ys =>
      simp only [renderList] at h
      obtain ⟨h1, h2⟩ := renderChars_append_inj _ _ _ _ h
      rw [String.ext h1, ih ys h2]

/-- The sample rendering tells distinct lists of subnets apart. -/
theorem renderSubnets_injective : Function.Injective renderSubnets := by
  intro a b h
  exact renderList_injective a b (congrArg String.data h)

/-- Claim C10.  For a load balancer whose current and desired descriptors have
equal schemes, `needsModification` returns with `canModify` true; if the
desired subnet list is a permutation of the current one the subnets flag is
not set, and, `Prettify` rendering distinct lists differently, if some subnet
is in one of the two lists only the flag is set. -/
theorem needsModification_subnets_as_set (env : Env Ls) (l : LoadBalancer Ls)
    (c d : ElbLoadBalancer) (hc : l.lb.current = some c) (hd : l.lb.desired = some d)
    (hs : c.Scheme = d.Scheme) :
    ∃ changes, l.needsModification env = some (changes, true) ∧
      ((AsSubnets d.AvailabilityZones).Perm (AsSubnets c.AvailabilityZones) →
        changes &&& subnetsModified = 0) ∧
      (Function.Injective env.Prettify →
        (∃ s, ¬ (s ∈ AsSubnets c.AvailabilityZones ↔ s ∈ AsSubnets d.AvailabilityZones)) →
        changes &&& subnetsModified ≠ 0) := by
  simp only [LoadBalancer.needsModification, hc, hd, DeepEqual, hs, decide_True, Bool.not_true,
    Bool.false_eq_true, if_false]
  refine ⟨_, rfl, ?_, ?_⟩
  · intro hperm
    have heq : sortSubnets (AsSubnets c.AvailabilityZones) =
        sortSubnets (AsSubnets d.AvailabilityZones) := (sortSubnets_eq_iff _ _).mpr hperm.symm
    simp only [heq, ne_eq, not_true_eq_false, if_false, options.needsModification]
    by_cases hip : c.IpAddressType = d.IpAddressType <;>
    by_cases hw : l.options.current.webACLId = l.options.desired.webACLId <;>
    simp [hip, hw, ipAddressTypeModified, subnetsModified, webACLAssociationModified]
  · intro hinj ⟨s, hne⟩
    have hneq : env.Prettify (sortSubnets (AsSubnets c.AvailabilityZones)) ≠
        env.Prettify (sortSubnets (AsSubnets d.AvailabilityZones)) := by
      intro h
      exact hne ((sortSubnets_eq_iff _ _).mp (hinj h)).mem_iff
    simp only [hneq, ne_eq, not_false_eq_true, if_true, options.needsModification]
    by_cases hip : c.IpAddressType = d.IpAddressType <;>
    by_cases hw : l.options.current.webACLId = l.options.desired.webACLId <;>
    simp [hip, hw, ipAddressTypeModified, subnetsModified, webACLAssociationModified]

/-- Claim C10 at sample inputs: the two current subnets in the other order
leave the flag unset, and replacing one of them sets it. -/
theorem needsModification_subnets_as_set_witness :
    (∃ changes, subnetsReordered.needsModification okEnv = some (changes, true) ∧
      changes &&& subnetsModified = 0) ∧
    (∃ changes, subnetsMoved.needsModification okEnv = some (changes, true) ∧
      changes &&& subnetsModified ≠ 0) :=
  ⟨(needsModification_subnets_as_set okEnv subnetsReordered liveDescriptor _ rfl rfl rfl).imp
      (fun _ h => ⟨h.1, h.2.1 (by decide)⟩),
   (needsModification_subnets_as_set okEnv subnetsMoved liveDescriptor _ rfl rfl rfl).imp
      (fun _ h => ⟨h.1, h.2.2 renderSubnets_injective ⟨"subnet-b", by decide⟩⟩)⟩

/-! ## The flag `deleted` -/

/-- When `delete` returns, with or without an error, the flag `deleted` is
set. -/
theorem delete_sets_deleted (env : Env Ls) (l : LoadBalancer Ls) (w : Trace)
    (e : Option Error) (l1 : LoadBalancer Ls) (w1 : Trace)
    (h : l.delete env w = .ok (e, l1) w1) : l1.deleted = true := by
  cases hc : l.lb.current with
  | none => simp [LoadBalancer.delete, hc] at h
  | some c =>
    obtain ⟨e0, sga, dels, -, -, hok, -⟩ := delete_spec env l w c hc
    have hdel := hok e l1 w1 h
    rw [hdel] at h
    simp only [Result.ok.injEq, Prod.mk.injEq] at h
    obtain ⟨⟨-, rfl⟩, -⟩ := h
    rfl

/-- The method `create` leaves the flag `deleted` as it is. -/
theorem create_keeps_deleted (env : Env Ls) (l : LoadBalancer Ls) (w : Trace)
    (e : Option Error) (l1 : LoadBalancer Ls) (w1 : Trace)
    (h : l.create env w = .ok (e, l1) w1) : l1.deleted = l.deleted := by
  cases hd : l.lb.desired with
  | none => simp [LoadBalancer.create, hd] at h
  | some d =>
    obtain ⟨-, -, -, -, -, hok⟩ := create_spec env l w d hd
    obtain ⟨cur, rfl, -, -⟩ := hok e l1 w1 h
    rfl

/-- The web ACL block leaves the flag `deleted` as it is. -/
theorem modifyWebACL_keeps_deleted (env : Env Ls) (nm : loadBalancerChange)
    (l : LoadBalancer Ls) (w : Trace) (e : Option Error) (l1 : LoadBalancer Ls) (w1 : Trace)
    (h : l.modifyWebACL env nm w = .ok (e, l1) w1) : l1.deleted = l.deleted := by
  unfold LoadBalancer.modifyWebACL at h
  split at h
  · split at h
    · cases h
    · split at h
      · simp only [] at h
        split at h
        · split at h
          · cases h
          · cases h
            rfl
        · cases h
          rfl
      · simp only [] at h
        split at h
        · split at h
          · cases h
          · cases h
            rfl
        · cases h
          rfl
  · cases h
    rfl

/-- The IP address type block and what follows leave the flag `deleted` as it
is. -/
theorem modifyIpAddressType_keeps_deleted (env : Env Ls) (nm : loadBalancerChange)
    (l : LoadBalancer Ls) (w : Trace) (e : Option Error) (l1 : LoadBalancer Ls) (w1 : Trace)
    (h : l.modifyIpAddressType env nm w = .ok (e, l1) w1) : l1.deleted = l.deleted := by
  unfold LoadBalancer.modifyIpAddressType at h
  split at h
  · split at h
    · split at h
      · cases h
      · simp only [] at h
        split at h
        · cases h
        · split at h
          · cases h
            rfl
          · have hk := modifyWebACL_keeps_deleted env nm _ _ e l1 w1 h
            exact hk
    · cases h
  · exact modifyWebACL_keeps_deleted env nm l w e l1 w1 h

/-- The subnets block and what follows leave the flag `deleted` as it is. -/
theorem modifySubnets_keeps_deleted (env : Env Ls) (nm : loadBalancerChange)
    (l : LoadBalancer Ls) (w : Trace) (e : Option Error) (l1 : LoadBalancer Ls) (w1 : Trace)
    (h : l.modifySubnets env nm w = .ok (e, l1) w1) : l1.deleted = l.deleted := by
  unfold LoadBalancer.modifySubnets at h
  split at h
  · split at h
    · simp only [] at h
      split at h
      · cases h
      · split at h
        · cases h
          rfl
        · have hk := modifyIpAddressType_keeps_deleted env nm _ _ e l1 w1 h
          exact hk
    · cases h
  · exact modifyIpAddressType_keeps_deleted env nm l w e l1 w1 h

/-- The method `modify` never resets the flag `deleted`, and sets it when it
rebuilds. -/
theorem modify_deleted (env : Env Ls) (l : LoadBalancer Ls) (w : Trace)
    (e : Option Error) (l1 : LoadBalancer Ls) (w1 : Trace)
    (h : l.modify env w = .ok (e, l1) w1) :
    (l.deleted = true → l1.deleted = true) ∧
      (∀ c d, l.lb.current = some c → l.lb.desired = some d → c.Scheme ≠ d.Scheme →
        l1.deleted = true) := by
  have hrebuild : ∀ nm, l.needsModification env = some (nm, false) → nm ≠ 0 →
      l1.deleted = true := by
    intro nm hnm h0
    simp only [LoadBalancer.modify, hnm, h0, if_false, Bool.false_eq_true] at h
    split at h
    · cases h
    · split at h
      · cases h
      · split at h
        · cases h
        · rename_i e2 l2 w2 hdel
          have hd2 := delete_sets_deleted env l w e2 l2 w2 hdel
          split at h
          · cases h
          · rename_i e3 l3 w3 hcr
            have hc3 := create_keeps_deleted env _ _ e3 l3 w3 hcr
            split at h
            · cases h
            · split at h
              · cases h
              · simp only [Result.ok.injEq, Prod.mk.injEq] at h
                obtain ⟨⟨-, rfl⟩, -⟩ := h
                rw [hc3]
                exact hd2
  constructor
  · intro hdel
    cases hnm : l.needsModification env with
    | none => simp [LoadBalancer.modify, hnm] at h
    | some p =>
      obtain ⟨nm, cm⟩ := p
      by_cases h0 : nm = 0
      · simp only [LoadBalancer.modify, hnm, h0, if_true, Result.ok.injEq, Prod.mk.injEq] at h
        obtain ⟨⟨-, rfl⟩, -⟩ := h
        exact hdel
      · cases cm with
        | true =>
          simp only [LoadBalancer.modify, hnm, h0, if_false, if_true] at h
          rw [modifySubnets_keeps_deleted env nm l w e l1 w1 h]
          exact hdel
        | false => exact hrebuild nm hnm h0
  · intro c d hc hd hs
    obtain ⟨nm, cm, hnm, h1, -⟩ := needsModification_spec env l c d hc hd
    obtain ⟨rfl, rfl⟩ := h1 hs
    exact hrebuild _ hnm (by decide)

/-- What the root-level action does to the flag `deleted`: it makes root-level
calls only; an early return happens only without a current descriptor and
leaves the flag as it is; otherwise the flag stays set if it was set, and is
set after a deletion and after a rebuild. -/
theorem reconcileRoot_deleted (env : Env Ls) (l : LoadBalancer Ls) (w w1 : Trace)
    (a : RootAction Ls) (hroot : l.reconcileRoot env w = .ok a w1) :
    (∃ evs, w1 = w ++ evs ∧ ∀ ev ∈ evs, ev.call.isRoot = true) ∧
    (∀ errors l1, a = .returns errors l1 → l.lb.current = none ∧ l1.deleted = l.deleted) ∧
    (∀ errors lbc l1, a = .continues errors lbc l1 →
      (l.deleted = true → l1.deleted = true) ∧
      (l.lb.desired = none → l.lb.current ≠ none → l1.deleted = true) ∧
      (∀ c d, l.lb.current = some c → l.lb.desired = some d → c.Scheme ≠ d.Scheme →
        l1.deleted = true)) := by
  have tr : ∀ (r : Result (Option Error × LoadBalancer Ls)) (e : Option Error)
      (l1 : LoadBalancer Ls) (w2 : Trace), RootOutcome l w r → r = .ok (e, l1) w2 →
      ∃ evs, w2 = w ++ evs ∧ ∀ ev ∈ evs, ev.call.isRoot = true := by
    intro r e l1 w2 ho hr
    obtain ⟨⟨evs, ht, hev⟩, -⟩ := ho
    subst hr
    exact ⟨evs, ht, hev⟩
  unfold LoadBalancer.reconcileRoot at hroot
  simp only [] at hroot
  split at hroot
  · rename_i hd hc
    simp only [Result.ok.injEq] at hroot
    obtain ⟨rfl, rfl⟩ := hroot
    refine ⟨⟨[], by simp, by simp⟩, by simp, ?_⟩
    intro errors lbc l1 ha
    simp only [RootAction.continues.injEq] at ha
    obtain ⟨-, -, rfl⟩ := ha
    exact ⟨fun h => h, fun _ h => absurd hc h, fun c d h => (by rw [hc] at h; cases h)⟩
  · rename_i c0 hd hc
    split at hroot
    · cases hroot
    · rename_i hdel
      simp only [Result.ok.injEq] at hroot
      obtain ⟨rfl, rfl⟩ := hroot
      refine ⟨tr _ _ _ _ (delete_outcome env l w) hdel, by simp, ?_⟩
      intro errors lbc l1 ha
      simp only [RootAction.continues.injEq] at ha
      obtain ⟨-, -, rfl⟩ := ha
      have hset := delete_sets_deleted env l w _ _ _ hdel
      exact ⟨fun _ => hset, fun _ _ => hset, fun _ _ _ _ _ => hset⟩
    · rename_i hdel
      split at hroot
      · cases hroot
      · simp only [Result.ok.injEq] at hroot
        obtain ⟨rfl, rfl⟩ := hroot
        refine ⟨tr _ _ _ _ (delete_outcome env l w) hdel, by simp, ?_⟩
        intro errors lbc l1 ha
        simp only [RootAction.continues.injEq] at ha
        obtain ⟨-, -, rfl⟩ := ha
        have hset := delete_sets_deleted env l w _ _ _ hdel
        exact ⟨fun _ => hset, fun _ _ => hset, fun _ _ _ _ _ => hset⟩
  · rename_i d0 hd hc
    split at hroot
    · cases hroot
    · rename_i err l2 w2 hcr
      simp only [Result.ok.injEq] at hroot
      obtain ⟨rfl, rfl⟩ := hroot
      refine ⟨tr _ _ _ _ (create_outcome env l w) hcr, ?_, by simp⟩
      intro errors l1 ha
      simp only [RootAction.returns.injEq] at ha
      obtain ⟨-, rfl⟩ := ha
      exact ⟨hc, create_keeps_deleted env l w _ _ _ hcr⟩
    · rename_i l2 w2 hcr
      split at hroot
      · cases hroot
      · split at hroot
        · cases hroot
        · simp only [Result.ok.injEq] at hroot
          obtain ⟨rfl, rfl⟩ := hroot
          refine ⟨tr _ _ _ _ (create_outcome env l w) hcr, by simp, ?_⟩
          intro errors lbc l1 ha
          simp only [RootAction.continues.injEq] at ha
          obtain ⟨-, -, rfl⟩ := ha
          have hk := create_keeps_deleted env l w _ _ _ hcr
          exact ⟨fun h => (by rw [hk]; exact h), fun h _ => (by rw [hd] at h; cases h),
            fun c d h => (by rw [hc] at h; cases h)⟩
  · rename_i d0 c0 hd hc
    split at hroot
    · cases hroot
    all_goals
      rename_i hmod
      simp only [Result.ok.injEq] at hroot
      obtain ⟨rfl, rfl⟩ := hroot
      refine ⟨tr _ _ _ _ (modify_outcome env l w) hmod, by simp, ?_⟩
      intro errors lbc l1 ha
      simp only [RootAction.continues.injEq] at ha
      obtain ⟨-, -, rfl⟩ := ha
      obtain ⟨h1, h2⟩ := modify_deleted env l w _ _ _ hmod
      exact ⟨h1, fun h _ => (by rw [hd] at h; cases h), h2⟩

/-- Claim C17.  The flag `deleted` is set by `delete` whatever `delete` then
returns: success, or the failure of the security group detach, of the WAF
disassociation or of `DeleteLoadBalancer`.  A rebuild leaves it set after the
new load balancer is created.  A `Reconcile` that starts with the flag set, or
deletes, or rebuilds, ends with the flag set and invokes none of the tags,
security group and attributes reconciles.  Neither `StripDesiredState` nor the
desired-state assembly over an existing load balancer changes the flag, so
every later `Reconcile` of the entity starts with it set and skips those three
steps as well. -/
theorem deleted_monotone (env : Env Ls) (l : LoadBalancer Ls) (w : Trace) :
    (∀ e l1 w1, l.delete env w = .ok (e, l1) w1 → l1.deleted = true) ∧
    (∀ c d, l.lb.current = some c → l.lb.desired = some d → c.Scheme ≠ d.Scheme →
      ∀ e l1 w1, l.modify env w = .ok (e, l1) w1 → l1.deleted = true) ∧
    (∀ errs l2 w2, l.Reconcile env w = .ok (errs, l2) w2 →
      (l.deleted = true ∨ (l.lb.desired = none ∧ l.lb.current ≠ none) ∨
        (∃ c d, l.lb.current = some c ∧ l.lb.desired = some d ∧ c.Scheme ≠ d.Scheme)) →
      l2.deleted = true ∧
      ∀ ev ∈ w2.drop w.length, ev.call.step ≠ some .Tags ∧
        ev.call.step ≠ some .SgAssociation ∧ ev.call.step ≠ some .LbAttributes) ∧
    (∀ strip : Ls → Ls, (l.StripDesiredState strip).deleted = l.deleted) ∧
    (∀ (denv : DesiredEnv Ls) ing tags w0 r e w1,
      NewDesiredLoadBalancer denv ing (some l) tags w0 = .ok (some r, e) w1 →
      r.deleted = l.deleted) := by
  refine ⟨delete_sets_deleted env l w, ?_, ?_, fun _ => rfl, ?_⟩
  · intro c d hc hd hs e l1 w1 h
    exact (modify_deleted env l w e l1 w1 h).2 c d hc hd hs
  · intro errs l2 w2 hrec hcase
    unfold LoadBalancer.Reconcile at hrec
    split at hrec
    · cases hrec
    · rename_i errors l1 w1 hroot
      simp only [Result.ok.injEq, Prod.mk.injEq] at hrec
      obtain ⟨⟨rfl, rfl⟩, rfl⟩ := hrec
      obtain ⟨⟨evs, rfl, hev⟩, hret, -⟩ := reconcileRoot_deleted env l w _ _ hroot
      obtain ⟨hcur, hdel⟩ := hret _ _ rfl
      have hflag : l.deleted = true := by
        rcases hcase with h | ⟨-, h⟩ | ⟨c, d, h, -, -⟩
        · exact h
        · exact absurd hcur h
        · rw [hcur] at h; cases h
      refine ⟨by rw [hdel]; exact hflag, ?_⟩
      intro ev hmem
      simp only [List.drop_left] at hmem
      have hroot1 := hev ev hmem
      cases hcall : ev.call <;> simp_all [Call.step, Call.isRoot]
    · rename_i errors lbc l1 w1 hroot
      obtain ⟨⟨evs, rfl, hev⟩, -, hcont⟩ := reconcileRoot_deleted env l w _ _ hroot
      obtain ⟨h1, h2, h3⟩ := hcont _ _ _ rfl
      have hflag : l1.deleted = true := by
        rcases hcase with h | ⟨ha, hb⟩ | ⟨c, d, ha, hb, hc⟩
        · exact h1 h
        · exact h2 ha hb
        · exact h3 c d ha hb hc
      cases lbc with
      | none =>
        simp only [LoadBalancer.reconcileCascade] at hrec
        cases hrec
      | some c =>
        obtain ⟨_, _, _, _, hcur⟩ := reconcileRoot_spec env l w _ errors c l1 hroot
        obtain ⟨steps, errs2, l3, hcas, hsteps, -, -, hdel3, -, -, -⟩ :=
          cascade_spec env errors c l1 (w ++ evs) hcur
        rw [hcas] at hrec
        simp only [Result.ok.injEq, Prod.mk.injEq] at hrec
        obtain ⟨⟨rfl, rfl⟩, rfl⟩ := hrec
        refine ⟨by rw [hdel3]; exact hflag, ?_⟩
        intro ev hmem
        simp only [List.append_assoc, List.drop_left, List.mem_append] at hmem
        rcases hmem with hmem | hmem
        · have hroot1 := hev ev hmem
          cases hcall : ev.call <;> simp_all [Call.step, Call.isRoot]
        · simp only [hflag, if_true, List.append_nil] at hsteps
          have hin : ∀ s, ev.call.step = some s →
              s ∈ [Step.TargetGroups true, Step.Listeners, Step.TargetGroups false] := by
            intro s hs
            rw [← hsteps]
            exact List.mem_filterMap.mpr ⟨ev, hmem, hs⟩
          refine ⟨fun h => ?_, fun h => ?_, fun h => ?_⟩ <;>
          · have := hin _ h
            simp at this
  · intro denv ing tags w0 r e w1 h
    unfold NewDesiredLoadBalancer at h
    simp only [] at h
    split at h
    · simp at h
    · split at h
      · simp at h
      · split at h
        · cases h
        · split at h
          · simp only [Result.ok.injEq, Prod.mk.injEq, Option.some.injEq] at h
            obtain ⟨⟨rfl, -⟩, -⟩ := h
            rfl
          · split at h <;>
            · simp only [Result.ok.injEq, Prod.mk.injEq, Option.some.injEq] at h
              obtain ⟨⟨rfl, -⟩, -⟩ := h
              rfl

/-- Claim C17 at a sample input: the rebuild of the sample load balancer creates
the new load balancer and leaves `deleted` set, and no tags, security group or
attributes reconcile is made. -/
theorem deleted_monotone_witness :
    ∃ l2 w2, schemeChange.Reconcile okEnv [] = .ok ([], l2) w2 ∧
      schemeChange.deleted = false ∧ l2.deleted = true ∧
      l2.lb.current = some createdDescriptor ∧
      ∀ ev ∈ w2.drop ([] : Trace).length, ev.call.step ≠ some .Tags ∧
        ev.call.step ≠ some .SgAssociation ∧ ev.call.step ≠ some .LbAttributes :=
  ⟨_, _, rfl, rfl,
    ((deleted_monotone okEnv schemeChange []).2.2.1 _ _ _ rfl
      (Or.inr (Or.inr ⟨liveDescriptor, desiredDescriptor, rfl, rfl, by decide⟩))).1,
    rfl,
    ((deleted_monotone okEnv schemeChange []).2.2.1 _ _ _ rfl
      (Or.inr (Or.inr ⟨liveDescriptor, desiredDescriptor, rfl, rfl, by decide⟩))).2⟩

/-! ## Naming -/

/-- Replacing by `-` maps every character to itself or to `-`. -/
theorem ReplaceAllString_dash (s : String) : ReplaceAllString s "-" = specSanitize s := by
  unfold ReplaceAllString specSanitize
  congr 1
  induction s.data with
  | nil => rfl
  | cons c cs ih =>
    simp only [List.flatMap_cons, List.map_cons, ih]
    by_cases h : c.isAlphanum = true <;> simp [h]

/-- Replacing by the empty string drops the characters replaced. -/
theorem ReplaceAllString_empty (s : String) : ReplaceAllString s "" = dropNotAlnum s := by
  unfold ReplaceAllString dropNotAlnum
  congr 1
  induction s.data with
  | nil => rfl
  | cons c cs ih =>
    simp only [List.flatMap_cons, List.filter_cons, ih]
    by_cases h : c.isAlphanum = true <;> simp [h]

/-- Every entry of the table of digits is a lowercase hexadecimal digit. -/
theorem hextable_mem : ∀ n, n < 16 → hextable n ∈ "0123456789abcdef".data := by
  decide

/-- The first four digits of the encoding of a digest of sixteen bytes. -/
theorem EncodeToString_take (bytes : List Nat) (h : bytes.length = 16) :
    ∃ h1 h2 h3 h4 : Char, (EncodeToString bytes).data.take 4 = [h1, h2, h3, h4] ∧
      ∀ x ∈ [h1, h2, h3, h4], x ∈ "0123456789abcdef".data := by
  match bytes, h with
  | a :: b :: rest, _ =>
    refine ⟨hextable (a % 256 / 16), hextable (a % 256 % 16), hextable (b % 256 / 16),
      hextable (b % 256 % 16), by simp [EncodeToString], ?_⟩
    intro x hx
    simp only [List.mem_cons, List.mem_singleton, List.not_mem_nil, or_false] at hx
    rcases hx with rfl | rfl | rfl | rfl <;> exact hextable_mem _ (by omega)

/-- Claim C11.  For every namespace, ingress name and cluster name, the digest
being the 16 bytes of MD5, the name returned by `createLBName` has at most 31
characters and ends with `-` followed by exactly four lowercase hexadecimal
digits, after a stem of at most 26 characters. -/
theorem createLBName_bounded (md5Sum : String → List Nat)
    (namespaceName ingressName clustername : String)
    (hsize : ∀ s, (md5Sum s).length = 16) :
    (createLBName md5Sum namespaceName ingressName clustername).length ≤ 31 ∧
    ∃ (stem : List Char) (h1 h2 h3 h4 : Char),
      (createLBName md5Sum namespaceName ingressName clustername).data =
        stem ++ ['-', h1, h2, h3, h4] ∧
      stem.length ≤ 26 ∧
      ∀ x ∈ [h1, h2, h3, h4], x ∈ "0123456789abcdef".data := by
  obtain ⟨h1, h2, h3, h4, htake, hhex⟩ :=
    EncodeToString_take (md5Sum (namespaceName ++ ingressName)) (hsize _)
  have key : ∃ stem : List Char, stem.length ≤ 26 ∧
      (createLBName md5Sum namespaceName ingressName clustername).data =
        stem ++ ['-', h1, h2, h3, h4] := by
    simp only [createLBName, htake]
    generalize ReplaceAllString clustername "-" ++ "-" ++ ReplaceAllString namespaceName "" ++
      "-" ++ ReplaceAllString ingressName "" = joined
    split
    · exact ⟨joined.data.take 26, by simp, by simp⟩
    · rename_i hle
      exact ⟨joined.data, Nat.le_of_not_gt hle, by simp⟩
  obtain ⟨stem, hlen, hdata⟩ := key
  refine ⟨?_, stem, h1, h2, h3, h4, hdata, hlen, hhex⟩
  show (createLBName md5Sum namespaceName ingressName clustername).data.length ≤ 31
  rw [hdata]
  simp
  omega

/-- Claim C11 at a sample input. -/
theorem createLBName_bounded_witness :
    (createLBName sampleDigest "kube-system" "my.app" "prod_1").length ≤ 31 ∧
    ∃ (stem : List Char) (h1 h2 h3 h4 : Char),
      (createLBName sampleDigest "kube-system" "my.app" "prod_1").data =
        stem ++ ['-', h1, h2, h3, h4] ∧
      stem.length ≤ 26 ∧
      ∀ x ∈ [h1, h2, h3, h4], x ∈ "0123456789abcdef".data :=
  createLBName_bounded sampleDigest "kube-system" "my.app" "prod_1"
    (fun _ => by simp [sampleDigest])

/-- Claim C12 as stated fails: for the namespace `kube-system`, the ingress
`my.app` and the cluster `prod_1` the code returns
`prod-1-kubesystem-myapp-2020`, while the name the claim describes is
`prod-1-kube-system-my-app-2020`. -/
theorem createLBName_differs_from_spec :
    createLBName sampleDigest "kube-system" "my.app" "prod_1" =
        "prod-1-kubesystem-myapp-2020" ∧
      specLBName sampleDigest "kube-system" "my.app" "prod_1" =
        "prod-1-kube-system-my-app-2020" ∧
      createLBName sampleDigest "kube-system" "my.app" "prod_1" ≠
        specLBName sampleDigest "kube-system" "my.app" "prod_1" := by
  decide

/-- Claim C12 as amended.  `createLBName` returns the first 26 characters of
the cluster prefix with every non-alphanumeric character replaced by `-`,
then `-`, the namespace without its non-alphanumeric characters, `-` and the
ingress name without its non-alphanumeric characters; followed by `-` and the
first four hexadecimal digits of the digest of the namespace followed by the
ingress name, both as given. -/
theorem createLBName_eq (md5Sum : String → List Nat)
    (namespaceName ingressName clustername : String) :
    createLBName md5Sum namespaceName ingressName clustername =
      String.mk ((specSanitize clustername ++ "-" ++ dropNotAlnum namespaceName ++ "-" ++
          dropNotAlnum ingressName).data.take 26) ++ "-" ++
        String.mk ((EncodeToString (md5Sum (namespaceName ++ ingressName))).data.take 4) := by
  simp only [createLBName, ReplaceAllString_dash, ReplaceAllString_empty]
  generalize specSanitize clustername ++ "-" ++ dropNotAlnum namespaceName ++ "-" ++
    dropNotAlnum ingressName = joined
  split
  · rfl
  · rename_i hle
    have hlen : joined.data.length ≤ 26 := Nat.le_of_not_gt hle
    rw [List.take_of_length_le hlen]

/-! ## Assembly of the desired load balancer -/

/-- Every load balancer that `NewDesiredLoadBalancer` returns has a desired
descriptor, and that descriptor has a name. -/
theorem NewDesiredLoadBalancer_names_desired (env : DesiredEnv Ls) (ing : Ingress)
    (ExistingLoadBalancer : Option (LoadBalancer Ls)) (CommonTags : Tags) (w w1 : Trace)
    (r : LoadBalancer Ls) (e : Option Error)
    (h : NewDesiredLoadBalancer env ing ExistingLoadBalancer CommonTags w = .ok (some r, e) w1) :
    ∃ d, r.lb.desired = some d ∧ d.LoadBalancerName ≠ none := by
  unfold NewDesiredLoadBalancer at h
  simp only [] at h
  split at h
  · simp at h
  · split at h
    · simp at h
    · split at h
      · cases h
      · split at h
        · simp only [Result.ok.injEq, Prod.mk.injEq, Option.some.injEq] at h
          obtain ⟨⟨rfl, -⟩, -⟩ := h
          cases ExistingLoadBalancer <;> exact ⟨_, rfl, by simp⟩
        · split at h <;>
          · simp only [Result.ok.injEq, Prod.mk.injEq, Option.some.injEq] at h
            obtain ⟨⟨rfl, -⟩, -⟩ := h
            cases ExistingLoadBalancer <;> exact ⟨_, rfl, by simp⟩

/-- Claim C13 fails on the code.  When the VPC lookup, the annotations, the
target group assembly and the attribute assembly succeed,
`NewDesiredLoadBalancer` returns a load balancer and a nil error whatever
error `NewDesiredListeners` returned: that error is assigned to `err` and
overwritten by the attribute assembly without having been tested. -/
theorem NewDesiredLoadBalancer_drops_listener_error (env : DesiredEnv Ls) (ing : Ingress)
    (ExistingLoadBalancer : Option (LoadBalancer Ls)) (CommonTags : Tags) (w w1 : Trace)
    (vpc : Option String) (annos : LoadBalancerAnnotations) (tgs : TargetGroups)
    (hvpc : env.GetVPCID = .ok vpc) (hannos : env.GetIngressAnnotations ing = .ok annos)
    (htgs : NewDesiredTargetGroups env.targetGroups ing
      (match ExistingLoadBalancer with
        | some existinglb => existinglb.targetgroups
        | none => []) w = .ok (tgs, none) w1)
    (hattrs : (env.NewAttributes annos.Attributes).2 = none) :
    ∃ newLoadBalancer, NewDesiredLoadBalancer env ing ExistingLoadBalancer CommonTags w =
      .ok (some newLoadBalancer, none) w1 := by
  cases ExistingLoadBalancer with
  | none =>
    simp only at htgs
    simp only [NewDesiredLoadBalancer, hvpc, hannos, htgs, hattrs]
    exact ⟨_, rfl⟩
  | some existinglb =>
    simp only at htgs
    simp only [NewDesiredLoadBalancer, hvpc, hannos, htgs, hattrs]
    exact ⟨_, rfl⟩

/-- Claim C13 at a sample input: the listener assembly fails with an invalid
certificate and `NewDesiredLoadBalancer` returns no error. -/
theorem NewDesiredLoadBalancer_drops_listener_error_witness :
    (∀ tgs, (listenersFailEnv.NewDesiredListeners sampleIngress none tgs).2 =
        some "invalid certificate ARN") ∧
    ∃ newLoadBalancer, NewDesiredLoadBalancer listenersFailEnv sampleIngress none
      { Arn := "", Tags := [] } [] = .ok (some newLoadBalancer, none)
        [⟨.NewDesiredTargetGroupFromBackend ⟨"web", .ofInt 80⟩, none⟩,
          ⟨.NewDesiredTargetGroupFromBackend ⟨"api", .ofInt 8080⟩, none⟩] :=
  ⟨fun _ => rfl,
   NewDesiredLoadBalancer_drops_listener_error listenersFailEnv sampleIngress none
    { Arn := "", Tags := [] } [] _ (some "vpc-1") sampleAnnotations _ rfl rfl rfl rfl⟩

/-! ## The collection of ingress aggregates -/

/-- Run one task after the other, the batch appends, in order, the ingresses
whose assembly succeeds. -/
theorem newIngressesFromLoadBalancers_eq (env : AwsEnv Ls) (tgs : TargetGroupIndex) :
    ∀ (lbs : List ElbLoadBalancer) (ingresses : ALBIngresses Ls),
      newIngressesFromLoadBalancers env tgs [] lbs ingresses =
        ingresses ++ lbs.filterMap
          (fun lb => (env.NewALBIngressFromAWSLoadBalancer lb tgs).toOption) := by
  intro lbs
  induction lbs with
  | nil => intro ingresses; simp [newIngressesFromLoadBalancers]
  | cons lb rest ih =>
    intro ingresses
    simp only [newIngressesFromLoadBalancers]
    cases h : env.NewALBIngressFromAWSLoadBalancer lb tgs with
    | error err => simp [ih, List.filterMap_cons, h, Except.toOption]
    | ok i => simp [ih, List.filterMap_cons, h, Except.toOption]

/-- Under every schedule the ingresses of the batch are among the ingresses
whose assembly succeeded, none of them more often than it was assembled. -/
theorem newIngressesFromLoadBalancers_subperm (env : AwsEnv Ls) (tgs : TargetGroupIndex) :
    ∀ (lbs : List ElbLoadBalancer) (schedule : Schedule) (ingresses : ALBIngresses Ls),
      (newIngressesFromLoadBalancers env tgs schedule lbs ingresses).Subperm
        (ingresses ++ lbs.filterMap
          (fun lb => (env.NewALBIngressFromAWSLoadBalancer lb tgs).toOption)) := by
  intro lbs
  induction lbs with
  | nil =>
    intro schedule ingresses
    cases schedule <;> simp [newIngressesFromLoadBalancers, List.Subperm.refl]
  | cons lb rest ih =>
    intro schedule ingresses
    cases h : env.NewALBIngressFromAWSLoadBalancer lb tgs with
    | error err =>
      have hstep : newIngressesFromLoadBalancers env tgs schedule (lb :: rest) ingresses =
          newIngressesFromLoadBalancers env tgs schedule rest ingresses := by
        cases schedule <;> simp [newIngressesFromLoadBalancers, h]
      rw [hstep]
      simpa [List.filterMap_cons, h, Except.toOption] using ih schedule ingresses
    | ok i =>
      have hf : (lb :: rest).filterMap
          (fun lb => (env.NewALBIngressFromAWSLoadBalancer lb tgs).toOption) =
          i :: rest.filterMap
            (fun lb => (env.NewALBIngressFromAWSLoadBalancer lb tgs).toOption) := by
        simp [List.filterMap_cons, h, Except.toOption]
      rw [hf]
      cases schedule with
      | nil =>
        simp only [newIngressesFromLoadBalancers, h]
        simpa using ih [] (ingresses ++ [i])
      | cons landing later =>
        cases landing with
        | lost =>
          simp only [newIngressesFromLoadBalancers, h]
          refine (ih later ingresses).trans (List.Sublist.subperm ?_)
          exact List.Sublist.append_left (List.sublist_cons_self _ _) _
        | placed k =>
          simp only [newIngressesFromLoadBalancers, h]
          refine (ih later _).trans (List.Perm.subperm ?_)
          have h1 : (ingresses.take k ++ i :: ingresses.drop k).Perm (i :: ingresses) := by
            have := @List.perm_middle _ i (ingresses.take k) (ingresses.drop k)
            simpa using this
          exact (List.Perm.append_right _ h1).trans
            (by simpa using (@List.perm_middle _ i ingresses
              (rest.filterMap
                (fun lb => (env.NewALBIngressFromAWSLoadBalancer lb tgs).toOption))).symm)

/-- Leaving an element out makes the list shorter. -/
theorem length_filterMap_lt {α β : Type} (f : α → Option β) :
    ∀ l : List α, (∃ x ∈ l, f x = none) → (l.filterMap f).length < l.length := by
  intro l
  induction l with
  | nil => rintro ⟨x, hx, -⟩; cases hx
  | cons a as ih =>
    rintro ⟨x, hx, hnone⟩
    have hle := List.length_filterMap_le f as
    cases ha : f a with
    | none =>
      simp only [List.filterMap_cons, ha, List.length_cons]
      omega
    | some b =>
      simp only [List.filterMap_cons, ha, List.length_cons]
      rcases List.mem_cons.mp hx with rfl | hmem
      · rw [ha] at hnone; cases hnone
      · have := ih ⟨x, hmem, hnone⟩
        omega

/-- Keeping every element keeps the length. -/
theorem length_filterMap_eq {α β : Type} (f : α → Option β) :
    ∀ l : List α, (∀ x ∈ l, ∃ y, f x = some y) → (l.filterMap f).length = l.length := by
  intro l
  induction l with
  | nil => intro _; rfl
  | cons a as ih =>
    intro h
    obtain ⟨y, hy⟩ := h a (List.mem_cons_self _ _)
    simp only [List.filterMap_cons, hy, List.length_cons]
    rw [ih (fun x hx => h x (List.mem_cons_of_mem _ hx))]

/-- When the assembly of a load balancer fails, `AssembleIngressesFromAWS`
exits fatally under every schedule: fewer ingresses than load balancers reach
the count. -/
theorem AssembleIngressesFromAWS_fatal (env : AwsEnv Ls) (schedule : Schedule)
    (lbs : List ElbLoadBalancer) (tgs : TargetGroupIndex)
    (hlbs : env.ClusterLoadBalancers = .ok lbs) (htgs : env.ClusterTargetGroups = .ok tgs)
    (hfail : ∃ lb ∈ lbs, ∃ err, env.NewALBIngressFromAWSLoadBalancer lb tgs = .error err) :
    (newIngressesFromLoadBalancers env tgs schedule lbs []).length < lbs.length ∧
      AssembleIngressesFromAWS env schedule =
        .fatal "Assembled %d ingresses from %v load balancers"
          [toString (newIngressesFromLoadBalancers env tgs schedule lbs []).length,
            toString lbs.length] := by
  obtain ⟨lb, hmem, err, herr⟩ := hfail
  have hlt := length_filterMap_lt
    (fun lb => (env.NewALBIngressFromAWSLoadBalancer lb tgs).toOption) lbs
    ⟨lb, hmem, by simp [herr, Except.toOption]⟩
  have hle := (newIngressesFromLoadBalancers_subperm env tgs lbs schedule []).length_le
  simp only [List.nil_append] at hle
  refine ⟨by omega, ?_⟩
  simp only [AssembleIngressesFromAWS, hlbs, htgs]
  rw [if_pos (by omega)]

/-- Claim C14 as stated fails: with two live load balancers of which one cannot
be assembled, the other is assembled and `AssembleIngressesFromAWS` exits
fatally, one ingress having been assembled from two load balancers; and it
exits fatally however the pool schedules the two tasks. -/
theorem AssembleIngressesFromAWS_aborts :
    (∃ i, brokenAssemblyEnv.NewALBIngressFromAWSLoadBalancer liveDescriptor [] = .ok i) ∧
      AssembleIngressesFromAWS brokenAssemblyEnv [] =
        .fatal "Assembled %d ingresses from %v load balancers" ["1", "2"] ∧
      ∀ schedule, ∃ args, AssembleIngressesFromAWS brokenAssemblyEnv schedule =
        .fatal "Assembled %d ingresses from %v load balancers" args :=
  ⟨⟨_, rfl⟩, rfl, fun schedule =>
    ⟨_, (AssembleIngressesFromAWS_fatal brokenAssemblyEnv schedule _ [] rfl rfl
      ⟨_, List.mem_cons_of_mem _ (List.mem_singleton_self _), _, rfl⟩).2⟩⟩

/-- Claim C14 as amended.  When both inventory calls succeed, under every
schedule of the pool the ingresses of the batch are among those whose assembly
succeeded, so a load balancer whose assembly fails yields no ingress; and if
the assembly of some load balancer fails, `AssembleIngressesFromAWS` exits
fatally, fewer ingresses than load balancers having been assembled.  It
returns only when the assembly of every load balancer succeeded and no append
was lost, and then returns these ingresses, one for every load balancer, in
some order; run one task after the other it does return them when every
assembly succeeds. -/
theorem AssembleIngressesFromAWS_spec (env : AwsEnv Ls) (schedule : Schedule)
    (lbs : List ElbLoadBalancer) (tgs : TargetGroupIndex)
    (hlbs : env.ClusterLoadBalancers = .ok lbs) (htgs : env.ClusterTargetGroups = .ok tgs) :
    (newIngressesFromLoadBalancers env tgs schedule lbs []).Subperm
        (lbs.filterMap (fun lb => (env.NewALBIngressFromAWSLoadBalancer lb tgs).toOption)) ∧
      ((∃ lb ∈ lbs, ∃ err, env.NewALBIngressFromAWSLoadBalancer lb tgs = .error err) →
        (newIngressesFromLoadBalancers env tgs schedule lbs []).length < lbs.length ∧
        AssembleIngressesFromAWS env schedule =
          .fatal "Assembled %d ingresses from %v load balancers"
            [toString (newIngressesFromLoadBalancers env tgs schedule lbs []).length,
              toString lbs.length]) ∧
      (∀ ingresses, AssembleIngressesFromAWS env schedule = .returned ingresses →
        (∀ lb ∈ lbs, ∃ i, env.NewALBIngressFromAWSLoadBalancer lb tgs = .ok i) ∧
        ingresses.length = lbs.length ∧
        ingresses.Perm
          (lbs.filterMap (fun lb => (env.NewALBIngressFromAWSLoadBalancer lb tgs).toOption))) ∧
      ((∀ lb ∈ lbs, ∃ i, env.NewALBIngressFromAWSLoadBalancer lb tgs = .ok i) →
        AssembleIngressesFromAWS env [] = .returned
          (lbs.filterMap (fun lb => (env.NewALBIngressFromAWSLoadBalancer lb tgs).toOption))) := by
  have hsub := newIngressesFromLoadBalancers_subperm env tgs lbs schedule []
  simp only [List.nil_append] at hsub
  refine ⟨hsub, AssembleIngressesFromAWS_fatal env schedule lbs tgs hlbs htgs, ?_, ?_⟩
  · intro ingresses hret
    simp only [AssembleIngressesFromAWS, hlbs, htgs] at hret
    split at hret
    · cases hret
    · rename_i hlen
      simp only [Exit.returned.injEq] at hret
      subst hret
      have hlen2 : lbs.length =
          (newIngressesFromLoadBalancers env tgs schedule lbs []).length := by
        simpa using hlen
      have hall : ∀ lb ∈ lbs, ∃ i, env.NewALBIngressFromAWSLoadBalancer lb tgs = .ok i := by
        intro lb hmem
        cases hlb : env.NewALBIngressFromAWSLoadBalancer lb tgs with
        | ok i => exact ⟨i, rfl⟩
        | error err =>
          have := (AssembleIngressesFromAWS_fatal env schedule lbs tgs hlbs htgs
            ⟨lb, hmem, err, hlb⟩).1
          omega
      refine ⟨hall, hlen2.symm, hsub.perm_of_length_le ?_⟩
      have := List.length_filterMap_le
        (fun lb => (env.NewALBIngressFromAWSLoadBalancer lb tgs).toOption) lbs
      omega
  · intro hall
    have hlen := length_filterMap_eq
      (fun lb => (env.NewALBIngressFromAWSLoadBalancer lb tgs).toOption) lbs
      (fun lb hmem => by
        obtain ⟨i, hi⟩ := hall lb hmem
        exact ⟨i, by simp [hi, Except.toOption]⟩)
    have heq := newIngressesFromLoadBalancers_eq env tgs lbs []
    simp only [List.nil_append] at heq
    simp only [AssembleIngressesFromAWS, hlbs, htgs, heq]
    rw [if_neg (by omega)]

/-- Claim C14 as amended, at sample inputs: one of two load balancers cannot be
assembled and every schedule ends fatally; two load balancers that are both
assembled are returned when the tasks run one after the other, and end fatally
when one append is lost. -/
theorem AssembleIngressesFromAWS_spec_witness :
    (∃ lb ∈ ([liveDescriptor, { liveDescriptor with
        LoadBalancerName := some "broken", LoadBalancerArn := some "arn:broken" }] :
          List ElbLoadBalancer),
      ∃ err, brokenAssemblyEnv.NewALBIngressFromAWSLoadBalancer lb [] = .error err) ∧
    (∀ schedule, ∃ n, AssembleIngressesFromAWS brokenAssemblyEnv schedule =
      .fatal "Assembled %d ingresses from %v load balancers" [toString n, "2"] ∧ n < 2) ∧
    (∃ ingresses, AssembleIngressesFromAWS twoAssembledEnv [] = .returned ingresses ∧
      ingresses.length = 2) ∧
    AssembleIngressesFromAWS twoAssembledEnv [.placed 0, .lost] =
      .fatal "Assembled %d ingresses from %v load balancers" ["1", "2"] :=
  ⟨⟨_, List.mem_cons_of_mem _ (List.mem_singleton_self _), _, rfl⟩,
   fun schedule =>
    ⟨_, ((AssembleIngressesFromAWS_spec brokenAssemblyEnv schedule _ [] rfl rfl).2.1
      ⟨_, List.mem_cons_of_mem _ (List.mem_singleton_self _), _, rfl⟩).2,
      ((AssembleIngressesFromAWS_spec brokenAssemblyEnv schedule _ [] rfl rfl).2.1
      ⟨_, List.mem_cons_of_mem _ (List.mem_singleton_self _), _, rfl⟩).1⟩,
   ⟨_, rfl, rfl⟩, rfl⟩

/-- The loop of `FindByID` returns a negative position exactly when no
ingress has the id. -/
theorem ALBIngresses.FindByID.loop_neg (id : String) :
    ∀ (a : ALBIngresses Ls) (p : Int), 0 ≤ p →
      ((ALBIngresses.FindByID.loop id a p).1 < 0 ↔ id ∉ a.map (fun v => v.id)) := by
  intro a
  induction a with
  | nil => intro p _; simp [ALBIngresses.FindByID.loop]
  | cons v rest ih =>
    intro p hp
    simp only [ALBIngresses.FindByID.loop]
    by_cases h : v.id = id
    · simp only [h, if_true, List.map_cons, List.mem_cons, true_or, not_true_eq_false, iff_false]
      omega
    · simp only [h, if_false, ih (p + 1) (by omega), List.map_cons, List.mem_cons, not_or]
      constructor
      · intro h1; exact ⟨fun h2 => h h2.symm, h1⟩
      · intro h1; exact h1.2

/-- The loop of `RemovedIngresses` in closed form. -/
theorem ALBIngresses.RemovedIngresses.loop_eq (strip : Ls → Ls) (newList : ALBIngresses Ls) :
    ∀ (a out : ALBIngresses Ls),
      ALBIngresses.RemovedIngresses.loop strip newList a out =
        (a.map (fun i =>
            if i.id ∉ newList.map (fun v => v.id) ∧ i.loadBalancer.isSome = true then
              { (i.stripDesiredState strip).resetBackoff with valid := true }
            else i),
          out ++ (a.filter (fun i =>
            decide (i.id ∉ newList.map (fun v => v.id)) && i.loadBalancer.isSome)).map
              (fun i => { (i.stripDesiredState strip).resetBackoff with valid := true })) := by
  intro a
  induction a with
  | nil => intro out; simp [ALBIngresses.RemovedIngresses.loop]
  | cons i rest ih =>
    intro out
    have hneg := ALBIngresses.FindByID.loop_neg i.id newList 0 (le_refl 0)
    simp only [ALBIngresses.RemovedIngresses.loop, ALBIngresses.FindByID, ih]
    by_cases hin : i.id ∈ newList.map (fun v => v.id)
    · have h1 : ¬ (ALBIngresses.FindByID.loop i.id newList 0).1 < 0 := fun h => hneg.mp h hin
      have hb : decide (i.id ∉ newList.map (fun v => v.id)) = false :=
        decide_eq_false (not_not.mpr hin)
      have hc : ¬ (i.id ∉ newList.map (fun v => v.id) ∧ i.loadBalancer.isSome = true) :=
        fun h => h.1 hin
      simp only [h1, if_false, List.map_cons, List.filter_cons, hb, Bool.false_and,
        Bool.false_eq_true, if_neg hc]
    · have h1 : (ALBIngresses.FindByID.loop i.id newList 0).1 < 0 := hneg.mpr hin
      have hb : decide (i.id ∉ newList.map (fun v => v.id)) = true := decide_eq_true hin
      cases hlb : i.loadBalancer with
      | none =>
        have hc : ¬ (i.id ∉ newList.map (fun v => v.id) ∧ i.loadBalancer.isSome = true) := by
          rw [hlb]; exact fun h => Bool.false_ne_true h.2
        simp only [h1, if_true, List.map_cons, List.filter_cons, hb, Bool.true_and, if_neg hc]
        simp only [hlb, Option.isSome_none, Bool.false_eq_true, if_false]
      | some lb =>
        have hc : i.id ∉ newList.map (fun v => v.id) ∧ i.loadBalancer.isSome = true := by
          rw [hlb]; exact ⟨hin, rfl⟩
        simp only [h1, if_true, List.map_cons, List.filter_cons, hb, Bool.true_and, if_pos hc]
        simp only [hlb, Option.isSome_some, if_true, List.map_cons, List.append_assoc,
          List.singleton_append]

/-- Claim C15.  `RemovedIngresses` returns, in the order of the receiver,
exactly the ingresses whose id is the id of no element of the new list and
whose load balancer is not nil, each with its desired state stripped, its
backoff reset and `valid` set to true; every other ingress of the receiver is
neither returned nor changed. -/
theorem RemovedIngresses_spec (strip : Ls → Ls) (a newList : ALBIngresses Ls) :
    (ALBIngresses.RemovedIngresses strip a newList).2 =
        (a.filter (fun i =>
          decide (i.id ∉ newList.map (fun v => v.id)) && i.loadBalancer.isSome)).map
            (fun i => { (i.stripDesiredState strip).resetBackoff with valid := true }) ∧
      (ALBIngresses.RemovedIngresses strip a newList).1 =
        a.map (fun i =>
          if i.id ∉ newList.map (fun v => v.id) ∧ i.loadBalancer.isSome = true then
            { (i.stripDesiredState strip).resetBackoff with valid := true }
          else i) ∧
      (∀ r ∈ (ALBIngresses.RemovedIngresses strip a newList).2,
        r.valid = true ∧ r.id ∉ newList.map (fun v => v.id) ∧
        ∃ lb, r.loadBalancer = some lb ∧ lb.lb.desired = none ∧
          lb.options.desired.webACLId = none ∧ ∀ tg ∈ lb.targetgroups, tg.desired = none) := by
  have h := ALBIngresses.RemovedIngresses.loop_eq strip newList a []
  simp only [List.nil_append] at h
  refine ⟨by rw [ALBIngresses.RemovedIngresses, h], by rw [ALBIngresses.RemovedIngresses, h], ?_⟩
  intro r hr
  rw [ALBIngresses.RemovedIngresses, h] at hr
  obtain ⟨i, hi, rfl⟩ := List.mem_map.mp hr
  obtain ⟨-, hcond⟩ := List.mem_filter.mp hi
  simp only [Bool.and_eq_true, decide_eq_true_eq] at hcond
  obtain ⟨lb, hlb⟩ := Option.isSome_iff_exists.mp hcond.2
  refine ⟨rfl, hcond.1, LoadBalancer.StripDesiredState strip lb, ?_, rfl, rfl, ?_⟩
  · simp [ALBIngress.stripDesiredState, ALBIngress.resetBackoff, hlb]
  · intro tg htg
    simp only [LoadBalancer.StripDesiredState, List.mem_map] at htg
    obtain ⟨t, -, rfl⟩ := htg
    rfl

/-- Claim C15 at a sample input: of three ingresses one is removed with a load
balancer, one has no load balancer and one is still in the new list. -/
theorem RemovedIngresses_spec_witness :
    (ALBIngresses.RemovedIngresses (fun ls => ls)
        [sampleALBIngress, deletedALBIngress, keptALBIngress] [keptALBIngress]).2 =
      [{ sampleALBIngress with
          loadBalancer := some (LoadBalancer.StripDesiredState (fun ls => ls) schemeChange)
          valid := true
          backoff := 0 }] ∧
    (ALBIngresses.RemovedIngresses (fun ls => ls)
        [sampleALBIngress, deletedALBIngress, keptALBIngress] [keptALBIngress]).1 =
      [{ sampleALBIngress with
          loadBalancer := some (LoadBalancer.StripDesiredState (fun ls => ls) schemeChange)
          valid := true
          backoff := 0 }, deletedALBIngress, keptALBIngress] := by
  have h := RemovedIngresses_spec (fun ls => ls)
    [sampleALBIngress, deletedALBIngress, keptALBIngress] [keptALBIngress]
  rw [h.1, h.2.1]
  decide

end ALB
